import Mathlib

/-!
# Constant lookup of `find_constants` (o2scl, `src/base/find_constants.cpp`)

A shallow embedding of the name/unit search `find_constants::find_nothrow`
and of the unit rule `find_constants::unit_match_logic`, followed by the
properties of the search that the specification states.

Strings are `std::string` values; they are carried as Lean strings and
processed character by character.  The characters that the code tells
apart (letters for case folding, whitespace, punctuation, the wildcard
characters of `fnmatch`) are ASCII characters, and the classic "C" locale
leaves all other bytes alone, so equality, case folding, normalization and
the search for a literal text give the same answer on code points as on
UTF-8 bytes.  The one difference is in `fnmatch`, where `?` and a bracket
expression consume one code point here and one byte in the "C" locale.
-/

namespace o2scl

/-! ## Data model -/

/-- A C++ `double`, carried as its 64-bit IEEE-754 pattern.  The lookup
code never computes with a value: it copies it, hands it to the unit
converter and stores what the converter gives back. -/
structure double where
  bits : Nat
deriving DecidableEq, Repr

/-- Modelled from the spec: the unit-system flag of an entry.  The integer
constants `o2scl_const::o2scl_mks`, `o2scl_const::o2scl_cgs`, `fc_none`
and `fc_other` are declared in headers that are not part of the sources at
hand; the spec gives the flag as an enumeration over MKS, CGS, NONE and
OTHER, and the listing code prints every other integer as "unknown". -/
inductive unit_flag where
  | o2scl_mks
  | o2scl_cgs
  | fc_none
  | fc_other
  | fc_unknown
deriving DecidableEq, Repr

/-- The record `find_constants::const_entry`: the list of names, the unit,
the unit-system flag, the value, the source, and the seven exponents
`m`, `k`, `s`, `K`, `A`, `mol`, `cd` of the SI base units. -/
structure const_entry where
  names : List String
  unit : String
  unit_flag : unit_flag
  val : double
  source : String
  m : Int
  k : Int
  s : Int
  K : Int
  A : Int
  mol : Int
  cd : Int
deriving DecidableEq, Repr

/-- Modelled from the spec: the status codes returned by `find_nothrow`.
They are integer constants declared in `find_constants.h`, which is not
part of the sources at hand; the spec lists them as a closed enumeration of
eleven distinct codes.  The names are the ones the code uses:
`..._unit_match` is the spec's `..._UNIT_OK`, `..._unit_diff` is
`..._UNIT_MISMATCH`, and `exact_matches_...`/`pattern_matches_...` are the
`MULTI_EXACT_...`/`MULTI_PATTERN_...` codes. -/
inductive status where
  | one_exact_match_unit_match
  | one_exact_match_unit_diff
  | exact_matches_no_unit
  | exact_matches_unit_match
  | exact_matches_unit_diff
  | one_pattern_match_unit_match
  | one_pattern_match_unit_diff
  | pattern_matches_no_unit
  | pattern_matches_unit_match
  | pattern_matches_unit_diff
  | no_matches
deriving DecidableEq, Repr

/-- The unit converter `convert_units::convert_ret(from, to, val, converted)`:
an external collaborator.  It returns an integer status, `0` for success,
and the converted value. -/
abbrev convert_units := String → String → double → Int × double

/-! ## Library functions used by the search -/

/-- The comparison `boost::iequals` in the classic locale: both strings
have the same length and agree position by position after `toupper`,
which changes the letters `a`..`z` only. -/
def iequals_chars : List Char → List Char → Bool
  | [], [] => true
  | a :: as, b :: bs => a.toUpper == b.toUpper && iequals_chars as bs
  | _, _ => false

/-- The call `boost::iequals(a, b)` on two strings. -/
def iequals (a b : String) : Bool :=
  iequals_chars a.data b.data

/-- The test `std::isspace` in the classic locale: the codes 9 to 13
and 32. -/
def isspace (c : Char) : Bool :=
  (9 ≤ c.toNat && c.toNat ≤ 13) || c.toNat == 32

/-- The test `std::ispunct` in the classic locale: the printable ASCII
characters that are neither alphanumeric nor the space. -/
def ispunct (c : Char) : Bool :=
  (33 ≤ c.toNat && c.toNat ≤ 47) || (58 ≤ c.toNat && c.toNat ≤ 64) ||
  (91 ≤ c.toNat && c.toNat ≤ 96) || (123 ≤ c.toNat && c.toNat ≤ 126)

/-- Modelled from the spec: `remove_ws_punct` is declared in `misc.h` and
defined in a file that is not part of the sources at hand.  The spec says
that it strips whitespace and punctuation, except that the characters `+`
and `-` are preserved. -/
def remove_ws_punct (s : String) : String :=
  ⟨s.data.filter (fun c => c == '+' || c == '-' || !(isspace c || ispunct c))⟩

/-- Scan of a bracket expression of an `fnmatch` pattern for the
character `c`; the argument is the pattern after `[` and after the
negation mark, `first` says that no member has been read yet (a `]` in
that position is a member, not the end) and `hit` that `c` was one of
the members read so far.  Members are single characters, characters
escaped with a backslash, and ranges `a-b`.  The result is `hit` and the
pattern that follows the closing `]`, or `none` when the expression is
not closed. -/
def fnmatch_bracket (c : Char) : Nat → Bool → Bool → List Char →
    Option (Bool × List Char)
  | 0, _, _, _ => none
  | _ + 1, _, _, [] => none
  | fuel + 1, first, hit, a :: p =>
    if a = ']' ∧ first = false then some (hit, p)
    else
      let lo : Option (Char × List Char) :=
        if a = '\\' then
          (match p with
           | [] => none
           | x :: p1 => some (x, p1))
        else some (a, p)
      match lo with
      | none => none
      | some (l, p1) =>
        match p1 with
        | '-' :: h :: p2 =>
          if h = ']' then fnmatch_bracket c fuel false (hit || l == c) p1
          else if h = '\\' then
            (match p2 with
             | [] => none
             | x :: p3 =>
               fnmatch_bracket c fuel false
                 (hit || (l.toNat ≤ c.toNat && c.toNat ≤ x.toNat)) p3)
          else
            fnmatch_bracket c fuel false
              (hit || (l.toNat ≤ c.toNat && c.toNat ≤ h.toNat)) p2
        | _ => fnmatch_bracket c fuel false (hit || l == c) p1

/-- The matching loop of POSIX `fnmatch` with flags `0` in the classic
locale, on the pattern `p` and the string `n`: `?` matches one character,
`*` any run of characters, a backslash makes the next pattern character
literal, `[` opens a bracket expression (negated by `!` or `^`; an
unclosed `[` stands for itself), and every other character stands for
itself.  The named classes `[:alpha:]`, equivalence classes and collating
symbols of bracket expressions are not modelled.  The first argument
bounds the number of steps. -/
def fnmatch_loop : Nat → List Char → List Char → Bool
  | 0, _, _ => false
  | _ + 1, [], n => n.isEmpty
  | fuel + 1, c :: p, n =>
    if c = '*' then
      fnmatch_loop fuel p n ||
        (match n with
         | [] => false
         | _ :: n1 => fnmatch_loop fuel (c :: p) n1)
    else
      match n with
      | [] => false
      | d :: n1 =>
        if c = '?' then fnmatch_loop fuel p n1
        else if c = '\\' then
          (match p with
           | [] => false
           | x :: p1 => x == d && fnmatch_loop fuel p1 n1)
        else if c = '[' then
          let neg : Bool := (match p with
            | x :: _ => x == '!' || x == '^'
            | [] => false)
          let body : List Char := if neg then p.tail else p
          (match fnmatch_bracket d (body.length + 1) true false body with
           | some (hit, rest) => (hit != neg) && fnmatch_loop fuel rest n1
           | none => d == '[' && fnmatch_loop fuel p n1)
        else c == d && fnmatch_loop fuel p n1

/-- The characters of the C string that `std::string::c_str` hands to a C
function: those before the first NUL character. -/
def c_str (s : String) : List Char :=
  s.data.takeWhile (fun c => c != Char.ofNat 0)

/-- The call `fnmatch(pattern.c_str(), string.c_str(), 0)`: `0` when the
string matches the pattern and `FNM_NOMATCH`, which is `1`, when it does
not. -/
def fnmatch (pattern string : String) : Int :=
  if fnmatch_loop ((c_str pattern).length + (c_str string).length + 1)
      (c_str pattern) (c_str string) then 0 else 1

/-! ## The unit rule -/

open unit_flag status

/-- The method `find_constants::unit_match_logic`. -/
def unit_match_logic (unit : String) (f : const_entry) : Bool :=
  iequals unit "any" ||
  ((iequals unit "none" || unit.length == 0) && f.unit_flag == fc_none) ||
  (iequals unit "mks" &&
    (f.unit_flag == o2scl_mks || f.unit_flag == fc_none)) ||
  (iequals unit "cgs" &&
    (f.unit_flag == o2scl_cgs || f.unit_flag == fc_none)) ||
  iequals unit f.unit

/-! ## The search `find_nothrow`

The catalog `list` is a list of entries and the unit converter is passed
explicitly.  The function gives back the status code and the final
content of the vector `matches`, which is called `found` here.  An indexed
access of the code is a lookup that may fail, so a result `none` would
mean an access outside of a vector. -/

/-- The local constant `match_exact` of `find_nothrow`. -/
def match_exact : Nat := 1

/-- The local constant `match_pattern` of `find_nothrow`. -/
def match_pattern : Nat := 2

/-- Inner loop of the first pass, over the names of entry `i` that are
still to be read.  The state is the vector `indexes` and `match_type`.
On the first name that is equal to `name` after normalization, `i` is
pushed, `match_type` is set and the loop over the names ends. -/
def exact_names (name : String) (i : Nat) :
    List String → List Nat × Nat → List Nat × Nat
  | [], st => st
  | nm :: rest, st =>
    let temp := remove_ws_punct nm
    if iequals name temp then (st.1 ++ [i], match_exact)
    else exact_names name i rest st

/-- Outer loop of the first pass, over the entries from position `i` on. -/
def exact_pass (name : String) :
    List const_entry → Nat → List Nat × Nat → List Nat × Nat
  | [], _, st => st
  | e :: es, i, st => exact_pass name es (i + 1) (exact_names name i e.names st)

/-- Inner loop of the second pass, over the names of entry `i` that are
still to be read, with the `fnmatch` pattern `fn_pat`. -/
def pattern_names (fn_pat : String) (i : Nat) :
    List String → List Nat × Nat → List Nat × Nat
  | [], st => st
  | nm :: rest, st =>
    let temp := remove_ws_punct nm
    let fn_ret : Bool := fnmatch fn_pat temp == 0
    if fn_ret = true then (st.1 ++ [i], match_pattern)
    else pattern_names fn_pat i rest st

/-- Outer loop of the second pass, over the entries from position `i` on. -/
def pattern_pass (fn_pat : String) :
    List const_entry → Nat → List Nat × Nat → List Nat × Nat
  | [], _, st => st
  | e :: es, i, st =>
    pattern_pass fn_pat es (i + 1) (pattern_names fn_pat i e.names st)

/-- The name search of `find_nothrow`: the normalized name goes through
the first pass and, when that leaves `indexes` empty, through the second
pass.  The result is `indexes` and `match_type`. -/
def name_search (list : List const_entry) (name : String) : List Nat × Nat :=
  let st := exact_pass name list 0 ([], 0)
  let fn_pat := "*" ++ name ++ "*"
  if st.1.length = 0 then pattern_pass fn_pat list 0 st else st

/-- The loop that copies every name match when no unit is given. -/
def copy_loop (list : List const_entry) :
    List Nat → List const_entry → Option (List const_entry)
  | [], found => some found
  | ix :: rest, found => do
    let e ← list[ix]?
    copy_loop list rest (found ++ [e])

/-- The loop that collects in `indexes2` the name matches with a matching
unit. -/
def unit_loop (list : List const_entry) (unit : String) :
    List Nat → List Nat → Option (List Nat)
  | [], indexes2 => some indexes2
  | ix :: rest, indexes2 => do
    let e ← list[ix]?
    if unit_match_logic unit e then unit_loop list unit rest (indexes2 ++ [ix])
    else unit_loop list unit rest indexes2

/-- The loop that tries to convert every name match to the requested
unit.  A converted copy is pushed when the conversion succeeds and
`matches` is empty or the names differ from those of its last element. -/
def convert_loop (cu : convert_units) (list : List const_entry)
    (unit : String) : List Nat → List const_entry → Option (List const_entry)
  | [], found => some found
  | ix :: rest, found => do
    let e ← list[ix]?
    let r := cu e.unit unit e.val
    let cret := r.1
    let val2 := r.2
    if cret = 0 then
      if found.length = 0 then
        convert_loop cu list unit rest
          (found ++ [{ e with val := val2, unit := unit }])
      else do
        let last ← found[found.length - 1]?
        if e.names ≠ last.names then
          convert_loop cu list unit rest
            (found ++ [{ e with val := val2, unit := unit }])
        else convert_loop cu list unit rest found
    else convert_loop cu list unit rest found

/-- The loop that copies the entries at the given indexes, from loop
counter `i` on, leaving out an entry whose names are those of the last
element of `matches`.  It is used on `indexes` when no conversion
succeeded and on `indexes2` when some unit matched. -/
def dedup_loop (list : List const_entry) :
    List Nat → Nat → List const_entry → Option (List const_entry)
  | [], _, found => some found
  | ix :: rest, i, found => do
    let e ← list[ix]?
    if i = 0 then dedup_loop list rest (i + 1) (found ++ [e])
    else do
      let last ← found[found.length - 1]?
      if e.names ≠ last.names then dedup_loop list rest (i + 1) (found ++ [e])
      else dedup_loop list rest (i + 1) found

/-- The method `find_constants::find_nothrow`, with the catalog `list` and
the unit converter `cu` as arguments.  The result is the status and the
content of `matches` on return. -/
def find_nothrow (cu : convert_units) (list : List const_entry)
    (name unit : String) : Option (status × List const_entry) := do
  let name := remove_ws_punct name
  let st := name_search list name
  let indexes := st.1
  let match_type := st.2
  -- There was only one match
  if indexes.length = 1 then do
    let i0 ← indexes[0]?
    let e ← list[i0]?
    if unit_match_logic unit e then
      if match_type = match_exact then
        return (one_exact_match_unit_match, [e])
      else return (one_pattern_match_unit_match, [e])
    else if unit.length > 0 then
      -- Try to convert units
      let r := cu e.unit unit e.val
      let cret := r.1
      let val2 := r.2
      if cret = 0 then
        if match_type = match_exact then
          return (one_exact_match_unit_match, [{ e with val := val2, unit := unit }])
        else
          return (one_pattern_match_unit_match, [{ e with val := val2, unit := unit }])
      else if match_type = match_exact then
        return (one_exact_match_unit_diff, [e])
      else return (one_pattern_match_unit_diff, [e])
    else if match_type = match_exact then
      return (one_exact_match_unit_diff, [e])
    else return (one_pattern_match_unit_diff, [e])
  else if indexes.length > 0 ∧ unit = "" then do
    let found ← copy_loop list indexes []
    if match_type = match_exact then return (exact_matches_no_unit, found)
    else return (pattern_matches_no_unit, found)
  else if indexes.length > 0 then do
    let indexes2 ← unit_loop list unit indexes []
    if indexes2.length = 0 then do
      let found ← convert_loop cu list unit indexes []
      if found.length > 0 then
        if found.length = 1 then
          if match_type = match_exact then
            return (one_exact_match_unit_match, found)
          else return (one_pattern_match_unit_match, found)
        else if match_type = match_exact then
          return (exact_matches_unit_match, found)
        else return (pattern_matches_unit_match, found)
      else do
        let found ← dedup_loop list indexes 0 found
        if match_type = match_exact then
          return (exact_matches_unit_diff, found)
        else return (pattern_matches_unit_diff, found)
    else do
      let found ← dedup_loop list indexes2 0 []
      if match_type = match_exact then
        if found.length = 1 then return (one_exact_match_unit_match, found)
        else return (exact_matches_unit_match, found)
      else if found.length = 1 then
        return (one_pattern_match_unit_match, found)
      else return (pattern_matches_unit_match, found)
  else return (no_matches, [])

/-! ## Errors, unique lookup, insertion and removal

The methods below report a failure through the macros `O2SCL_ERR` and
`O2SCL_ERR2`.  A method that changes the catalog gives back its outcome
together with the catalog as it is when the method ends or fails.  The
output to `cout` is not modelled, so the argument `verbose`, which only
selects the output, is left out. -/

/-- Modelled from the spec: the error numbers `o2scl::exc_einval` and
`o2scl::exc_efailed`, which are declared in a header that is not part of
the sources at hand.  The methods of the catalog use `exc_einval` only;
`screenify` uses `exc_efailed`. -/
inductive exc where
  | exc_einval
  | exc_efailed
deriving DecidableEq, Repr

/-- Modelled from the spec: the error that the macros `O2SCL_ERR` and
`O2SCL_ERR2` raise.  The macros are defined in a header that is not part
of the sources at hand; the spec says that the operation fails with an
error, so raising the error ends the method.  The error carries the
message and the error number given to the macro. -/
structure o2scl_err where
  reason : String
  errnum : exc
deriving DecidableEq, Repr

/-- The error of `O2SCL_ERR(d, n)`. -/
def O2SCL_ERR (d : String) (n : exc) : o2scl_err :=
  ⟨d, n⟩

/-- The error of `O2SCL_ERR2(d, d2, n)`: the message is `d` followed by
`d2`. -/
def O2SCL_ERR2 (d d2 : String) (n : exc) : o2scl_err :=
  ⟨d ++ d2, n⟩

/-- Modelled from the spec: `o2scl::itos`, which is declared in a header
that is not part of the sources at hand, turns the raw status code into
text for the error message; it is taken as the decimal text of the
integer. -/
def itos (n : Int) : String :=
  toString n

/-- The method `find_constants::find_unique`.  The integer behind each
status constant is declared in `find_constants.h`, which is not part of
the sources at hand, so the numbering `code` is an argument.  A result
`none` would mean an access outside of a vector. -/
def find_unique (code : status → Int) (cu : convert_units)
    (list : List const_entry) (name unit : String) :
    Option (Except o2scl_err double) := do
  let r ← find_nothrow cu list name unit
  let ret := r.1
  let found := r.2
  if ret ≠ one_exact_match_unit_match ∧ ret ≠ one_pattern_match_unit_match then
    let err := "Failed to find unique match for name " ++
      name ++ " and unit " ++ unit ++ " in find_constants::find_unique(). " ++
      "Returned " ++ itos (code ret) ++ "."
    return Except.error (O2SCL_ERR err exc.exc_einval)
  else do
    let e ← found[0]?
    return Except.ok e.val

/-- Innermost loop of `add_constant`, over the names `f.names[k]` that are
still to be read: `n_matches` is incremented for every name equal to
`list[i].names[j]`.  The counter is a `size_t`; it is incremented at most
once in a loop step, so it stays below 2^64 unless the loops make 2^64
steps, and it is carried as a natural number. -/
def add_count_k (nj : String) : List String → Nat → Nat
  | [], n_matches => n_matches
  | nk :: rest, n_matches =>
    if nj = nk then add_count_k nj rest (n_matches + 1)
    else add_count_k nj rest n_matches

/-- Middle loop of `add_constant`, over the names `list[i].names[j]` that
are still to be read. -/
def add_count_j (fnames : List String) : List String → Nat → Nat
  | [], n_matches => n_matches
  | nj :: rest, n_matches =>
    add_count_j fnames rest (add_count_k nj fnames n_matches)

/-- Outer loop of `add_constant`, over the entries that are still to be
read. -/
def add_count_i (fnames : List String) : List const_entry → Nat → Nat
  | [], n_matches => n_matches
  | e :: es, n_matches =>
    add_count_i fnames es (add_count_j fnames e.names n_matches)

/-- The method `find_constants::add_constant`: the outcome and the catalog
afterwards.  (With `verbose>1` the code prints `f.names[0]` before it
tests that `f` has a name; that output is outside of this model.) -/
def add_constant (list : List const_entry) (f : const_entry) :
    Except o2scl_err Unit × List const_entry :=
  if f.names.length = 0 then
    (Except.error (O2SCL_ERR2 "No names specified in "
      "find_constants::add_constant()." exc.exc_einval), list)
  else
    -- Double check that there are no name duplicates before we add
    let n_matches := add_count_i f.names list 0
    if n_matches > 0 then
      (Except.error (O2SCL_ERR2 "Name already found in "
        "find_constants::add_constant()." exc.exc_einval), list)
    else (Except.ok (), list ++ [f])

/-- Inner loop of `del_constant`, over the names of entry `i` that are
still to be read.  The state is `n_matches` and `i_match`; `i_match` has
no value before the first match. -/
def del_names (name : String) (i : Nat) :
    List String → Nat × Option Nat → Nat × Option Nat
  | [], st => st
  | nm :: rest, st =>
    if nm = name then del_names name i rest (st.1 + 1, some i)
    else del_names name i rest st

/-- Outer loop of `del_constant`, over the entries from position `i` on. -/
def del_scan (name : String) :
    List const_entry → Nat → Nat × Option Nat → Nat × Option Nat
  | [], _, st => st
  | e :: es, i, st => del_scan name es (i + 1) (del_names name i e.names st)

/-- The method `find_constants::del_constant`: the outcome and the catalog
afterwards.  A result `none` would mean that `i_match` is read without a
value or that the erased position is outside of the catalog. -/
def del_constant (list : List const_entry) (name : String) :
    Option (Except o2scl_err Unit × List const_entry) :=
  let st := del_scan name list 0 (0, none)
  let n_matches := st.1
  if n_matches = 1 then
    match st.2 with
    | none => none
    | some i_match =>
      if i_match < list.length then some (Except.ok (), list.eraseIdx i_match)
      else none
  else if n_matches > 1 then
    some (Except.error (O2SCL_ERR2
      "More than one match found in attempting to delete in "
      "find_constants::del_constant" exc.exc_einval), list)
  else
    some (Except.error (O2SCL_ERR2 "No matches in "
      "find_constants::del_constant" exc.exc_einval), list)

/-! ## The column layout `screenify` (`misc.h`)

The method `terminal::str_len`, the length of a string without its vt100
sequences, is declared in `misc.h` and defined in a file that is not part
of the sources at hand; it is an argument of the embedding.  The counters
are `size_t` values; they count strings, characters and columns of
objects in memory and are carried as natural numbers. -/

/-- The loop of `screenify` that determines the size `lmax` of the largest
string, over the strings that are still to be read. -/
def lmax_loop (str_len : String → Nat) : List String → Nat → Nat
  | [], lmax => lmax
  | s :: rest, lmax =>
    if lmax < str_len s then lmax_loop str_len rest (str_len s)
    else lmax_loop str_len rest lmax

/-- The inner loop that pads a string: one space is appended in each of
the given number of steps. -/
def pad_spaces : Nat → String → String
  | 0, s => s
  | n + 1, s => pad_spaces n (s ++ " ")

/-- The loop of `screenify` that fills `in_spaces`: every string is padded
with `lmax+1-itemp` spaces, where `itemp` is its size. -/
def pad_loop (str_len : String → Nat) (lmax : Nat) : List String → List String
  | [] => []
  | s :: rest =>
    let itemp := str_len s
    pad_spaces (lmax + 1 - itemp) s :: pad_loop str_len lmax rest

/-- The inner loop of `screenify` over the columns `j` for row `i`, with
the number of steps that are left: `in_spaces[i+j*row]` is appended to
`out_cols[i]` when `i+j*row<nin`. -/
def cols_loop (in_spaces : List String) (nin row i : Nat) :
    Nat → Nat → List String → Option (List String)
  | 0, _, out_cols => some out_cols
  | n + 1, j, out_cols =>
    if i + j * row < nin then do
      let x ← in_spaces[i + j * row]?
      let cur ← out_cols[i]?
      cols_loop in_spaces nin row i n (j + 1) (out_cols.set i (cur ++ x))
    else cols_loop in_spaces nin row i n (j + 1) out_cols

/-- The outer loop of `screenify` over the rows `i`, with the number of
steps that are left: an empty string is pushed to `out_cols` and the
columns of row `i` are appended to `out_cols[i]`. -/
def rows_loop (in_spaces : List String) (nin row col : Nat) :
    Nat → Nat → List String → Option (List String)
  | 0, _, out_cols => some out_cols
  | n + 1, i, out_cols => do
    let out ← cols_loop in_spaces nin row i col 0 (out_cols ++ [""])
    rows_loop in_spaces nin row col n (i + 1) out

/-- The function template `screenify`, with `out_cols` on entry as an
argument and `out_cols` on return as the result.  The strings
`in_cols[0]` to `in_cols[nin-1]` are read, so a result `none` means that
`in_cols` has fewer than `nin` strings or that a vector is accessed
outside of its bounds. -/
def screenify (str_len : String → Nat) (nin : Nat) (in_cols : List String)
    (out_cols : List String) (max_size : Nat) :
    Option (Except o2scl_err (List String)) :=
  if nin = 0 then
    some (Except.error (O2SCL_ERR "No strings specified in screenify()."
      exc.exc_efailed))
  else if in_cols.length < nin then none
  else
    -- Determine size of largest string
    let lmax := lmax_loop str_len (in_cols.take nin) 0
    -- Pad with spaces
    let in_spaces := pad_loop str_len lmax (in_cols.take nin)
    -- Determine number of rows and columns
    let col0 := max_size / (lmax + 1)
    let col := if col0 = 0 then 1 else col0
    let row := if nin / col * col = nin then nin / col else nin / col + 1
    match rows_loop in_spaces nin row col row 0 out_cols with
    | some out => some (Except.ok out)
    | none => none

/-! ## The number sequence `gen_test_number` (`misc.h`)

The class is a template over the number type `fp_t`.  The documented
sequence consists of dyadic rationals, so `fp_t` is taken to be the
rationals, where the arithmetic of `gen` is exact; for the radix 2 the
same values are exact in binary floating point.  The counter `n` is an
`int`; it is carried as an integer, which is the same as long as fewer
than 2^31 numbers are generated. -/

/-- The state of a `gen_test_number` object: the count `n` of the numbers
generated so far and the radix. -/
structure gen_test_number where
  n : Int
  radix : ℚ

/-- The constructor `gen_test_number()`. -/
def gen_test_number.create : gen_test_number :=
  ⟨0, 2⟩

/-- The method `gen_test_number::reset`. -/
def gen_test_number.reset (g : gen_test_number) : gen_test_number :=
  { g with n := 0 }

/-- The method `gen_test_number::gen`: the number that is returned and the
state afterwards.  The conversion of `(n-3)/8` to `int` and the operator
`%` of C++ round towards zero. -/
def gen_test_number.gen (g : gen_test_number) : ℚ × gen_test_number :=
  let n := g.n
  let radix := g.radix
  let d : Int := Int.tdiv (n - 3) 8
  let x : ℚ :=
    if n = 0 then 1
    else if n = 1 then 0
    else if n = 2 then -1
    else if Int.tmod (n - 3) 8 = 0 then radix ^ (-(d + 1))
    else if Int.tmod (n - 3) 8 = 1 then -radix ^ (-(d + 1))
    else if Int.tmod (n - 3) 8 = 2 then 1 - radix ^ (-(d + 2))
    else if Int.tmod (n - 3) 8 = 3 then -1 + radix ^ (-(d + 2))
    else if Int.tmod (n - 3) 8 = 4 then 1 + radix ^ (-(d + 1))
    else if Int.tmod (n - 3) 8 = 5 then -1 - radix ^ (-(d + 1))
    else if Int.tmod (n - 3) 8 = 6 then radix ^ (d + 1)
    else if Int.tmod (n - 3) 8 = 7 then -radix ^ (d + 1)
    else 0
  (x, { g with n := n + 1 })

/-- The numbers that the given number of successive calls of `gen`
return. -/
def gen_calls : Nat → gen_test_number → List ℚ
  | 0, _ => []
  | k + 1, g => (g.gen).1 :: gen_calls k (g.gen).2

/-! ## The notions of the specification

These definitions follow the words of the specification, not the loops of
the code; the theorems below compare the two. -/

/-- An entry matches the normalized query `q` exactly when the normalized
form of one of its names equals `q` without regard to case. -/
def exact_match (q : String) (e : const_entry) : Bool :=
  e.names.any (fun a => iequals q (remove_ws_punct a))

/-- An entry matches the normalized query `q` as a pattern when the
normalized form of one of its names matches `q` wrapped in wildcards. -/
def pattern_match (q : String) (e : const_entry) : Bool :=
  e.names.any (fun a => fnmatch ("*" ++ q ++ "*") (remove_ws_punct a) == 0)

/-- The entries of the catalog that match the normalized query `q` by
name, in catalog order: the exact matches of pass 1, or, when pass 1
finds nothing, the pattern matches of pass 2. -/
def name_matches (list : List const_entry) (q : String) : List const_entry :=
  if list.any (exact_match q) then list.filter (exact_match q)
  else list.filter (pattern_match q)

/-- The copy of an entry in which the value and the unit are replaced by
the converted value and the requested unit. -/
def converted (cu : convert_units) (unit : String) (e : const_entry) :
    const_entry :=
  { e with val := (cu e.unit unit e.val).2, unit := unit }

/-- The converter succeeds on an entry for the requested unit. -/
def convertible (cu : convert_units) (unit : String) (e : const_entry) : Bool :=
  (cu e.unit unit e.val).1 == 0

/-- De-duplication by the adjacent-names rule: an entry is dropped when
its names sequence equals `prev`, the names of the entry kept last. -/
def drop_repeats : Option (List String) → List const_entry → List const_entry
  | _, [] => []
  | prev, e :: es =>
    if prev = some e.names then drop_repeats prev es
    else e :: drop_repeats (some e.names) es

/-- The converted copies of the entries on which the converter succeeds,
leaving out an entry whose names sequence equals `prev`, the names of the
entry appended last. -/
def convert_keep (cu : convert_units) (unit : String) :
    Option (List String) → List const_entry → List const_entry
  | _, [] => []
  | prev, e :: es =>
    if convertible cu unit e = true ∧ prev ≠ some e.names then
      converted cu unit e :: convert_keep cu unit (some e.names) es
    else convert_keep cu unit prev es

/-- The status for a single match with an accepted unit, qualified by the
pass that found the match. -/
def one_unit_ok (exact : Bool) : status :=
  if exact then one_exact_match_unit_match else one_pattern_match_unit_match

/-- The status for a single match with a unit mismatch. -/
def one_unit_mismatch (exact : Bool) : status :=
  if exact then one_exact_match_unit_diff else one_pattern_match_unit_diff

/-- The status for several matches and no unit. -/
def multi_no_unit (exact : Bool) : status :=
  if exact then exact_matches_no_unit else pattern_matches_no_unit

/-- The status for several matches with an accepted unit. -/
def multi_unit_ok (exact : Bool) : status :=
  if exact then exact_matches_unit_match else pattern_matches_unit_match

/-- The status for several matches with a unit mismatch. -/
def multi_unit_mismatch (exact : Bool) : status :=
  if exact then exact_matches_unit_diff else pattern_matches_unit_diff

/-- The positions, counted from `i`, of the entries that satisfy `p`. -/
def positions (p : const_entry → Bool) : List const_entry → Nat → List Nat
  | [], _ => []
  | e :: es, i =>
    if p e then i :: positions p es (i + 1) else positions p es (i + 1)

/-- The entries `ents` are, in this order, the entries of the catalog at
the indexes `idxs`. -/
def at_positions (list : List const_entry) (idxs : List Nat)
    (ents : List const_entry) : Prop :=
  List.Forall₂ (fun i e => list[i]? = some e) idxs ents

/-- The result that the specification asks of the search, written with
the notions above: the status and the list of entries, by the number of
name matches, the requested unit and the outcome of the conversions. -/
def find_result (cu : convert_units) (list : List const_entry)
    (name unit : String) : status × List const_entry :=
  let q := remove_ws_punct name
  let exact := list.any (exact_match q)
  match name_matches list q with
  | [] => (no_matches, [])
  | [e] =>
    if unit_match_logic unit e then (one_unit_ok exact, [e])
    else if unit.length > 0 ∧ convertible cu unit e = true then
      (one_unit_ok exact, [converted cu unit e])
    else (one_unit_mismatch exact, [e])
  | e1 :: e2 :: es =>
    let ms := e1 :: e2 :: es
    if unit = "" then (multi_no_unit exact, ms)
    else if ms.filter (unit_match_logic unit) = [] then
      if convert_keep cu unit none ms = [] then
        (multi_unit_mismatch exact, drop_repeats none ms)
      else if (convert_keep cu unit none ms).length = 1 then
        (one_unit_ok exact, convert_keep cu unit none ms)
      else (multi_unit_ok exact, convert_keep cu unit none ms)
    else if (drop_repeats none (ms.filter (unit_match_logic unit))).length = 1 then
      (one_unit_ok exact, drop_repeats none (ms.filter (unit_match_logic unit)))
    else (multi_unit_ok exact, drop_repeats none (ms.filter (unit_match_logic unit)))

/-- The status is one of the five that are qualified EXACT. -/
def status.is_exact : status → Bool
  | one_exact_match_unit_match => true
  | one_exact_match_unit_diff => true
  | exact_matches_no_unit => true
  | exact_matches_unit_match => true
  | exact_matches_unit_diff => true
  | _ => false

/-! ## The built-in catalog -/

/-- Rows 0 to 45 of the table of the constructor `find_constants::find_constants`. -/
def builtin_rows_1 (vals : Nat → double) : List const_entry :=
  [
    ⟨["Schwarzchild radius", "rschwarz"],
      "m", o2scl_mks, vals 0, "derived from the IAU 2015 nominal solar mass parameter",
      1, 0, 0, 0, 0, 0, 0⟩,
    ⟨["vacuum permittivity", "vacuum electric permittivity", "permittivity of free space", "epsilon0", "ε0"],
      "F/m", o2scl_mks, vals 1, "CODATA 2018",
      -3, -1, 4, 0, 2, 0, 0⟩,
    ⟨["vacuum permeability", "vacuum electric permeability", "permeability of free space", "mu0", "μ0", "magnetic constant"],
      "N/A^2", o2scl_mks, vals 2, "CODATA 2018",
      1, 1, -2, 0, -2, 0, 0⟩,
    ⟨["Bohr radius", "rbohr"],
      "m", o2scl_mks, vals 3, "CODATA 2018",
      1, 0, 0, 0, 0, 0, 0⟩,
    ⟨["Thomson cross section", "σThomson"],
      "m^2", o2scl_mks, vals 4, "CODATA 2018",
      2, 0, 0, 0, 0, 0, 0⟩,
    ⟨["classical electron radius", "electron radius", "relectron", "re"],
      "m", o2scl_mks, vals 5, "CODATA 2018",
      1, 0, 0, 0, 0, 0, 0⟩,
    ⟨["Wien frequency displacement law", "b'", "bprime", "b′"],
      "Hz/K", o2scl_mks, vals 6, "CODATA 2018",
      0, 0, -1, -1, 0, 0, 0⟩,
    ⟨["Wien wavelength displacement law", "b"],
      "m/K", o2scl_mks, vals 7, "CODATA 2018",
      1, 0, 0, -1, 0, 0, 0⟩,
    ⟨["Planck length"],
      "m", o2scl_mks, vals 8, "derived",
      1, 0, 0, 0, 0, 0, 0⟩,
    ⟨["Planck mass"],
      "kg", o2scl_mks, vals 9, "derived",
      0, 1, 0, 0, 0, 0, 0⟩,
    ⟨["Planck time"],
      "s", o2scl_mks, vals 10, "derived",
      0, 0, 1, 0, 0, 0, 0⟩,
    ⟨["Planck temperature"],
      "K", o2scl_mks, vals 11, "derived",
      0, 0, 0, 1, 0, 0, 0⟩,
    ⟨["elementary charge", "e"],
      "C", o2scl_mks, vals 12, "exact",
      0, 0, 1, 0, 1, 0, 0⟩,
    ⟨["Bohr magneton"],
      "J/T", o2scl_mks, vals 13, "CODATA 2018",
      1, 1, 0, 0, 1, 0, 0⟩,
    ⟨["nuclear magneton"],
      "J/T", o2scl_mks, vals 14, "CODATA 2018",
      1, 1, 0, 0, 1, 0, 0⟩,
    ⟨["strong coupling constant at the Z mass"],
      "", fc_none, vals 15, "https://pdg.lbl.gov/2021/reviews/contents_sports.html",
      0, 0, 0, 0, 0, 0, 0⟩,
    ⟨["Schwarzchild radius", "rschwarz"],
      "cm", o2scl_cgs, vals 16, "derived from the IAU 2015 nominal solar mass parameter",
      0, 0, 0, 0, 0, 0, 0⟩,
    ⟨["Schwarzchild radius", "rschwarz"],
      "km", o2scl_mks, vals 17, "derived from the IAU 2015 nominal solar mass parameter",
      1, 0, 0, 0, 0, 0, 0⟩,
    ⟨["speed of light", "c", "lightspeed"],
      "m/s", o2scl_mks, vals 18, "exact",
      1, 0, -1, 0, 0, 0, 0⟩,
    ⟨["speed of light", "c", "lightspeed"],
      "cm/s", o2scl_cgs, vals 19, "exact",
      0, 0, 0, 0, 0, 0, 0⟩,
    ⟨["gravitational", "g", "gnewton"],
      "m^3/kg/s^2", o2scl_mks, vals 20, "CODATA 2018",
      3, -1, -2, 0, 0, 0, 0⟩,
    ⟨["gravitational", "g", "gnewton"],
      "cm^3/g/s^2", o2scl_cgs, vals 21, "CODATA 2018",
      0, 0, 0, 0, 0, 0, 0⟩,
    ⟨["Boltzmann's", "kb", "boltzmann"],
      "m^2/kg/s^2/K", o2scl_mks, vals 22, "exact",
      2, -1, -2, -1, 0, 0, 0⟩,
    ⟨["Boltzmann's", "kb", "boltzmann"],
      "cm^2/g/s^2/K", o2scl_cgs, vals 23, "exact",
      0, 0, 0, 0, 0, 0, 0⟩,
    ⟨["Stefan-Boltzmann", "sigmasb", "stefanboltzmann", "ssb", "σsb"],
      "kg/s^3/K^4", o2scl_mks, vals 24, "exact; derived from k_B, c, and h bar",
      0, 1, -3, -4, 0, 0, 0⟩,
    ⟨["Stefan-Boltzmann", "sigmasb", "stefanboltzmann", "ssb", "σsb"],
      "g/s^3/K^4", o2scl_cgs, vals 25, "exact; derived from k_B, c, and h bar",
      0, 0, 0, 0, 0, 0, 0⟩,
    ⟨["Planck", "h", "plancks"],
      "kg*m^2/s", o2scl_mks, vals 26, "exact",
      2, 1, -1, 0, 0, 0, 0⟩,
    ⟨["Planck", "h", "plancks"],
      "g*cm^2/s", o2scl_cgs, vals 27, "exact",
      0, 0, 0, 0, 0, 0, 0⟩,
    ⟨["reduced Planck", "hbar", "ħ", "reducedplancks"],
      "kg*m^2/s", o2scl_mks, vals 28, "exact; derived from the Planck constant",
      2, 1, -1, 0, 0, 0, 0⟩,
    ⟨["reduced Planck", "hbar", "ħ", "reducedplancks"],
      "g*cm^2/s", o2scl_cgs, vals 29, "exact; derived from the Planck constant",
      0, 0, 0, 0, 0, 0, 0⟩,
    ⟨["Avogadro's number", "na", "avogadro"],
      "", fc_none, vals 30, "exact",
      0, 0, 0, 0, 0, 0, 0⟩,
    ⟨["fine structure", "alphaem", "alpha", "αem"],
      "", fc_none, vals 31, "CODATA 2018",
      0, 0, 0, 0, 0, 0, 0⟩,
    ⟨["pi", "π"],
      "", fc_none, vals 32, "exact",
      0, 0, 0, 0, 0, 0, 0⟩,
    ⟨["zeta32", "zeta(3/2)", "ζ(3/2)"],
      "", fc_none, vals 33, "exact",
      0, 0, 0, 0, 0, 0, 0⟩,
    ⟨["zeta2", "zeta(2)", "ζ(2)"],
      "", fc_none, vals 34, "exact",
      0, 0, 0, 0, 0, 0, 0⟩,
    ⟨["zeta52", "zeta(5/2)", "ζ(5/2)"],
      "", fc_none, vals 35, "exact",
      0, 0, 0, 0, 0, 0, 0⟩,
    ⟨["zeta3", "zeta(3)", "ζ(3)"],
      "", fc_none, vals 36, "exact",
      0, 0, 0, 0, 0, 0, 0⟩,
    ⟨["zeta5", "zeta(5)", "ζ(5)"],
      "", fc_none, vals 37, "exact",
      0, 0, 0, 0, 0, 0, 0⟩,
    ⟨["zeta7", "zeta(7)", "ζ(7)"],
      "", fc_none, vals 38, "exact",
      0, 0, 0, 0, 0, 0, 0⟩,
    ⟨["pi2", "pisquared", "π²"],
      "", fc_none, vals 39, "exact",
      0, 0, 0, 0, 0, 0, 0⟩,
    ⟨["pi3", "picubed", "π³"],
      "", fc_none, vals 40, "exact",
      0, 0, 0, 0, 0, 0, 0⟩,
    ⟨["pi4", "pifourth", "π⁴"],
      "", fc_none, vals 41, "exact",
      0, 0, 0, 0, 0, 0, 0⟩,
    ⟨["rootpi", "squarerootpi", "√π"],
      "", fc_none, vals 42, "exact",
      0, 0, 0, 0, 0, 0, 0⟩,
    ⟨["Euler-Mascheroni", "euler"],
      "", fc_none, vals 43, "exact",
      0, 0, 0, 0, 0, 0, 0⟩,
    ⟨["sin2thetaw", "sin2θW", "sin²θW"],
      "", fc_none, vals 44, "PDG 2020 value",
      0, 0, 0, 0, 0, 0, 0⟩,
    ⟨["gfermi", "gf"],
      "s^4/m^4/kg^2", o2scl_mks, vals 45, "derived from CODATA 2018 value for G_Fermi (identical to PDG 2020 value) and CODATA 2018 value of electron volt",
      -4, -2, 4, 0, 0, 0, 0⟩
  ]

/-- Rows 46 to 91 of the table of the constructor `find_constants::find_constants`. -/
def builtin_rows_2 (vals : Nat → double) : List const_entry :=
  [
    ⟨["gfermi", "gf"],
      "s^4/cm^4/g^2", o2scl_cgs, vals 46, "derived from CODATA 2018 value for G_Fermi (identical to PDG 2020 value) and CODATA 2018 value of electron volt",
      0, 0, 0, 0, 0, 0, 0⟩,
    ⟨["gfermi", "gf"],
      "1/GeV^2", fc_unknown, vals 47, "CODATA 2018 (identical to PDG 2020 value)",
      0, 0, 0, 0, 0, 0, 0⟩,
    ⟨["elementarycharge", "electroncharge", "e", "chargeelectron", "qelectron"],
      "C", o2scl_mks, vals 48, "exact",
      0, 0, 1, 0, 1, 0, 0⟩,
    ⟨["hbarc", "ħc"],
      "MeV*fm", fc_other, vals 49, "derived from Plack constant",
      0, 0, 0, 0, 0, 0, 0⟩,
    ⟨["hbarc", "ħc"],
      "J*m", o2scl_mks, vals 50, "derived from Plack constant",
      3, 1, -2, 0, 0, 0, 0⟩,
    ⟨["hbarc", "ħc"],
      "erg*cm", o2scl_cgs, vals 51, "derived from Plack constant",
      0, 0, 0, 0, 0, 0, 0⟩,
    ⟨["mass W", "Wmass", "mW", "mW"],
      "GeV", fc_other, vals 52, "https://pdg.lbl.gov/2021/tables/contents_tables.html on 10/27/21",
      0, 1, 0, 0, 0, 0, 0⟩,
    ⟨["mass Z", "Zmass", "mZ", "mZ"],
      "GeV", fc_other, vals 53, "https://pdg.lbl.gov/2021/tables/contents_tables.html on 10/27/21",
      0, 1, 0, 0, 0, 0, 0⟩,
    ⟨["mass H", "Hmass", "mH", "mH", "mass higgs", "higgs mass", "mH0", "mH⁰"],
      "GeV", fc_other, vals 54, "https://pdg.lbl.gov/2021/tables/contents_tables.html on 10/27/21",
      0, 1, 0, 0, 0, 0, 0⟩,
    ⟨["mass electron", "electronmass", "melectron", "melec"],
      "kg", o2scl_mks, vals 55, "CODATA 2018",
      0, 1, 0, 0, 0, 0, 0⟩,
    ⟨["mass electron", "electronmass", "melectron", "melec"],
      "g", o2scl_cgs, vals 56, "CODATA 2018",
      0, 0, 0, 0, 0, 0, 0⟩,
    ⟨["mass muon", "muonmass", "mmuon"],
      "kg", o2scl_mks, vals 57, "CODATA 2018",
      0, 1, 0, 0, 0, 0, 0⟩,
    ⟨["mass muon", "muonmass", "mmuon"],
      "g", o2scl_cgs, vals 58, "CODATA 2018",
      0, 0, 0, 0, 0, 0, 0⟩,
    ⟨["mass tau", "taumass", "mtau"],
      "kg", o2scl_mks, vals 59, "CODATA 2018",
      0, 1, 0, 0, 0, 0, 0⟩,
    ⟨["mass tau", "taumass", "mtau"],
      "g", o2scl_cgs, vals 60, "CODATA 2018",
      0, 0, 0, 0, 0, 0, 0⟩,
    ⟨["mass neutron", "neutronmass", "mneutron", "mneut"],
      "kg", o2scl_mks, vals 61, "CODATA 2018",
      0, 1, 0, 0, 0, 0, 0⟩,
    ⟨["mass neutron", "neutronmass", "mneutron", "mneut"],
      "g", o2scl_cgs, vals 62, "CODATA 2018",
      0, 0, 0, 0, 0, 0, 0⟩,
    ⟨["mass proton", "protonmass", "mproton", "mprot"],
      "kg", o2scl_mks, vals 63, "CODATA 2018",
      0, 1, 0, 0, 0, 0, 0⟩,
    ⟨["mass proton", "protonmass", "mproton", "mprot"],
      "g", o2scl_cgs, vals 64, "CODATA 2018",
      0, 0, 0, 0, 0, 0, 0⟩,
    ⟨["mass deuteron", "deuteronmass", "mdeuteron", "mdeut"],
      "kg", o2scl_mks, vals 65, "CODATA 2018",
      0, 1, 0, 0, 0, 0, 0⟩,
    ⟨["mass deuteron", "deuteronmass", "mdeuteron", "mdeut"],
      "g", o2scl_cgs, vals 66, "CODATA 2018",
      0, 0, 0, 0, 0, 0, 0⟩,
    ⟨["mass triton", "tritonmass", "mtriton"],
      "kg", o2scl_mks, vals 67, "CODATA 2018",
      0, 1, 0, 0, 0, 0, 0⟩,
    ⟨["mass triton", "tritonmass", "mtriton"],
      "g", o2scl_cgs, vals 68, "CODATA 2018",
      0, 0, 0, 0, 0, 0, 0⟩,
    ⟨["mass helion", "helionmass", "mhelion"],
      "kg", o2scl_mks, vals 69, "CODATA 2018",
      0, 1, 0, 0, 0, 0, 0⟩,
    ⟨["mass helion", "helionmass", "mhelion"],
      "g", o2scl_cgs, vals 70, "CODATA 2018",
      0, 0, 0, 0, 0, 0, 0⟩,
    ⟨["mass alpha", "alphamass", "malpha", "mα"],
      "kg", o2scl_mks, vals 71, "CODATA 2018",
      0, 1, 0, 0, 0, 0, 0⟩,
    ⟨["mass alpha", "alphamass", "malpha", "mα"],
      "g", o2scl_cgs, vals 72, "CODATA 2018",
      0, 0, 0, 0, 0, 0, 0⟩,
    ⟨["mass lambda", "lambdamass", "mlambda", "mΛ"],
      "MeV", fc_unknown, vals 73, "\"OUR FIT\" value from PDG 2020",
      0, 0, 0, 0, 0, 0, 0⟩,
    ⟨["mass sigma minus", "sigmaminusmass", "msigma-", "mΣ-", "mΣ⁻"],
      "MeV", fc_unknown, vals 74, "\"OUR FIT\" value from PDG 2020",
      0, 0, 0, 0, 0, 0, 0⟩,
    ⟨["mass sigma zero", "sigmazeromass", "msigma0", "mΣ0", "mΣ⁰"],
      "MeV", fc_unknown, vals 75, "\"OUR FIT\" value from PDG 2020",
      0, 0, 0, 0, 0, 0, 0⟩,
    ⟨["mass sigma plus", "sigmaplusmass", "msigma+", "mΣ+", "mΣ⁺"],
      "MeV", fc_unknown, vals 76, "\"OUR FIT\" value from PDG 2020",
      0, 0, 0, 0, 0, 0, 0⟩,
    ⟨["mass cascade zero", "cascadezeromass", "mcascade0", "mxi0", "mΞ0", "mΞ⁰"],
      "MeV", fc_unknown, vals 77, "\"OUR FIT\" value from PDG 2020",
      0, 0, 0, 0, 0, 0, 0⟩,
    ⟨["mass cascade minus", "cascademinusmass", "mcascade-", "mxi-", "mΞ-", "mΞ⁻"],
      "MeV", fc_unknown, vals 78, "\"OUR FIT\" value from PDG 2020",
      0, 0, 0, 0, 0, 0, 0⟩,
    ⟨["mass up", "upmass", "mup"],
      "MeV", fc_unknown, vals 79, "\"OUR EVALUATION\" value from PDG 2020",
      0, 0, 0, 0, 0, 0, 0⟩,
    ⟨["mass down", "downmass", "mdown"],
      "MeV", fc_unknown, vals 80, "\"OUR EVALUATION\" value from PDG 2020",
      0, 0, 0, 0, 0, 0, 0⟩,
    ⟨["mass strange", "strangemass", "mstrange"],
      "MeV", fc_unknown, vals 81, "\"OUR EVALUATION\" value from PDG 2020",
      0, 0, 0, 0, 0, 0, 0⟩,
    ⟨["mass solar", "solarmass", "masssun", "sunmass", "msun", "modot", "m☉"],
      "kg", o2scl_mks, vals 82, "derived from IAU's 2015 nominal value of the solar mass parameter divided by the CODATA 2018 value of the gravitational constant",
      0, 1, 0, 0, 0, 0, 0⟩,
    ⟨["mass solar", "solarmass", "masssun", "sunmass", "msun", "modot", "m☉"],
      "g", o2scl_cgs, vals 83, "derived from IAU's 2015 nominal value of the solar mass parameter divided by the CODATA 2018 value of the gravitational constant",
      0, 0, 0, 0, 0, 0, 0⟩,
    ⟨["mass mercury", "mercurymass", "mmercury", "m☿"],
      "kg", o2scl_mks, vals 84, "",
      0, 1, 0, 0, 0, 0, 0⟩,
    ⟨["mass mercury", "mercurymass", "mmercury", "m☿"],
      "g", o2scl_cgs, vals 85, "",
      0, 0, 0, 0, 0, 0, 0⟩,
    ⟨["mass venus", "venusmass", "mvenus", "m♀"],
      "kg", o2scl_mks, vals 86, "",
      0, 1, 0, 0, 0, 0, 0⟩,
    ⟨["mass venus", "venusmass", "mvenus", "m♀"],
      "g", o2scl_cgs, vals 87, "",
      0, 0, 0, 0, 0, 0, 0⟩,
    ⟨["mass earth", "earthmass", "mearth", "m♁", "m⊕", "moplus"],
      "kg", o2scl_mks, vals 88, "IAU 2015 nominal value",
      0, 1, 0, 0, 0, 0, 0⟩,
    ⟨["mass earth", "earthmass", "mearth", "m♁", "m⊕", "moplus"],
      "g", o2scl_cgs, vals 89, "IAU 2015 nominal value",
      0, 0, 0, 0, 0, 0, 0⟩,
    ⟨["mass mars", "marsmass", "mmars", "m♂"],
      "kg", o2scl_mks, vals 90, "",
      0, 1, 0, 0, 0, 0, 0⟩,
    ⟨["mass mars", "marsmass", "mmars", "m♂"],
      "g", o2scl_cgs, vals 91, "",
      0, 0, 0, 0, 0, 0, 0⟩
  ]

/-- Rows 92 to 137 of the table of the constructor `find_constants::find_constants`. -/
def builtin_rows_3 (vals : Nat → double) : List const_entry :=
  [
    ⟨["mass jupiter", "jupitermass", "mjupiter", "mjup", "m♃"],
      "kg", o2scl_mks, vals 92, "IAU 2015 nominal value",
      0, 1, 0, 0, 0, 0, 0⟩,
    ⟨["mass jupiter", "jupitermass", "mjupiter", "mjup", "m♃"],
      "g", o2scl_cgs, vals 93, "IAU 2015 nominal value",
      0, 0, 0, 0, 0, 0, 0⟩,
    ⟨["mass saturn", "saturnmass", "msaturn", "m♄"],
      "kg", o2scl_mks, vals 94, "",
      0, 1, 0, 0, 0, 0, 0⟩,
    ⟨["mass saturn", "saturnmass", "msaturn", "m♄"],
      "g", o2scl_cgs, vals 95, "",
      0, 0, 0, 0, 0, 0, 0⟩,
    ⟨["mass uranus", "uranusmass", "muranus", "m♅"],
      "kg", o2scl_mks, vals 96, "",
      0, 1, 0, 0, 0, 0, 0⟩,
    ⟨["mass uranus", "uranusmass", "muranus", "m♅"],
      "g", o2scl_cgs, vals 97, "",
      0, 0, 0, 0, 0, 0, 0⟩,
    ⟨["mass neptune", "neptunemass", "mneptune", "m♆"],
      "kg", o2scl_mks, vals 98, "",
      0, 1, 0, 0, 0, 0, 0⟩,
    ⟨["mass neptune", "neptunemass", "mneptune", "m♆"],
      "g", o2scl_cgs, vals 99, "",
      0, 0, 0, 0, 0, 0, 0⟩,
    ⟨["mass pluto", "plutomass", "mpluto", "m♇"],
      "kg", o2scl_mks, vals 100, "",
      0, 1, 0, 0, 0, 0, 0⟩,
    ⟨["mass pluto", "plutomass", "mpluto", "m♇"],
      "g", o2scl_cgs, vals 101, "",
      0, 0, 0, 0, 0, 0, 0⟩,
    ⟨["radius solar", "solarradius", "radiussun", "sunradius", "rsun", "r☉"],
      "m", o2scl_mks, vals 102, "",
      1, 0, 0, 0, 0, 0, 0⟩,
    ⟨["radius solar", "solarradius", "radiussun", "sunradius", "rsun", "r☉"],
      "cm", o2scl_cgs, vals 103, "",
      0, 0, 0, 0, 0, 0, 0⟩,
    ⟨["radius mercury", "mercuryradius", "rmercury", "r☿"],
      "m", o2scl_mks, vals 104, "",
      1, 0, 0, 0, 0, 0, 0⟩,
    ⟨["radius mercury", "mercuryradius", "rmercury", "r☿"],
      "cm", o2scl_cgs, vals 105, "",
      0, 0, 0, 0, 0, 0, 0⟩,
    ⟨["radius venus", "venusradius", "rvenus", "r♀"],
      "m", o2scl_mks, vals 106, "",
      1, 0, 0, 0, 0, 0, 0⟩,
    ⟨["radius venus", "venusradius", "rvenus", "r♀"],
      "cm", o2scl_cgs, vals 107, "",
      0, 0, 0, 0, 0, 0, 0⟩,
    ⟨["radius earth equatorial", "earthequatorialradius", "earthradiusequatorial", "r♁eq", "r⊕eq"],
      "m", o2scl_mks, vals 108, "https://nssdc.gsfc.nasa.gov/planetary/factsheet/",
      1, 0, 0, 0, 0, 0, 0⟩,
    ⟨["radius earth equatorial", "earthequatorialradius", "earthradiusequatorial", "r♁eq", "r⊕eq"],
      "cm", o2scl_cgs, vals 109, "https://nssdc.gsfc.nasa.gov/planetary/factsheet/",
      0, 0, 0, 0, 0, 0, 0⟩,
    ⟨["radius earth polar", "earthpolarradius", "earthradiuspolar", "r♁pol", "r⊕pol"],
      "m", o2scl_mks, vals 110, "https://nssdc.gsfc.nasa.gov/planetary/factsheet/",
      1, 0, 0, 0, 0, 0, 0⟩,
    ⟨["radius earth polar", "earthpolarradius", "earthradiuspolar", "r♁pol", "r⊕pol"],
      "cm", o2scl_cgs, vals 111, "https://nssdc.gsfc.nasa.gov/planetary/factsheet/",
      0, 0, 0, 0, 0, 0, 0⟩,
    ⟨["radius mars equatorial", "marsequatorialradius", "marsradiusequatorial", "r♂eq"],
      "m", o2scl_mks, vals 112, "https://nssdc.gsfc.nasa.gov/planetary/factsheet/",
      1, 0, 0, 0, 0, 0, 0⟩,
    ⟨["radius mars equatorial", "marsequatorialradius", "marsradiusequatorial", "r♂eq"],
      "cm", o2scl_cgs, vals 113, "https://nssdc.gsfc.nasa.gov/planetary/factsheet/",
      0, 0, 0, 0, 0, 0, 0⟩,
    ⟨["radius mars polar", "marspolarradius", "marsradiuspolar", "r♂pol"],
      "m", o2scl_mks, vals 114, "https://nssdc.gsfc.nasa.gov/planetary/factsheet/",
      1, 0, 0, 0, 0, 0, 0⟩,
    ⟨["radius mars polar", "marspolarradius", "marsradiuspolar", "r♂pol"],
      "cm", o2scl_cgs, vals 115, "https://nssdc.gsfc.nasa.gov/planetary/factsheet/",
      0, 0, 0, 0, 0, 0, 0⟩,
    ⟨["radius jupiter equatorial", "jupiterequatorialradius", "jupiterradiusequatorial", "r♃eq"],
      "m", o2scl_mks, vals 116, "https://nssdc.gsfc.nasa.gov/planetary/factsheet/",
      1, 0, 0, 0, 0, 0, 0⟩,
    ⟨["radius jupiter equatorial", "jupiterequatorialradius", "jupiterradiusequatorial", "r♃eq"],
      "cm", o2scl_cgs, vals 117, "https://nssdc.gsfc.nasa.gov/planetary/factsheet/",
      0, 0, 0, 0, 0, 0, 0⟩,
    ⟨["radius jupiter polar", "jupiterpolarradius", "jupiterradiuspolar", "r♃pol"],
      "m", o2scl_mks, vals 118, "https://nssdc.gsfc.nasa.gov/planetary/factsheet/",
      1, 0, 0, 0, 0, 0, 0⟩,
    ⟨["radius jupiter polar", "jupiterpolarradius", "jupiterradiuspolar", "r♃pol"],
      "cm", o2scl_cgs, vals 119, "https://nssdc.gsfc.nasa.gov/planetary/factsheet/",
      0, 0, 0, 0, 0, 0, 0⟩,
    ⟨["radius saturn equatorial", "saturnequatorialradius", "saturnradiusequatorial", "r♄eq"],
      "m", o2scl_mks, vals 120, "https://nssdc.gsfc.nasa.gov/planetary/factsheet/",
      1, 0, 0, 0, 0, 0, 0⟩,
    ⟨["radius saturn equatorial", "saturnequatorialradius", "saturnradiusequatorial", "r♄eq"],
      "cm", o2scl_cgs, vals 121, "https://nssdc.gsfc.nasa.gov/planetary/factsheet/",
      0, 0, 0, 0, 0, 0, 0⟩,
    ⟨["radius saturn polar", "saturnpolarradius", "saturnradiuspolar", "r♄pol"],
      "m", o2scl_mks, vals 122, "https://nssdc.gsfc.nasa.gov/planetary/factsheet/",
      1, 0, 0, 0, 0, 0, 0⟩,
    ⟨["radius saturn polar", "saturnpolarradius", "saturnradiuspolar", "r♄pol"],
      "cm", o2scl_cgs, vals 123, "https://nssdc.gsfc.nasa.gov/planetary/factsheet/",
      0, 0, 0, 0, 0, 0, 0⟩,
    ⟨["radius uranus equatorial", "uranusequatorialradius", "uranusradiusequatorial", "r♅eq"],
      "m", o2scl_mks, vals 124, "https://nssdc.gsfc.nasa.gov/planetary/factsheet/",
      1, 0, 0, 0, 0, 0, 0⟩,
    ⟨["radius uranus equatorial", "uranusequatorialradius", "uranusradiusequatorial", "r♅eq"],
      "cm", o2scl_cgs, vals 125, "https://nssdc.gsfc.nasa.gov/planetary/factsheet/",
      0, 0, 0, 0, 0, 0, 0⟩,
    ⟨["radius uranus polar", "uranuspolarradius", "uranusradiuspolar", "r♅pol"],
      "m", o2scl_mks, vals 126, "https://nssdc.gsfc.nasa.gov/planetary/factsheet/",
      1, 0, 0, 0, 0, 0, 0⟩,
    ⟨["radius uranus polar", "uranuspolarradius", "uranusradiuspolar", "r♅pol"],
      "cm", o2scl_cgs, vals 127, "https://nssdc.gsfc.nasa.gov/planetary/factsheet/",
      0, 0, 0, 0, 0, 0, 0⟩,
    ⟨["radius neptune equatorial", "neptuneequatorialradius", "neptuneradiusequatorial", "r♆eq"],
      "m", o2scl_mks, vals 128, "https://nssdc.gsfc.nasa.gov/planetary/factsheet/",
      1, 0, 0, 0, 0, 0, 0⟩,
    ⟨["radius neptune equatorial", "neptuneequatorialradius", "neptuneradiusequatorial", "r♆eq"],
      "cm", o2scl_cgs, vals 129, "https://nssdc.gsfc.nasa.gov/planetary/factsheet/",
      0, 0, 0, 0, 0, 0, 0⟩,
    ⟨["radius neptune polar", "neptunepolarradius", "neptuneradiuspolar", "r♆pol"],
      "m", o2scl_mks, vals 130, "https://nssdc.gsfc.nasa.gov/planetary/factsheet/",
      1, 0, 0, 0, 0, 0, 0⟩,
    ⟨["radius neptune polar", "neptunepolarradius", "neptuneradiuspolar", "r♆pol"],
      "cm", o2scl_cgs, vals 131, "https://nssdc.gsfc.nasa.gov/planetary/factsheet/",
      0, 0, 0, 0, 0, 0, 0⟩,
    ⟨["radius pluto", "plutoradius", "rpluto", "r♇"],
      "m", o2scl_mks, vals 132, "https://nssdc.gsfc.nasa.gov/planetary/factsheet/",
      1, 0, 0, 0, 0, 0, 0⟩,
    ⟨["radius pluto", "plutoradius", "rpluto", "r♇"],
      "cm", o2scl_cgs, vals 133, "https://nssdc.gsfc.nasa.gov/planetary/factsheet/",
      0, 0, 0, 0, 0, 0, 0⟩,
    ⟨["Rydberg"],
      "kg*m^2/s^2", o2scl_mks, vals 134, "CODATA 2018",
      2, 1, -2, 0, 0, 0, 0⟩,
    ⟨["Rydberg"],
      "g*cm^2/s^2", o2scl_cgs, vals 135, "CODATA 2018",
      0, 0, 0, 0, 0, 0, 0⟩,
    ⟨["tropical year", "yeartropical"],
      "s", o2scl_mks, vals 136, "PDG 2021 (https://pdg.lbl.gov/2021/reviews/contents_sports.html)",
      0, 0, 1, 0, 0, 0, 0⟩,
    ⟨["sidereal year", "yearsidereal"],
      "s", o2scl_mks, vals 137, "PDG 2021 (https://pdg.lbl.gov/2021/reviews/contents_sports.html)",
      0, 0, 1, 0, 0, 0, 0⟩
  ]

/-- The catalog that the constructor `find_constants::find_constants`
builds.  Names, units, flags, sources and exponents are the literals of
the constructor; a flag written `0` there is none of the four named flags.
The values are constants and expressions of headers that are not among the
sources at hand (`o2scl_mks::bohr_radius` and the like), so `vals i` stands
for the value of row `i`. -/
def builtin_list (vals : Nat → double) : List const_entry :=
  builtin_rows_1 vals ++ builtin_rows_2 vals ++ builtin_rows_3 vals

/-! ## Entries and converters of the scenarios -/

/-- The speed of light in m/s, flag MKS, value 2.998e8. -/
def light_mks : const_entry :=
  ⟨["speed of light", "c"], "m/s", o2scl_mks, ⟨0x41b1de95c0000000⟩, "exact",
    1, 0, -1, 0, 0, 0, 0⟩

/-- The speed of light in cm/s, flag CGS, value 2.998e10. -/
def light_cgs : const_entry :=
  ⟨["speed of light", "c"], "cm/s", o2scl_cgs, ⟨0x421bebc9fc000000⟩, "exact",
    0, 0, 0, 0, 0, 0, 0⟩

/-- The Avogadro number, without a unit, value 6.02214076e23. -/
def avogadro : const_entry :=
  ⟨["Avogadro's number", "na", "avogadro"], "", fc_none, ⟨0x44dfe185ca57c517⟩,
    "exact", 0, 0, 0, 0, 0, 0, 0⟩

/-- The Bohr radius in m, flag MKS, value 5.29177210903e-11. -/
def bohr_radius : const_entry :=
  ⟨["Bohr radius", "rbohr"], "m", o2scl_mks, ⟨0x3dcd1781d4f556a3⟩, "CODATA 2018",
    1, 0, 0, 0, 0, 0, 0⟩

/-- A converter that knows no conversion at all: the status is never `0`. -/
def no_conversion : convert_units :=
  fun _ _ v => (1, v)

/-- A converter that knows three conversions: the Bohr radius from m to
cm, which gives 5.29177210903e-9, and the speed of light from m/s and
from cm/s to km/s, which gives 2.998e5. -/
def some_conversions : convert_units :=
  fun src dst v =>
    if src = "m" ∧ dst = "cm" ∧ v = ⟨0x3dcd1781d4f556a3⟩ then (0, ⟨0x3e36ba5d6e5fabb0⟩)
    else if src = "m/s" ∧ dst = "km/s" ∧ v = ⟨0x41b1de95c0000000⟩ then
      (0, ⟨0x41124c6000000000⟩)
    else if src = "cm/s" ∧ dst = "km/s" ∧ v = ⟨0x421bebc9fc000000⟩ then
      (0, ⟨0x41124c6000000000⟩)
    else (1, v)

/-- The entry of a plain number that carries the flag MKS and no unit,
value 1. -/
def bare_mks : const_entry :=
  ⟨["coupling"], "", o2scl_mks, ⟨0x3ff0000000000000⟩, "", 0, 0, 0, 0, 0, 0, 0⟩

/-- An entry for the speed of light whose only name is written with
capital letters. -/
def light_capital : const_entry :=
  ⟨["Speed of Light"], "m/s", o2scl_mks, ⟨0x41b1de95c0000000⟩, "exact",
    1, 0, -1, 0, 0, 0, 0⟩

/-! ## Notions of the specification for the unit rule and the catalog -/

/-- Two strings are equal without regard to case: they have the same
length and agree position by position once the letters `a`..`z` are
replaced by capital letters. -/
def equal_ignoring_case (a b : String) : Prop :=
  a.data.map Char.toUpper = b.data.map Char.toUpper

instance (a b : String) : Decidable (equal_ignoring_case a b) :=
  inferInstanceAs (Decidable (a.data.map Char.toUpper = b.data.map Char.toUpper))

/-- The entry has an alias that is string-equal to `name`. -/
def has_alias (name : String) (e : const_entry) : Bool :=
  e.names.contains name

/-- The no-duplicate-name invariant of the catalog: two entries at
different positions that share a name, by exact string equality, have
identical names sequences. -/
def no_duplicate_names (list : List const_entry) : Prop :=
  list.Pairwise fun a b => (∃ x ∈ a.names, x ∈ b.names) → a.names = b.names

/-- No two consecutive entries of the list have identical names
sequences. -/
def no_adjacent_repeats (found : List const_entry) : Prop :=
  found.Chain' fun a b => a.names ≠ b.names

/-- The character is deleted by the normalization of names: it is a
whitespace or punctuation character other than `+` and `-`. -/
def is_stripped (c : Char) : Bool :=
  (isspace c || ispunct c) && c != '+' && c != '-'

/-- The ten strings of the example in the documentation of `screenify`. -/
def screenify_example : List String :=
  ["test1", "test_of_string2", "test_of_string3", "test_of_string4", "test5",
    "test_of_string6", "test_of_string77", "test_of_string8", "test_of_string9",
    "test_of_string10"]

/-- The string followed by as many spaces as it takes to reach the width
`w`. -/
def pad_to (w : Nat) (s : String) : String :=
  s ++ ⟨List.replicate (w - s.length) ' '⟩

/-! ## Notions of the specification for the shape of the result -/

/-- The entries with identical names sequences are contiguous in the
catalog: when the entries at two positions have the same names sequence,
so has every entry between them. -/
def names_contiguous (list : List const_entry) : Prop :=
  ∀ k < list.length, ∀ j < k, ∀ i < j,
    list[i]?.map const_entry.names = list[k]?.map const_entry.names →
    list[j]?.map const_entry.names = list[i]?.map const_entry.names

instance (list : List const_entry) : Decidable (names_contiguous list) :=
  Nat.decidableBallLT _ _

/-- The returned entry `r` is the catalog entry `e` up to the value and
the unit: the names, the unit-system flag, the source and the seven
exponents are those of `e`, and the unit is the one of `e` or the
requested one. -/
def same_but_value_unit (unit : String) (r e : const_entry) : Prop :=
  r.names = e.names ∧ r.unit_flag = e.unit_flag ∧ r.source = e.source ∧
  r.m = e.m ∧ r.k = e.k ∧ r.s = e.s ∧ r.K = e.K ∧ r.A = e.A ∧
  r.mol = e.mol ∧ r.cd = e.cd ∧ (r.unit = e.unit ∨ r.unit = unit)

/-- The string `q` occurs in the string `a` as a contiguous substring. -/
def is_substring (q a : String) : Prop :=
  q.data <:+: a.data

instance (q a : String) : Decidable (is_substring q a) :=
  inferInstanceAs (Decidable (q.data <:+: a.data))

/-- The normalized form of one of the names of the entry contains `q` as
a contiguous substring. -/
def substring_match (q : String) (e : const_entry) : Prop :=
  ∃ a ∈ e.names, is_substring q (remove_ws_punct a)

instance (q : String) (e : const_entry) : Decidable (substring_match q e) :=
  inferInstanceAs (Decidable (∃ a ∈ e.names, is_substring q (remove_ws_punct a)))

/-- The string has no NUL character. -/
def no_nul (s : String) : Prop :=
  Char.ofNat 0 ∉ s.data

instance (s : String) : Decidable (no_nul s) :=
  inferInstanceAs (Decidable (Char.ofNat 0 ∉ s.data))

/-- A query of five characters, the third of which is the NUL character:
`a`, `b`, NUL, `z`, `z`. -/
def nul_query : String :=
  ⟨['a', 'b', Char.ofNat 0, 'z', 'z']⟩

/-- An entry with the one name "xab", without a unit. -/
def xab_entry : const_entry :=
  ⟨["xab"], "", fc_none, ⟨0⟩, "", 0, 0, 0, 0, 0, 0, 0⟩

/-! ## The two passes of the name search -/

theorem exact_names_eq (name : String) (i : Nat) (names : List String)
    (st : List Nat × Nat) :
    exact_names name i names st =
      if names.any (fun a => iequals name (remove_ws_punct a)) = true
      then (st.1 ++ [i], match_exact) else st := by
  induction names with
  | nil => simp [exact_names]
  | cons nm rest ih =>
    by_cases h : iequals name (remove_ws_punct nm) = true
    · simp [exact_names, h]
    · simp [exact_names, h, ih]

theorem pattern_names_eq (fn_pat : String) (i : Nat) (names : List String)
    (st : List Nat × Nat) :
    pattern_names fn_pat i names st =
      if names.any (fun a => fnmatch fn_pat (remove_ws_punct a) == 0) = true
      then (st.1 ++ [i], match_pattern) else st := by
  induction names with
  | nil => simp [pattern_names]
  | cons nm rest ih =>
    by_cases h : (fnmatch fn_pat (remove_ws_punct nm) == 0) = true
    · simp [pattern_names, h]
    · simp [pattern_names, h, ih]

theorem exact_pass_eq (name : String) (l : List const_entry) (i : Nat)
    (st : List Nat × Nat) :
    exact_pass name l i st =
      (st.1 ++ positions (exact_match name) l i,
        if l.any (exact_match name) = true then match_exact else st.2) := by
  induction l generalizing i st with
  | nil => simp [exact_pass, positions]
  | cons e es ih =>
    rw [exact_pass, ih, exact_names_eq]
    by_cases h : exact_match name e = true
    · have h2 : (e.names.any fun a => iequals name (remove_ws_punct a)) = true := h
      simp [positions, h, h2]
    · have h2 : ¬ (e.names.any fun a => iequals name (remove_ws_punct a)) = true := h
      simp [positions, h, h2]

theorem pattern_pass_eq (q : String) (l : List const_entry) (i : Nat)
    (st : List Nat × Nat) :
    pattern_pass ("*" ++ q ++ "*") l i st =
      (st.1 ++ positions (pattern_match q) l i,
        if l.any (pattern_match q) = true then match_pattern else st.2) := by
  induction l generalizing i st with
  | nil => simp [pattern_pass, positions]
  | cons e es ih =>
    rw [pattern_pass, ih, pattern_names_eq]
    by_cases h : pattern_match q e = true
    · have h2 : (e.names.any fun a =>
          fnmatch ("*" ++ q ++ "*") (remove_ws_punct a) == 0) = true := h
      simp [positions, h, h2]
    · have h2 : ¬ (e.names.any fun a =>
          fnmatch ("*" ++ q ++ "*") (remove_ws_punct a) == 0) = true := h
      simp [positions, h, h2]

theorem positions_eq_nil (p : const_entry → Bool) (l : List const_entry)
    (i : Nat) : positions p l i = [] ↔ l.any p = false := by
  induction l generalizing i with
  | nil => simp [positions]
  | cons e es ih =>
    by_cases h : p e = true
    · simp [positions, h]
    · simp [positions, h, ih]

theorem name_search_eq (list : List const_entry) (q : String) :
    name_search list q =
      if list.any (exact_match q) = true
      then (positions (exact_match q) list 0, match_exact)
      else (positions (pattern_match q) list 0,
        if list.any (pattern_match q) = true then match_pattern else 0) := by
  unfold name_search
  simp only [exact_pass_eq, pattern_pass_eq, List.nil_append, List.length_eq_zero]
  by_cases h : list.any (exact_match q) = true
  · have h2 : positions (exact_match q) list 0 ≠ [] := by
      intro h3
      rw [positions_eq_nil] at h3
      simp [h3] at h
    simp [h, h2]
  · have h2 : positions (exact_match q) list 0 = [] := by
      rw [positions_eq_nil]
      simpa using h
    simp [h, h2]

/-- The entries found at the positions of the entries that satisfy `p`
are the entries that satisfy `p`, in the same order. -/
theorem positions_lookup (p : const_entry → Bool) (l pre : List const_entry) :
    List.Forall₂ (fun i e => (pre ++ l)[i]? = some e)
      (positions p l pre.length) (l.filter p) := by
  induction l generalizing pre with
  | nil => simp [positions]
  | cons e es ih =>
    have step := ih (pre ++ [e])
    simp only [List.length_append, List.length_singleton, List.append_assoc,
      List.singleton_append] at step
    by_cases h : p e = true
    · simp only [positions, h, if_true, List.filter_cons_of_pos]
      refine List.Forall₂.cons ?_ step
      rw [List.getElem?_append_right (Nat.le_refl _)]
      simp
    · simp only [positions, h, List.filter_cons_of_neg, Bool.false_eq_true, if_false,
        not_false_eq_true]
      exact step

/-! ## The loops over the matched indexes -/

theorem copy_loop_eq (list : List const_entry) (idxs : List Nat)
    (ents acc : List const_entry) (h : at_positions list idxs ents) :
    copy_loop list idxs acc = some (acc ++ ents) := by
  induction h generalizing acc with
  | nil => simp [copy_loop]
  | cons hd _ ih => simp [copy_loop, hd, ih]

theorem unit_loop_eq (list : List const_entry) (unit : String) (idxs : List Nat)
    (ents : List const_entry) (acc : List Nat) (h : at_positions list idxs ents) :
    ∃ idxs2, unit_loop list unit idxs acc = some (acc ++ idxs2) ∧
      at_positions list idxs2 (ents.filter (unit_match_logic unit)) := by
  induction h generalizing acc with
  | nil => exact ⟨[], by simp [unit_loop], List.Forall₂.nil⟩
  | @cons i e is es hd _ ih =>
    by_cases hu : unit_match_logic unit e = true
    · obtain ⟨r, hr, hp⟩ := ih (acc ++ [i])
      refine ⟨i :: r, ?_, ?_⟩
      · simp [unit_loop, hd, hu, hr]
      · have hq : at_positions list (i :: r)
            (e :: es.filter (unit_match_logic unit)) := List.Forall₂.cons hd hp
        simpa [hu] using hq
    · obtain ⟨r, hr, hp⟩ := ih acc
      refine ⟨r, ?_, ?_⟩
      · simp [unit_loop, hd, hu, hr]
      · simpa [hu] using hp

theorem dedup_loop_succ (list : List const_entry) (idxs : List Nat)
    (ents : List const_entry) (h : at_positions list idxs ents) (i : Nat)
    (acc : List const_entry) (l : const_entry) :
    dedup_loop list idxs (i + 1) (acc ++ [l]) =
      some (acc ++ [l] ++ drop_repeats (some l.names) ents) := by
  induction h generalizing i acc l with
  | nil => simp [dedup_loop, drop_repeats]
  | @cons ix e is es hd _ ih =>
    by_cases hn : e.names = l.names
    · have h1 := ih (i + 1) acc l
      simp [dedup_loop, hd, hn, drop_repeats, h1]
    · have h1 := ih (i + 1) (acc ++ [l]) e
      have hn2 : ¬ l.names = e.names := fun h => hn h.symm
      simpa [dedup_loop, hd, hn, hn2, drop_repeats] using h1

theorem dedup_loop_zero (list : List const_entry) (idxs : List Nat)
    (ents : List const_entry) (h : at_positions list idxs ents)
    (acc : List const_entry) :
    dedup_loop list idxs 0 acc = some (acc ++ drop_repeats none ents) := by
  cases h with
  | nil => simp [dedup_loop, drop_repeats]
  | @cons ix e is es hd htl =>
    have h1 := dedup_loop_succ list is es htl 0 acc e
    simp only [Nat.zero_add] at h1
    simp [dedup_loop, hd, drop_repeats, h1]

theorem convert_loop_eq (cu : convert_units) (list : List const_entry)
    (unit : String) (idxs : List Nat) (ents : List const_entry)
    (h : at_positions list idxs ents) (acc : List const_entry) :
    convert_loop cu list unit idxs acc =
      some (acc ++
        convert_keep cu unit (acc.getLast?.map (fun x => x.names)) ents) := by
  induction h generalizing acc with
  | nil => simp [convert_loop, convert_keep]
  | @cons ix e is es hd _ ih =>
    by_cases hc : (cu e.unit unit e.val).1 = 0
    · rcases List.eq_nil_or_concat acc with hacc | ⟨acc1, l, hacc⟩
      · subst hacc
        have h1 := ih [converted cu unit e]
        simp only [converted, List.getLast?_singleton, Option.map_some'] at h1
        simp [convert_loop, hd, hc, convert_keep, convertible, converted, h1]
      · subst hacc
        by_cases hn : e.names = l.names
        · have h1 := ih (acc1 ++ [l])
          simpa [convert_loop, hd, hc, hn, convert_keep, convertible] using h1
        · have h1 := ih (acc1 ++ [l] ++ [converted cu unit e])
          have hn2 : ¬ l.names = e.names := fun h => hn h.symm
          simpa [convert_loop, hd, hc, hn, hn2, convert_keep, convertible, converted]
            using h1
    · have h1 := ih acc
      simp [convert_loop, hd, hc, convert_keep, convertible, h1]

/-! ## The search computes the result of the specification -/

theorem name_search_spec (list : List const_entry) (q : String) :
    ∃ idx mt, name_search list q = (idx, mt) ∧
      at_positions list idx (name_matches list q) ∧
      (mt = match_exact ↔ list.any (exact_match q) = true) := by
  rw [name_search_eq]
  by_cases h : list.any (exact_match q) = true
  · rw [if_pos h]
    refine ⟨_, _, rfl, ?_, by simp [h]⟩
    have := positions_lookup (exact_match q) list []
    simpa [name_matches, h, at_positions] using this
  · rw [if_neg h]
    refine ⟨_, _, rfl, ?_, ?_⟩
    · have := positions_lookup (pattern_match q) list []
      simpa [name_matches, h, at_positions] using this
    · by_cases h2 : list.any (pattern_match q) = true <;>
        simp [h, h2, match_exact, match_pattern]

theorem string_length_pos (unit : String) : unit.length > 0 ↔ unit ≠ "" := by
  rw [String.length, gt_iff_lt, List.length_pos]
  constructor
  · intro h h2
    subst h2
    exact h rfl
  · intro h h2
    apply h
    exact String.ext h2

theorem find_nothrow_eq (cu : convert_units) (list : List const_entry)
    (name unit : String) :
    find_nothrow cu list name unit = some (find_result cu list name unit) := by
  obtain ⟨idx, mt, hst, hpos, hmt⟩ := name_search_spec list (remove_ws_punct name)
  unfold find_nothrow find_result
  simp only [hst]
  generalize name_matches list (remove_ws_punct name) = ms at hpos
  generalize list.any (exact_match (remove_ws_punct name)) = exact at hmt
  have key : ∀ (A B : Option (status × List const_entry)),
      (if mt = match_exact then A else B) = (if exact = true then A else B) := by
    intro A B
    by_cases hb : exact = true
    · rw [if_pos hb, if_pos (hmt.mpr hb)]
    · rw [if_neg hb, if_neg (fun h => hb (hmt.mp h))]
  simp only [key]
  cases hpos with
  | nil => simp
  | @cons i e is es hd htl =>
    cases htl with
    | nil =>
      by_cases hu : unit_match_logic unit e = true
      · cases exact <;> simp [hd, hu, one_unit_ok]
      · by_cases hl : unit.length > 0
        · by_cases hc : (cu e.unit unit e.val).1 = 0
          · cases exact <;>
              simp [hd, hu, hl, hc, one_unit_ok, convertible, converted, pure]
          · cases exact <;>
              simp [hd, hu, hl, hc, one_unit_mismatch, convertible, pure]
        · cases exact <;>
            simp [hd, hu, hl, one_unit_mismatch, convertible, pure]
    | @cons i2 e2 is2 es2 hd2 htl2 =>
      have hall : at_positions list (i :: i2 :: is2) (e :: e2 :: es2) :=
        List.Forall₂.cons hd (List.Forall₂.cons hd2 htl2)
      have hne : ¬ (i :: i2 :: is2).length = 1 := by simp
      have hpos : (i :: i2 :: is2).length > 0 := by simp
      rw [if_neg hne]
      by_cases hu : unit = ""
      · have hcopy := copy_loop_eq list _ _ [] hall
        rw [if_pos ⟨hpos, hu⟩, hcopy]
        cases exact <;> simp [hu, multi_no_unit, pure]
      · rw [if_neg (fun h => hu h.2), if_pos hpos]
        obtain ⟨idxs2, h2, hp2⟩ := unit_loop_eq list unit _ _ [] hall
        have hlen2 := List.Forall₂.length_eq hp2
        rw [h2]
        by_cases hf : (e :: e2 :: es2).filter (unit_match_logic unit) = []
        · have hz : ([] ++ idxs2).length = 0 := by
            rw [List.nil_append, hlen2, hf, List.length_nil]
          have hconv := convert_loop_eq cu list unit _ _ hall []
          simp only [List.nil_append, List.getLast?_nil, Option.map_none'] at hconv
          simp only [Option.bind_eq_bind, Option.some_bind, if_pos hz, hconv]
          by_cases hk : convert_keep cu unit none (e :: e2 :: es2) = []
          · have hded := dedup_loop_zero list _ _ hall []
            cases exact <;> simp [hu, hf, hk, hded, multi_unit_mismatch, pure]
          · have hkl : (convert_keep cu unit none (e :: e2 :: es2)).length > 0 :=
              List.length_pos.mpr hk
            by_cases h1 : (convert_keep cu unit none (e :: e2 :: es2)).length = 1
            · cases exact <;> simp [hu, hf, hk, hkl, h1, one_unit_ok, pure]
            · cases exact <;> simp [hu, hf, hk, hkl, h1, multi_unit_ok, pure]
        · have hz : ¬ ([] ++ idxs2).length = 0 := by
            rw [List.nil_append, hlen2]
            exact fun h => hf (List.length_eq_zero.mp h)
          have hded := dedup_loop_zero list _ _ hp2 []
          simp only [List.nil_append] at hded hz
          simp only [Option.bind_eq_bind, Option.some_bind, List.nil_append, if_neg hz, hded]
          by_cases h1 : (drop_repeats none
              ((e :: e2 :: es2).filter (unit_match_logic unit))).length = 1
          · cases exact <;> simp [hu, hf, h1, one_unit_ok, pure]
          · cases exact <;> simp [hu, hf, h1, multi_unit_ok, pure]

/-! ## Properties of the lists of the specification -/

theorem name_matches_subset (list : List const_entry) (q : String)
    (e : const_entry) (h : e ∈ name_matches list q) : e ∈ list := by
  unfold name_matches at h
  split at h
  · exact (List.mem_filter.mp h).1
  · exact (List.mem_filter.mp h).1

theorem name_matches_eq_nil (list : List const_entry) (q : String) :
    name_matches list q = [] ↔
      ∀ e ∈ list, exact_match q e = false ∧ pattern_match q e = false := by
  unfold name_matches
  by_cases h : list.any (exact_match q) = true
  · rw [if_pos h]
    obtain ⟨e, he, hm⟩ := List.any_eq_true.mp h
    constructor
    · intro hnil
      have : e ∈ list.filter (exact_match q) := List.mem_filter.mpr ⟨he, hm⟩
      rw [hnil] at this
      cases this
    · intro hall
      have := (hall e he).1
      rw [hm] at this
      cases this
  · rw [if_neg h]
    have hex : ∀ e ∈ list, exact_match q e = false := by
      intro e he
      cases hm : exact_match q e with
      | false => rfl
      | true => exact absurd (List.any_eq_true.mpr ⟨e, he, hm⟩) h
    rw [List.filter_eq_nil_iff]
    constructor
    · intro hall e he
      refine ⟨hex e he, ?_⟩
      have := hall e he
      simpa using this
    · intro hall e he
      simp [(hall e he).2]

theorem name_matches_exact (list : List const_entry) (q : String)
    (h : list.any (exact_match q) = true) (e : const_entry)
    (he : e ∈ name_matches list q) : exact_match q e = true := by
  unfold name_matches at he
  rw [if_pos h] at he
  exact (List.mem_filter.mp he).2

theorem drop_repeats_subset (prev : Option (List String))
    (l : List const_entry) (r : const_entry) (h : r ∈ drop_repeats prev l) :
    r ∈ l := by
  induction l generalizing prev with
  | nil => simp [drop_repeats] at h
  | cons e es ih =>
    unfold drop_repeats at h
    split at h
    · exact List.mem_cons_of_mem _ (ih _ h)
    · rcases List.mem_cons.mp h with h1 | h1
      · rw [h1]
        exact List.mem_cons_self _ _
      · exact List.mem_cons_of_mem _ (ih _ h1)

theorem drop_repeats_ne_nil (l : List const_entry) (h : l ≠ []) :
    drop_repeats none l ≠ [] := by
  cases l with
  | nil => exact absurd rfl h
  | cons e es => simp [drop_repeats]

theorem convert_keep_subset (cu : convert_units) (unit : String)
    (prev : Option (List String)) (l : List const_entry) (r : const_entry)
    (h : r ∈ convert_keep cu unit prev l) :
    ∃ e ∈ l, r = converted cu unit e := by
  induction l generalizing prev with
  | nil => simp [convert_keep] at h
  | cons e es ih =>
    unfold convert_keep at h
    split at h
    · rcases List.mem_cons.mp h with h1 | h1
      · exact ⟨e, List.mem_cons_self _ _, h1⟩
      · obtain ⟨e1, he1, hr⟩ := ih _ h1
        exact ⟨e1, List.mem_cons_of_mem _ he1, hr⟩
    · obtain ⟨e1, he1, hr⟩ := ih _ h
      exact ⟨e1, List.mem_cons_of_mem _ he1, hr⟩

theorem convert_keep_ne_nil (cu : convert_units) (unit : String)
    (l : List const_entry) (e : const_entry) (he : e ∈ l)
    (hc : (cu e.unit unit e.val).1 = 0) :
    convert_keep cu unit none l ≠ [] := by
  induction l with
  | nil => cases he
  | cons a as ih =>
    by_cases ha : (cu a.unit unit a.val).1 = 0
    · simp [convert_keep, convertible, ha]
    · rcases List.mem_cons.mp he with h | h
      · exact absurd (h ▸ hc) ha
      · simpa [convert_keep, convertible, ha] using ih h

/-! ## The search with exactly one name match -/

set_option maxRecDepth 100000

/-- C1: when exactly one entry of the catalog matches the query by name
(in pass 1, or in pass 2 when pass 1 finds nothing) and the requested unit
is compatible with it, `find_nothrow` returns the list holding exactly
that entry, value and unit as stored, with the status
`one_exact_match_unit_match` when pass 1 found it and
`one_pattern_match_unit_match` otherwise; the result is the same for every
converter. -/
theorem find_nothrow_single_unit_match (cu : convert_units)
    (list : List const_entry) (name unit : String) (e : const_entry)
    (hone : name_matches list (remove_ws_punct name) = [e])
    (hunit : unit_match_logic unit e = true) :
    find_nothrow cu list name unit =
        some (if list.any (exact_match (remove_ws_punct name)) = true
          then one_exact_match_unit_match else one_pattern_match_unit_match, [e]) ∧
      ∀ cu2 : convert_units,
        find_nothrow cu2 list name unit = find_nothrow cu list name unit := by
  have h : ∀ c : convert_units, find_nothrow c list name unit =
      some (if list.any (exact_match (remove_ws_punct name)) = true
        then one_exact_match_unit_match else one_pattern_match_unit_match, [e]) := by
    intro c
    rw [find_nothrow_eq]
    unfold find_result
    simp only [hone, hunit, if_true, one_unit_ok]
  exact ⟨h cu, fun cu2 => by rw [h cu2, h cu]⟩

/-- The query "avogadro" with the unit "none" on a catalog of three
entries finds the entry of the Avogadro number alone, unit accepted. -/
theorem find_nothrow_single_unit_match_witness :
    name_matches [light_mks, light_cgs, avogadro] (remove_ws_punct "avogadro")
        = [avogadro] ∧
      unit_match_logic "none" avogadro = true ∧
      find_nothrow no_conversion [light_mks, light_cgs, avogadro] "avogadro" "none"
        = some (one_exact_match_unit_match, [avogadro]) :=
  ⟨by decide, by decide,
    (find_nothrow_single_unit_match no_conversion [light_mks, light_cgs, avogadro]
      "avogadro" "none" avogadro (by decide) (by decide)).1⟩

/-- C2, as stated, fails: the query "rbohr" with the empty unit has
exactly one name match, the Bohr radius in m with the flag MKS; the empty
unit is not accepted for it and the status is `one_exact_match_unit_diff`,
on the catalog of the Bohr radius and the Avogadro number and on the
built-in catalog, whatever the converter and the values. -/
theorem find_nothrow_empty_unit_rbohr :
    name_matches [bohr_radius, avogadro] (remove_ws_punct "rbohr") = [bohr_radius] ∧
      bohr_radius.unit_flag = o2scl_mks ∧
      find_nothrow no_conversion [bohr_radius, avogadro] "rbohr" ""
        = some (one_exact_match_unit_diff, [bohr_radius]) ∧
      ∀ (cu : convert_units) (vals : Nat → double),
        find_nothrow cu (builtin_list vals) "rbohr" "" =
          some (one_exact_match_unit_diff,
            [⟨["Bohr radius", "rbohr"], "m", o2scl_mks, vals 3, "CODATA 2018",
              1, 0, 0, 0, 0, 0, 0⟩]) := by
  refine ⟨by decide, by decide, by decide, ?_⟩
  intro cu vals
  rfl

/-- C3: when exactly one entry matches the query by name, the requested
unit is not empty and not compatible with the entry, and the converter
returns the status 0 and the value `v` for the unit of the entry, the
requested unit and the value of the entry, `find_nothrow` returns one copy
of the entry with the value `v` and the requested unit, every other field
unchanged, and the status `one_exact_match_unit_match` or
`one_pattern_match_unit_match`. -/
theorem find_nothrow_single_converted (cu : convert_units)
    (list : List const_entry) (name unit : String) (e : const_entry) (v : double)
    (hone : name_matches list (remove_ws_punct name) = [e])
    (hne : unit ≠ "")
    (hunit : unit_match_logic unit e = false)
    (hcu : cu e.unit unit e.val = (0, v)) :
    find_nothrow cu list name unit =
      some (if list.any (exact_match (remove_ws_punct name)) = true
        then one_exact_match_unit_match else one_pattern_match_unit_match,
        [{ e with val := v, unit := unit }]) := by
  rw [find_nothrow_eq]
  unfold find_result
  have hlen : unit.length > 0 := (string_length_pos unit).mpr hne
  simp [hone, hunit, hlen, convertible, converted, hcu, one_unit_ok]

/-- The query "rbohr" with the unit "cm" finds the Bohr radius, stored in
m, and returns it converted to cm. -/
theorem find_nothrow_single_converted_witness :
    name_matches [bohr_radius, avogadro] (remove_ws_punct "rbohr") = [bohr_radius] ∧
      unit_match_logic "cm" bohr_radius = false ∧
      some_conversions bohr_radius.unit "cm" bohr_radius.val
        = (0, ⟨0x3e36ba5d6e5fabb0⟩) ∧
      find_nothrow some_conversions [bohr_radius, avogadro] "rbohr" "cm"
        = some (one_exact_match_unit_match,
            [{ bohr_radius with val := ⟨0x3e36ba5d6e5fabb0⟩, unit := "cm" }]) :=
  ⟨by decide, by decide, by decide,
    find_nothrow_single_converted some_conversions [bohr_radius, avogadro]
      "rbohr" "cm" bohr_radius ⟨0x3e36ba5d6e5fabb0⟩
      (by decide) (by decide) (by decide) (by decide)⟩

/-- C4: when exactly one entry matches the query by name and the requested
unit is not compatible with it, and the unit is empty or the converter
returns a nonzero status, `find_nothrow` returns that entry unmodified with
the status `one_exact_match_unit_diff` or `one_pattern_match_unit_diff`. -/
theorem find_nothrow_single_unit_diff (cu : convert_units)
    (list : List const_entry) (name unit : String) (e : const_entry)
    (hone : name_matches list (remove_ws_punct name) = [e])
    (hunit : unit_match_logic unit e = false)
    (hfail : unit = "" ∨ (cu e.unit unit e.val).1 ≠ 0) :
    find_nothrow cu list name unit =
      some (if list.any (exact_match (remove_ws_punct name)) = true
        then one_exact_match_unit_diff else one_pattern_match_unit_diff, [e]) := by
  rw [find_nothrow_eq]
  unfold find_result
  have hno : ¬ (unit.length > 0 ∧ convertible cu unit e = true) := by
    rintro ⟨h1, h2⟩
    rcases hfail with h | h
    · exact (string_length_pos unit).mp h1 h
    · apply h
      simpa [convertible] using h2
  simp only [hone, hunit, hno, if_false, one_unit_mismatch]
  simp

/-- The scenario of the specification: the sole entry named "avogadro" has
the flag NONE and the unit "", the query asks for "kg" and no conversion
exists; the status is `one_exact_match_unit_diff` and the entry comes back
with its value and its unit "" unchanged. -/
theorem find_nothrow_single_unit_diff_witness :
    name_matches [avogadro] (remove_ws_punct "avogadro") = [avogadro] ∧
      unit_match_logic "kg" avogadro = false ∧
      (no_conversion avogadro.unit "kg" avogadro.val).1 ≠ 0 ∧
      find_nothrow no_conversion [avogadro] "avogadro" "kg"
        = some (one_exact_match_unit_diff, [avogadro]) ∧
      avogadro.unit = "" :=
  ⟨by decide, by decide, by decide,
    find_nothrow_single_unit_diff no_conversion [avogadro] "avogadro" "kg" avogadro
      (by decide) (by decide) (Or.inr (by decide)), by decide⟩

/-! ## The search with several name matches -/

theorem two_le_length_cases (ms : List const_entry) (h : 2 ≤ ms.length) :
    ∃ e1 e2 es, ms = e1 :: e2 :: es := by
  match ms, h with
  | e1 :: e2 :: es, _ => exact ⟨e1, e2, es, rfl⟩

/-- C5: when two or more entries match the query by name and the unit is
empty, `find_nothrow` returns all the name matches, unmodified, in catalog
order and without de-duplication, with the status `exact_matches_no_unit`
or `pattern_matches_no_unit`; the converter plays no part. -/
theorem find_nothrow_multi_no_unit (cu : convert_units)
    (list : List const_entry) (name : String)
    (hmulti : 2 ≤ (name_matches list (remove_ws_punct name)).length) :
    find_nothrow cu list name "" =
      some (if list.any (exact_match (remove_ws_punct name)) = true
        then exact_matches_no_unit else pattern_matches_no_unit,
        name_matches list (remove_ws_punct name)) := by
  obtain ⟨e1, e2, es, hms⟩ := two_le_length_cases _ hmulti
  rw [find_nothrow_eq]
  unfold find_result
  simp only [hms, if_true, multi_no_unit]

/-- The scenario of the specification: with the two entries of the speed
of light, the query "c" without a unit returns both entries, unconverted,
with the status `exact_matches_no_unit`. -/
theorem find_nothrow_multi_no_unit_witness :
    2 ≤ (name_matches [light_mks, light_cgs] (remove_ws_punct "c")).length ∧
      find_nothrow no_conversion [light_mks, light_cgs] "c" ""
        = some (exact_matches_no_unit, [light_mks, light_cgs]) :=
  ⟨by decide,
    (find_nothrow_multi_no_unit no_conversion [light_mks, light_cgs] "c"
      (by decide)).trans (by decide)⟩

/-- C6: when two or more entries match the query by name, the unit is not
empty and at least one of the name matches is compatible with it,
`find_nothrow` returns the compatible name matches, unmodified and in
catalog order, without each entry whose names sequence equals that of the
entry kept before it; the status is `one_*_match_unit_match` when one
entry remains and `exact_matches_unit_match` or `pattern_matches_unit_match`
otherwise. -/
theorem find_nothrow_multi_unit_match (cu : convert_units)
    (list : List const_entry) (name unit : String)
    (hmulti : 2 ≤ (name_matches list (remove_ws_punct name)).length)
    (hne : unit ≠ "")
    (hcompat : ∃ e ∈ name_matches list (remove_ws_punct name),
      unit_match_logic unit e = true) :
    find_nothrow cu list name unit =
      some (
        if (drop_repeats none ((name_matches list (remove_ws_punct name)).filter
            (unit_match_logic unit))).length = 1 then
          (if list.any (exact_match (remove_ws_punct name)) = true
            then one_exact_match_unit_match else one_pattern_match_unit_match)
        else
          (if list.any (exact_match (remove_ws_punct name)) = true
            then exact_matches_unit_match else pattern_matches_unit_match),
        drop_repeats none ((name_matches list (remove_ws_punct name)).filter
          (unit_match_logic unit))) := by
  obtain ⟨e1, e2, es, hms⟩ := two_le_length_cases _ hmulti
  obtain ⟨e, he, hu⟩ := hcompat
  have hf : (name_matches list (remove_ws_punct name)).filter
      (unit_match_logic unit) ≠ [] := by
    intro h
    have : e ∈ (name_matches list (remove_ws_punct name)).filter
        (unit_match_logic unit) := List.mem_filter.mpr ⟨he, hu⟩
    rw [h] at this
    cases this
  rw [find_nothrow_eq]
  unfold find_result
  rw [hms] at hf
  simp only [hms, hne, hf, if_false, one_unit_ok, multi_unit_ok]
  split <;> rfl

/-- The scenario of the specification: with the two entries of the speed
of light, the query "c" with the unit "cgs" returns only the CGS entry,
value 2.998e10 and unit "cm/s", with the status
`one_exact_match_unit_match`. -/
theorem find_nothrow_multi_unit_match_witness :
    2 ≤ (name_matches [light_mks, light_cgs] (remove_ws_punct "c")).length ∧
      (∃ e ∈ name_matches [light_mks, light_cgs] (remove_ws_punct "c"),
        unit_match_logic "cgs" e = true) ∧
      find_nothrow no_conversion [light_mks, light_cgs] "c" "cgs"
        = some (one_exact_match_unit_match, [light_cgs]) ∧
      light_cgs.val = ⟨0x421bebc9fc000000⟩ ∧ light_cgs.unit = "cm/s" :=
  ⟨by decide, ⟨light_cgs, by decide, by decide⟩,
    (find_nothrow_multi_unit_match no_conversion [light_mks, light_cgs] "c" "cgs"
      (by decide) (by decide) ⟨light_cgs, by decide, by decide⟩).trans (by decide),
    rfl, rfl⟩

/-- C7: when two or more entries match the query by name, the unit is not
empty, none of the name matches is compatible with it and the converter
succeeds on at least one of them, `find_nothrow` returns, in catalog order,
a copy with the converted value and the requested unit of each name match
on which the converter succeeds and whose names sequence differs from that
of the entry appended last; the status is `one_*_match_unit_match` when the
result has one entry and `exact_matches_unit_match` or
`pattern_matches_unit_match` when it has more. -/
theorem find_nothrow_multi_converted (cu : convert_units)
    (list : List const_entry) (name unit : String)
    (hmulti : 2 ≤ (name_matches list (remove_ws_punct name)).length)
    (hne : unit ≠ "")
    (hnone : ∀ e ∈ name_matches list (remove_ws_punct name),
      unit_match_logic unit e = false)
    (hsome : ∃ e ∈ name_matches list (remove_ws_punct name),
      (cu e.unit unit e.val).1 = 0) :
    find_nothrow cu list name unit =
      some (
        if (convert_keep cu unit none
            (name_matches list (remove_ws_punct name))).length = 1 then
          (if list.any (exact_match (remove_ws_punct name)) = true
            then one_exact_match_unit_match else one_pattern_match_unit_match)
        else
          (if list.any (exact_match (remove_ws_punct name)) = true
            then exact_matches_unit_match else pattern_matches_unit_match),
        convert_keep cu unit none (name_matches list (remove_ws_punct name))) ∧
      1 ≤ (convert_keep cu unit none
        (name_matches list (remove_ws_punct name))).length := by
  obtain ⟨e1, e2, es, hms⟩ := two_le_length_cases _ hmulti
  have hf : (name_matches list (remove_ws_punct name)).filter
      (unit_match_logic unit) = [] := by
    rw [List.filter_eq_nil_iff]
    intro e he
    simp [hnone e he]
  have hk : convert_keep cu unit none (name_matches list (remove_ws_punct name))
      ≠ [] := by
    obtain ⟨e, he, hc⟩ := hsome
    exact convert_keep_ne_nil cu unit _ e he hc
  refine ⟨?_, List.length_pos.mpr hk⟩
  rw [find_nothrow_eq]
  unfold find_result
  rw [hms] at hf hk
  simp only [hms, hne, hf, hk, if_false, if_true, one_unit_ok, multi_unit_ok]
  split <;> rfl

/-- With the two entries of the speed of light and a converter to km/s,
the query "c" with the unit "km/s" returns the converted copy of the first
entry; the second entry has the same names and is left out. -/
theorem find_nothrow_multi_converted_witness :
    2 ≤ (name_matches [light_mks, light_cgs] (remove_ws_punct "c")).length ∧
      (∀ e ∈ name_matches [light_mks, light_cgs] (remove_ws_punct "c"),
        unit_match_logic "km/s" e = false) ∧
      find_nothrow some_conversions [light_mks, light_cgs] "c" "km/s"
        = some (one_exact_match_unit_match,
            [{ light_mks with val := ⟨0x41124c6000000000⟩, unit := "km/s" }]) :=
  ⟨by decide, by decide,
    (find_nothrow_multi_converted some_conversions [light_mks, light_cgs] "c" "km/s"
      (by decide) (by decide) (by decide)
      ⟨light_mks, by decide, by decide⟩).1.trans (by decide)⟩

/-- C8: on the built-in catalog the query "c" with the unit "kg" and a
converter that knows no conversion matches the two entries of the speed of
light; one entry remains after the de-duplication and the status that the
code returns is `exact_matches_unit_diff`, not the singular
`one_exact_match_unit_diff`. -/
theorem find_nothrow_fallback_speed_of_light (vals : Nat → double) :
    find_nothrow no_conversion (builtin_list vals) "c" "kg" =
      some (exact_matches_unit_diff,
        [⟨["speed of light", "c", "lightspeed"], "m/s", o2scl_mks, vals 18, "exact",
          1, 0, -1, 0, 0, 0, 0⟩]) := by
  rfl

/-! ## No matches, and exact matches before pattern matches -/

theorem find_result_no_matches (cu : convert_units) (list : List const_entry)
    (name unit : String) :
    ((find_result cu list name unit).1 = no_matches ↔
        name_matches list (remove_ws_punct name) = []) ∧
      ((find_result cu list name unit).2 = [] ↔
        name_matches list (remove_ws_punct name) = []) := by
  unfold find_result
  cases hx : list.any (exact_match (remove_ws_punct name)) <;>
  · simp only []
    split
    · next h => simp [h]
    · next e h =>
        simp only [h, one_unit_ok, one_unit_mismatch]
        split_ifs <;> simp
    · next e1 e2 es h =>
        have hd := drop_repeats_ne_nil (e1 :: e2 :: es) (by simp)
        have hd2 := drop_repeats_ne_nil
          ((e1 :: e2 :: es).filter (unit_match_logic unit))
        simp only [h, one_unit_ok, multi_no_unit, multi_unit_ok, multi_unit_mismatch]
        split_ifs with h1 h2 h3 h4 h5 <;> simp [hd, hd2, *]

/-- C9: for every catalog, query, unit and converter `find_nothrow` returns
a result; the status is `no_matches` if and only if no entry matches the
query by name in pass 1 or in pass 2, and the returned list is empty if and
only if the status is `no_matches`.  On the built-in catalog the query
"zzz_not_a_constant" with the unit "any" gives `no_matches` and the empty
list. -/
theorem find_nothrow_no_matches :
    (∀ (cu : convert_units) (list : List const_entry) (name unit : String),
      ∃ st found, find_nothrow cu list name unit = some (st, found) ∧
        (st = no_matches ↔
          ∀ e ∈ list, exact_match (remove_ws_punct name) e = false ∧
            pattern_match (remove_ws_punct name) e = false) ∧
        (found = [] ↔ st = no_matches)) ∧
    (∀ (cu : convert_units) (vals : Nat → double),
      find_nothrow cu (builtin_list vals) "zzz_not_a_constant" "any" =
        some (no_matches, [])) := by
  refine ⟨?_, fun cu vals => rfl⟩
  intro cu list name unit
  refine ⟨(find_result cu list name unit).1, (find_result cu list name unit).2,
    find_nothrow_eq cu list name unit, ?_, ?_⟩
  · rw [(find_result_no_matches cu list name unit).1, name_matches_eq_nil]
  · rw [(find_result_no_matches cu list name unit).1,
      (find_result_no_matches cu list name unit).2]

/-- C10, as stated, fails: with the two entries of the speed of light the
query "c" equals an alias of the MKS entry, yet the search with the unit
"cgs" returns the CGS entry alone, which is neither the MKS entry nor a
copy of it with another value and unit. -/
theorem find_nothrow_exact_entry_left_out :
    light_mks ∈ [light_mks, light_cgs] ∧
      (light_mks.names.any fun a =>
        iequals (remove_ws_punct "c") (remove_ws_punct a)) = true ∧
      find_nothrow no_conversion [light_mks, light_cgs] "c" "cgs"
        = some (one_exact_match_unit_match, [light_cgs]) ∧
      (∀ r ∈ [light_cgs], ∀ (v : double) (u : String),
        r ≠ { light_mks with val := v, unit := u }) := by
  refine ⟨by decide, by decide, by decide, ?_⟩
  intro r hr v u h
  rw [List.mem_singleton] at hr
  subst hr
  have hflag : o2scl_cgs = o2scl_mks := congrArg const_entry.unit_flag h
  exact unit_flag.noConfusion hflag

theorem find_result_exact (cu : convert_units)
    (list : List const_entry) (name unit : String) (E : const_entry)
    (hE : E ∈ list)
    (hex : exact_match (remove_ws_punct name) E = true) :
    (find_result cu list name unit).1.is_exact = true ∧
      (find_result cu list name unit).2 ≠ [] ∧
      (∀ r ∈ (find_result cu list name unit).2,
        ∃ e ∈ list, exact_match (remove_ws_punct name) e = true ∧
          (r = e ∨ r = converted cu unit e)) ∧
      ((name_matches list (remove_ws_punct name) = [E] ∨ unit = "") →
        (E ∈ (find_result cu list name unit).2 ∨
          converted cu unit E ∈ (find_result cu list name unit).2)) := by
  have hany : list.any (exact_match (remove_ws_punct name)) = true :=
    List.any_eq_true.mpr ⟨E, hE, hex⟩
  have hEm : E ∈ name_matches list (remove_ws_punct name) := by
    unfold name_matches
    rw [if_pos hany]
    exact List.mem_filter.mpr ⟨hE, hex⟩
  have hsub : ∀ r ∈ name_matches list (remove_ws_punct name),
      r ∈ list ∧ exact_match (remove_ws_punct name) r = true :=
    fun r hr => ⟨name_matches_subset _ _ _ hr, name_matches_exact _ _ hany _ hr⟩
  unfold find_result
  simp only [hany]
  generalize name_matches list (remove_ws_punct name) = ms at hEm hsub
  match ms, hEm, hsub with
  | [e], hEm, hsub =>
    have hEe : E = e := List.mem_singleton.mp hEm
    subst hEe
    have hl := hsub E (List.mem_singleton_self E)
    simp only [one_unit_ok, one_unit_mismatch, if_true]
    split_ifs
    · exact ⟨rfl, by simp, fun r hr => ⟨E, hl.1, hl.2, Or.inl (List.mem_singleton.mp hr)⟩,
        fun _ => Or.inl (List.mem_singleton_self E)⟩
    · exact ⟨rfl, by simp, fun r hr => ⟨E, hl.1, hl.2, Or.inr (List.mem_singleton.mp hr)⟩,
        fun _ => Or.inr (List.mem_singleton_self _)⟩
    · exact ⟨rfl, by simp, fun r hr => ⟨E, hl.1, hl.2, Or.inl (List.mem_singleton.mp hr)⟩,
        fun _ => Or.inl (List.mem_singleton_self E)⟩
  | e1 :: e2 :: es, hEm, hsub =>
    simp only [one_unit_ok, multi_no_unit, multi_unit_ok, multi_unit_mismatch, if_true]
    have hd := drop_repeats_ne_nil (e1 :: e2 :: es) (by simp)
    have hd2 := drop_repeats_ne_nil ((e1 :: e2 :: es).filter (unit_match_logic unit))
    have hkeep : ∀ r ∈ convert_keep cu unit none (e1 :: e2 :: es),
        ∃ e ∈ list, exact_match (remove_ws_punct name) e = true ∧
          (r = e ∨ r = converted cu unit e) := by
      intro r hr
      obtain ⟨e, he, hre⟩ := convert_keep_subset cu unit none _ r hr
      exact ⟨e, (hsub e he).1, (hsub e he).2, Or.inr hre⟩
    have hdrop : ∀ r ∈ drop_repeats none (e1 :: e2 :: es),
        ∃ e ∈ list, exact_match (remove_ws_punct name) e = true ∧
          (r = e ∨ r = converted cu unit e) := by
      intro r hr
      have he := drop_repeats_subset none _ r hr
      exact ⟨r, (hsub r he).1, (hsub r he).2, Or.inl rfl⟩
    have hdropf : ∀ r ∈ drop_repeats none
        ((e1 :: e2 :: es).filter (unit_match_logic unit)),
        ∃ e ∈ list, exact_match (remove_ws_punct name) e = true ∧
          (r = e ∨ r = converted cu unit e) := by
      intro r hr
      have he := (List.mem_filter.mp (drop_repeats_subset none _ r hr)).1
      exact ⟨r, (hsub r he).1, (hsub r he).2, Or.inl rfl⟩
    have hnot : ∀ P : Prop, ¬ unit = "" →
        (e1 :: e2 :: es = [E] ∨ unit = "") → P := by
      intro P hu h
      rcases h with h | h
      · simp at h
      · exact absurd h hu
    split_ifs with h1 h2 h3 h4 h5
    · exact ⟨rfl, by simp,
        fun r hr => ⟨r, (hsub r hr).1, (hsub r hr).2, Or.inl rfl⟩,
        fun _ => Or.inl hEm⟩
    · exact ⟨rfl, hd, hdrop, hnot _ h1⟩
    · exact ⟨rfl, h3, hkeep, hnot _ h1⟩
    · exact ⟨rfl, h3, hkeep, hnot _ h1⟩
    · exact ⟨rfl, hd2 h2, hdropf, hnot _ h1⟩
    · exact ⟨rfl, hd2 h2, hdropf, hnot _ h1⟩

/-- C10, amended: when the normalized query equals, without regard to
case, the normalized form of some alias of an entry `E` of the catalog, the
status is qualified EXACT, the returned list is not empty, and every
returned entry is an entry of the catalog that matches the query exactly,
or the converted copy of one; `E` itself, or its converted copy, is in the
list when `E` is the only name match or when the unit is empty. -/
theorem find_nothrow_exact_beats_pattern (cu : convert_units)
    (list : List const_entry) (name unit : String) (E : const_entry)
    (hE : E ∈ list)
    (hex : (E.names.any fun a =>
      iequals (remove_ws_punct name) (remove_ws_punct a)) = true) :
    ∃ st found, find_nothrow cu list name unit = some (st, found) ∧
      st.is_exact = true ∧ found ≠ [] ∧
      (∀ r ∈ found, ∃ e ∈ list, exact_match (remove_ws_punct name) e = true ∧
        (r = e ∨ r = converted cu unit e)) ∧
      ((name_matches list (remove_ws_punct name) = [E] ∨ unit = "") →
        (E ∈ found ∨ converted cu unit E ∈ found)) := by
  exact ⟨_, _, find_nothrow_eq cu list name unit,
    find_result_exact cu list name unit E hE hex⟩

/-- The query "Avogadro" without a unit on a catalog of three entries:
the entry of the Avogadro number matches exactly and is returned. -/
theorem find_nothrow_exact_beats_pattern_witness :
    avogadro ∈ [light_mks, light_cgs, avogadro] ∧
      (avogadro.names.any fun a =>
        iequals (remove_ws_punct "Avogadro") (remove_ws_punct a)) = true ∧
      ∃ st found,
        find_nothrow no_conversion [light_mks, light_cgs, avogadro] "Avogadro" ""
          = some (st, found) ∧
        st.is_exact = true ∧ found ≠ [] ∧
        (∀ r ∈ found, ∃ e ∈ [light_mks, light_cgs, avogadro],
          exact_match (remove_ws_punct "Avogadro") e = true ∧
            (r = e ∨ r = converted no_conversion "" e)) ∧
        ((name_matches [light_mks, light_cgs, avogadro] (remove_ws_punct "Avogadro")
            = [avogadro] ∨ ("" : String) = "") →
          (avogadro ∈ found ∨ converted no_conversion "" avogadro ∈ found)) :=
  ⟨by decide, by decide,
    find_nothrow_exact_beats_pattern no_conversion [light_mks, light_cgs, avogadro]
      "Avogadro" "" avogadro (by decide) (by decide)⟩


/-! ## The unit rule -/

theorem iequals_chars_eq (a b : List Char) :
    iequals_chars a b = decide (a.map Char.toUpper = b.map Char.toUpper) := by
  induction a generalizing b with
  | nil => cases b <;> simp [iequals_chars]
  | cons x xs ih =>
    cases b with
    | nil => simp [iequals_chars]
    | cons y ys =>
      simp only [iequals_chars, ih, List.map_cons, List.cons.injEq]
      by_cases h1 : x.toUpper = y.toUpper <;>
        by_cases h2 : List.map Char.toUpper xs = List.map Char.toUpper ys <;>
        simp [h1, h2]

theorem iequals_eq (a b : String) :
    iequals a b = decide (equal_ignoring_case a b) := by
  unfold iequals
  rw [iequals_chars_eq]
  rfl

theorem iequals_refl (a : String) : iequals a a = true := by
  rw [iequals_eq]
  exact decide_eq_true rfl

/-- C11: the unit rule accepts every entry, whatever its unit and its
flag, when the requested unit equals "any" without regard to case. -/
theorem unit_match_logic_any (requested : String) (f : const_entry)
    (h : equal_ignoring_case requested "any") :
    unit_match_logic requested f = true := by
  unfold unit_match_logic
  have h1 : iequals requested "any" = true := by
    rw [iequals_eq]
    exact decide_eq_true h
  simp [h1]

/-- The request "Any" is accepted for the CGS entry of the speed of
light. -/
theorem unit_match_logic_any_witness :
    equal_ignoring_case "Any" "any" ∧ unit_match_logic "Any" light_cgs = true :=
  ⟨by decide, unit_match_logic_any "Any" light_cgs (by decide)⟩

/-- C12, as stated, fails: an entry with the flag MKS and the empty unit
is accepted for the empty request. -/
theorem unit_match_logic_empty_request_mks :
    bare_mks.unit_flag = o2scl_mks ∧ unit_match_logic "" bare_mks = true := by
  decide

/-- C12, amended: when the requested unit is empty or equals "none"
without regard to case, the unit rule accepts the entry if and only if the
flag of the entry is NONE or the unit of the entry equals the request
without regard to case. -/
theorem unit_match_logic_none (requested : String) (f : const_entry)
    (h : requested = "" ∨ equal_ignoring_case requested "none") :
    unit_match_logic requested f = true ↔
      (f.unit_flag = fc_none ∨ equal_ignoring_case requested f.unit) := by
  unfold unit_match_logic
  simp only [iequals_eq]
  rcases h with h | h
  · subst h
    have e1 : ¬ equal_ignoring_case "" "any" := by decide
    have e2 : ¬ equal_ignoring_case "" "mks" := by decide
    have e3 : ¬ equal_ignoring_case "" "cgs" := by decide
    simp [e1, e2, e3]
  · have e1 : ¬ equal_ignoring_case requested "any" := by
      unfold equal_ignoring_case at h ⊢
      rw [h]
      decide
    have e2 : ¬ equal_ignoring_case requested "mks" := by
      unfold equal_ignoring_case at h ⊢
      rw [h]
      decide
    have e3 : ¬ equal_ignoring_case requested "cgs" := by
      unfold equal_ignoring_case at h ⊢
      rw [h]
      decide
    simp [e1, e2, e3, h]

/-- The request "None" is accepted for the entry of the Avogadro number,
whose flag is NONE. -/
theorem unit_match_logic_none_witness :
    (("None" : String) = "" ∨ equal_ignoring_case "None" "none") ∧
      (unit_match_logic "None" avogadro = true ↔
        (avogadro.unit_flag = fc_none ∨ equal_ignoring_case "None" avogadro.unit)) :=
  ⟨Or.inr (by decide), unit_match_logic_none "None" avogadro (Or.inr (by decide))⟩

/-- C13: the unit rule accepts the entry when the requested unit equals
"mks" without regard to case and the flag of the entry is MKS or NONE, and
when the requested unit equals "cgs" without regard to case and the flag
is CGS or NONE. -/
theorem unit_match_logic_system (requested : String) (f : const_entry)
    (h : (equal_ignoring_case requested "mks" ∧
          (f.unit_flag = o2scl_mks ∨ f.unit_flag = fc_none)) ∨
        (equal_ignoring_case requested "cgs" ∧
          (f.unit_flag = o2scl_cgs ∨ f.unit_flag = fc_none))) :
    unit_match_logic requested f = true := by
  unfold unit_match_logic
  simp only [iequals_eq]
  rcases h with ⟨h1, h2 | h2⟩ | ⟨h1, h2 | h2⟩ <;> simp [h1, h2]

/-- The request "CGS" is accepted for the CGS entry of the speed of
light. -/
theorem unit_match_logic_system_witness :
    (equal_ignoring_case "CGS" "cgs" ∧
        (light_cgs.unit_flag = o2scl_cgs ∨ light_cgs.unit_flag = fc_none)) ∧
      unit_match_logic "CGS" light_cgs = true :=
  ⟨⟨by decide, Or.inl rfl⟩,
    unit_match_logic_system "CGS" light_cgs (Or.inr ⟨by decide, Or.inl rfl⟩)⟩

/-- C14: for a requested unit that is not empty and equals none of "any",
"none", "mks" and "cgs" without regard to case, the unit rule accepts the
entry if and only if the request equals the unit of the entry without
regard to case. -/
theorem unit_match_logic_literal (requested : String) (f : const_entry)
    (hne : requested ≠ "")
    (hany : ¬ equal_ignoring_case requested "any")
    (hnone : ¬ equal_ignoring_case requested "none")
    (hmks : ¬ equal_ignoring_case requested "mks")
    (hcgs : ¬ equal_ignoring_case requested "cgs") :
    unit_match_logic requested f = true ↔ equal_ignoring_case requested f.unit := by
  unfold unit_match_logic
  simp only [iequals_eq]
  have hl : ¬ requested.length = 0 := by
    have := (string_length_pos requested).mpr hne
    omega
  simp [hany, hnone, hmks, hcgs, hl]

/-- The request "M/S" is accepted for the MKS entry of the speed of light,
stored in "m/s". -/
theorem unit_match_logic_literal_witness :
    ("M/S" : String) ≠ "" ∧ ¬ equal_ignoring_case "M/S" "any" ∧
      ¬ equal_ignoring_case "M/S" "none" ∧ ¬ equal_ignoring_case "M/S" "mks" ∧
      ¬ equal_ignoring_case "M/S" "cgs" ∧
      (unit_match_logic "M/S" light_mks = true ↔
        equal_ignoring_case "M/S" light_mks.unit) ∧
      unit_match_logic "M/S" light_mks = true :=
  ⟨by decide, by decide, by decide, by decide, by decide,
    unit_match_logic_literal "M/S" light_mks (by decide) (by decide) (by decide)
      (by decide) (by decide), by decide⟩

/-! ## Unique lookup -/

theorem find_result_one_length (cu : convert_units) (list : List const_entry)
    (name unit : String)
    (h : (find_result cu list name unit).1 = one_exact_match_unit_match ∨
      (find_result cu list name unit).1 = one_pattern_match_unit_match) :
    ∃ e, (find_result cu list name unit).2 = [e] := by
  unfold find_result at h ⊢
  revert h
  cases list.any (exact_match (remove_ws_punct name)) <;>
  · simp only []
    split
    · simp
    · next e _ =>
        simp only [one_unit_ok, one_unit_mismatch]
        split_ifs <;> simp
    · next e1 e2 es _ =>
        simp only [one_unit_ok, multi_no_unit, multi_unit_ok, multi_unit_mismatch]
        split_ifs with h1 h2 h3 h4 h5 <;> simp [List.length_eq_one] at * <;> assumption

theorem add_count_k_ge (nj : String) (l : List String) (n : Nat) :
    n ≤ add_count_k nj l n := by
  induction l generalizing n with
  | nil => simp [add_count_k]
  | cons nk rest ih =>
    unfold add_count_k
    split
    · exact Nat.le_trans (Nat.le_succ n) (ih (n + 1))
    · exact ih n

theorem add_count_k_eq (nj : String) (l : List String) (n : Nat) :
    add_count_k nj l n = n ↔ nj ∉ l := by
  induction l generalizing n with
  | nil => simp [add_count_k]
  | cons nk rest ih =>
    unfold add_count_k
    by_cases h : nj = nk
    · have := add_count_k_ge nj rest (n + 1)
      simp only [h, if_true, List.mem_cons, true_or, not_true_eq_false, iff_false]
      rw [h] at this
      omega
    · simp only [h, if_false, List.mem_cons, false_or]
      exact ih n

theorem add_count_j_ge (fnames l : List String) (n : Nat) :
    n ≤ add_count_j fnames l n := by
  induction l generalizing n with
  | nil => simp [add_count_j]
  | cons nj rest ih =>
    unfold add_count_j
    exact Nat.le_trans (add_count_k_ge nj fnames n) (ih _)

theorem add_count_j_eq (fnames l : List String) (n : Nat) :
    add_count_j fnames l n = n ↔ ∀ a ∈ l, a ∉ fnames := by
  induction l generalizing n with
  | nil => simp [add_count_j]
  | cons nj rest ih =>
    unfold add_count_j
    have h1 := add_count_k_ge nj fnames n
    have h2 := add_count_j_ge fnames rest (add_count_k nj fnames n)
    constructor
    · intro h
      have hk : add_count_k nj fnames n = n := by omega
      have hr := (ih (add_count_k nj fnames n)).mp (by omega)
      intro a ha
      rcases List.mem_cons.mp ha with h3 | h3
      · rw [h3]
        exact (add_count_k_eq nj fnames n).mp hk
      · exact hr a h3
    · intro h
      have hk := (add_count_k_eq nj fnames n).mpr (h nj (List.mem_cons_self _ _))
      rw [hk]
      exact (ih n).mpr (fun a ha => h a (List.mem_cons_of_mem _ ha))

theorem add_count_i_ge (fnames : List String) (l : List const_entry) (n : Nat) :
    n ≤ add_count_i fnames l n := by
  induction l generalizing n with
  | nil => simp [add_count_i]
  | cons e es ih =>
    unfold add_count_i
    exact Nat.le_trans (add_count_j_ge fnames e.names n) (ih _)

theorem add_count_i_eq (fnames : List String) (l : List const_entry) (n : Nat) :
    add_count_i fnames l n = n ↔ ∀ e ∈ l, ∀ a ∈ e.names, a ∉ fnames := by
  induction l generalizing n with
  | nil => simp [add_count_i]
  | cons e es ih =>
    unfold add_count_i
    have h1 := add_count_j_ge fnames e.names n
    have h2 := add_count_i_ge fnames es (add_count_j fnames e.names n)
    constructor
    · intro h
      have hj : add_count_j fnames e.names n = n := by omega
      have hr := (ih (add_count_j fnames e.names n)).mp (by omega)
      intro x hx
      rcases List.mem_cons.mp hx with h3 | h3
      · rw [h3]
        exact (add_count_j_eq fnames e.names n).mp hj
      · exact hr x h3
    · intro h
      have hj := (add_count_j_eq fnames e.names n).mpr (h e (List.mem_cons_self _ _))
      rw [hj]
      exact (ih n).mpr (fun x hx => h x (List.mem_cons_of_mem _ hx))

/-- The outcome of `add_constant`: it succeeds and appends the entry when
the entry has a name and shares no name with the catalog, and fails and
leaves the catalog as it is otherwise. -/
theorem add_constant_eq (list : List const_entry) (f : const_entry) :
    (f.names ≠ [] ∧ (∀ e ∈ list, ∀ a ∈ e.names, a ∉ f.names) ∧
        add_constant list f = (Except.ok (), list ++ [f])) ∨
      ((f.names = [] ∨ ∃ e ∈ list, ∃ a ∈ e.names, a ∈ f.names) ∧
        ∃ err, add_constant list f = (Except.error err, list)) := by
  unfold add_constant
  by_cases h0 : f.names = []
  · right
    exact ⟨Or.inl h0, O2SCL_ERR2 "No names specified in "
      "find_constants::add_constant()." exc.exc_einval, by simp [h0]⟩
  · have hl : ¬ f.names.length = 0 := fun h => h0 (List.length_eq_zero.mp h)
    by_cases hc : add_count_i f.names list 0 = 0
    · left
      refine ⟨h0, (add_count_i_eq f.names list 0).mp hc, ?_⟩
      simp [hl, hc]
    · right
      have hex : ∃ e ∈ list, ∃ a ∈ e.names, a ∈ f.names := by
        by_contra hno
        apply hc
        rw [add_count_i_eq]
        intro e he a ha hf
        exact hno ⟨e, he, a, ha, hf⟩
      have hpos : add_count_i f.names list 0 > 0 := Nat.pos_of_ne_zero hc
      exact ⟨Or.inr hex, O2SCL_ERR2 "Name already found in "
        "find_constants::add_constant()." exc.exc_einval, by simp [hl, hpos]⟩

/-- C16: `add_constant` fails if and only if the entry has no name or one
of its names is string-equal to a name of an entry of the catalog; when it
fails the catalog is unchanged. -/
theorem add_constant_fails_iff (list : List const_entry) (E : const_entry) :
    ((∃ err, (add_constant list E).1 = Except.error err) ↔
        (E.names = [] ∨ ∃ e ∈ list, ∃ a ∈ e.names, a ∈ E.names)) ∧
      ((∃ err, (add_constant list E).1 = Except.error err) →
        (add_constant list E).2 = list) := by
  rcases add_constant_eq list E with ⟨h0, hno, heq⟩ | ⟨hbad, err, heq⟩
  · rw [heq]
    constructor
    · constructor
      · rintro ⟨err, herr⟩
        cases herr
      · rintro (h | ⟨e, he, a, ha, hf⟩)
        · exact absurd h h0
        · exact absurd hf (hno e he a ha)
    · rintro ⟨err, herr⟩
      cases herr
  · rw [heq]
    exact ⟨⟨fun _ => hbad, fun _ => ⟨err, rfl⟩⟩, fun _ => rfl⟩

/-- C17: when `add_constant` succeeds, the catalog afterwards is the old
catalog followed by the new entry: the new entry is the last one, the
length has grown by one and every old entry is at its old position. -/
theorem add_constant_appends (list : List const_entry) (E : const_entry)
    (h : (add_constant list E).1 = Except.ok ()) :
    (add_constant list E).2 = list ++ [E] ∧
      (add_constant list E).2.getLast? = some E ∧
      (add_constant list E).2.length = list.length + 1 ∧
      ∀ i, i < list.length → (add_constant list E).2[i]? = list[i]? := by
  rcases add_constant_eq list E with ⟨_, _, heq⟩ | ⟨_, err, heq⟩
  · rw [heq]
    refine ⟨rfl, by simp, by simp, ?_⟩
    intro i hi
    exact List.getElem?_append_left hi
  · rw [heq] at h
    cases h

/-- The entry of the Avogadro number is added to the catalog of the two
entries of the speed of light. -/
theorem add_constant_appends_witness :
    (add_constant [light_mks, light_cgs] avogadro).1 = Except.ok () ∧
      (add_constant [light_mks, light_cgs] avogadro).2
        = [light_mks, light_cgs, avogadro] :=
  ⟨rfl, (add_constant_appends [light_mks, light_cgs] avogadro rfl).1⟩

/-! ## Removal -/

theorem del_names_fst (name : String) (i : Nat) (names : List String)
    (st : Nat × Option Nat) :
    (del_names name i names st).1 = st.1 + names.count name := by
  induction names generalizing st with
  | nil => simp [del_names]
  | cons nm rest ih =>
    unfold del_names
    by_cases h : nm = name
    · simp only [h, if_true, ih, List.count_cons_self]
      omega
    · have h2 : (nm == name) = false := by simpa using h
      simp only [h, if_false, ih, List.count_cons, h2]
      simp

theorem del_scan_fst (name : String) (l : List const_entry) (i : Nat)
    (st : Nat × Option Nat) :
    (del_scan name l i st).1 =
      st.1 + (l.map fun e => e.names.count name).sum := by
  induction l generalizing i st with
  | nil => simp [del_scan]
  | cons e es ih =>
    unfold del_scan
    rw [ih, del_names_fst]
    simp only [List.map_cons, List.sum_cons]
    omega

theorem has_alias_iff (name : String) (e : const_entry) :
    has_alias name e = true ↔ 0 < e.names.count name := by
  unfold has_alias
  rw [List.count_pos_iff]
  simp

theorem count_sum_eq_zero (name : String) (l : List const_entry)
    (h : (l.filter (has_alias name)).length = 0) :
    (l.map fun e => e.names.count name).sum = 0 := by
  induction l with
  | nil => simp
  | cons e es ih =>
    by_cases ha : has_alias name e = true
    · simp [List.filter_cons, ha] at h
    · have h2 : (es.filter (has_alias name)).length = 0 := by
        simpa [List.filter_cons, ha] using h
      have h3 : e.names.count name = 0 := by
        have := (has_alias_iff name e).not.mp ha
        omega
      simp [h3, ih h2]

theorem filter_length_le_count_sum (name : String) (l : List const_entry) :
    (l.filter (has_alias name)).length ≤ (l.map fun e => e.names.count name).sum := by
  induction l with
  | nil => simp
  | cons e es ih =>
    by_cases ha : has_alias name e = true
    · have := (has_alias_iff name e).mp ha
      simp only [List.filter_cons, ha, if_true, List.length_cons, List.map_cons,
        List.sum_cons]
      omega
    · simp only [List.filter_cons, ha, Bool.false_eq_true, if_false, List.map_cons,
        List.sum_cons]
      omega

/-- C18: on the built-in catalog exactly one entry, the one of the mass
of the W, has a name string-equal to "mW"; that entry lists the name
twice, `del_constant` counts two matches, fails with the error for more
than one match and leaves the catalog as it is. -/
theorem del_constant_builtin_mW (vals : Nat → double) :
    (builtin_list vals).filter (has_alias "mW") =
        [⟨["mass W", "Wmass", "mW", "mW"], "GeV", fc_other, vals 52,
          "https://pdg.lbl.gov/2021/tables/contents_tables.html on 10/27/21",
          0, 1, 0, 0, 0, 0, 0⟩] ∧
      del_constant (builtin_list vals) "mW" =
        some (Except.error
          ⟨"More than one match found in attempting to delete in " ++
            "find_constants::del_constant", exc.exc_einval⟩,
          builtin_list vals) :=
  ⟨rfl, rfl⟩

/-- C19: `del_constant` fails when no entry has a name string-equal to
`name` and when two or more entries have one; in both cases the catalog
is unchanged. -/
theorem del_constant_fails (list : List const_entry) (name : String)
    (h : (list.filter (has_alias name)).length = 0 ∨
      2 ≤ (list.filter (has_alias name)).length) :
    ∃ err, del_constant list name = some (Except.error err, list) := by
  unfold del_constant
  have hn := del_scan_fst name list 0 (0, none)
  simp only [Nat.zero_add] at hn
  rcases h with h | h
  · have h0 := count_sum_eq_zero name list h
    rw [h0] at hn
    exact ⟨O2SCL_ERR2 "No matches in " "find_constants::del_constant" exc.exc_einval,
      by simp [hn]⟩
  · have h2 := filter_length_le_count_sum name list
    have h1 : ¬ (del_scan name list 0 (0, none)).1 = 1 := by omega
    have h3 : (del_scan name list 0 (0, none)).1 > 1 := by omega
    exact ⟨O2SCL_ERR2 "More than one match found in attempting to delete in "
      "find_constants::del_constant" exc.exc_einval, by simp [h1, h3]⟩

/-- The name "c" belongs to the two entries of the speed of light, so
`del_constant` fails and the catalog is unchanged. -/
theorem del_constant_fails_witness :
    2 ≤ ([light_mks, light_cgs, avogadro].filter (has_alias "c")).length ∧
      ∃ err, del_constant [light_mks, light_cgs, avogadro] "c"
        = some (Except.error err, [light_mks, light_cgs, avogadro]) :=
  ⟨by decide, del_constant_fails [light_mks, light_cgs, avogadro] "c" (Or.inr (by decide))⟩

/-! ## Insertion followed by a search -/

theorem unit_match_logic_any_text (e : const_entry) :
    unit_match_logic "any" e = true := by
  unfold unit_match_logic
  have h : iequals "any" "any" = true := by decide
  simp [h]

theorem drop_repeats_append_last (E : const_entry) (l : List const_entry)
    (prev : Option (List String)) (hl : ∀ x ∈ l, x.names ≠ E.names)
    (hp : prev ≠ some E.names) :
    drop_repeats prev (l ++ [E]) = drop_repeats prev l ++ [E] := by
  induction l generalizing prev with
  | nil => simp [drop_repeats, hp]
  | cons a as ih =>
    have has : ∀ x ∈ as, x.names ≠ E.names :=
      fun x hx => hl x (List.mem_cons_of_mem _ hx)
    have ha : (some a.names : Option (List String)) ≠ some E.names := by
      intro h
      exact hl a (List.mem_cons_self _ _) (Option.some.inj h)
    by_cases hc : prev = some a.names
    · have h1 : drop_repeats prev (a :: (as ++ [E])) = drop_repeats prev (as ++ [E]) := by
        simp [drop_repeats, hc]
      have h2 : drop_repeats prev (a :: as) = drop_repeats prev as := by
        simp [drop_repeats, hc]
      rw [List.cons_append, h1, h2]
      exact ih prev has hp
    · have h1 : drop_repeats prev (a :: (as ++ [E])) =
          a :: drop_repeats (some a.names) (as ++ [E]) := by
        simp [drop_repeats, hc]
      have h2 : drop_repeats prev (a :: as) = a :: drop_repeats (some a.names) as := by
        simp [drop_repeats, hc]
      rw [List.cons_append, h1, h2, ih (some a.names) has ha]
      rfl

theorem find_result_multi_all_units (cu : convert_units)
    (list : List const_entry) (name unit : String)
    (hmulti : 2 ≤ (name_matches list (remove_ws_punct name)).length)
    (hne : unit ≠ "")
    (hall : ∀ e ∈ name_matches list (remove_ws_punct name),
      unit_match_logic unit e = true) :
    (find_result cu list name unit).2 =
        drop_repeats none (name_matches list (remove_ws_punct name)) ∧
      ((find_result cu list name unit).1 =
          one_unit_ok (list.any (exact_match (remove_ws_punct name))) ∨
        (find_result cu list name unit).1 =
          multi_unit_ok (list.any (exact_match (remove_ws_punct name)))) ∧
      ((find_result cu list name unit).1 =
          one_unit_ok (list.any (exact_match (remove_ws_punct name))) →
        (drop_repeats none (name_matches list (remove_ws_punct name))).length = 1) := by
  obtain ⟨e1, e2, es, hms⟩ := two_le_length_cases _ hmulti
  have hf : (name_matches list (remove_ws_punct name)).filter
      (unit_match_logic unit) = name_matches list (remove_ws_punct name) :=
    List.filter_eq_self.mpr hall
  unfold find_result
  rw [hms] at hf
  simp only [hms, hne, hf, if_false]
  have hne2 : ¬ (e1 :: e2 :: es = []) := by simp
  simp only [hne2, if_false]
  split
  · next h1 => exact ⟨rfl, Or.inl rfl, fun _ => h1⟩
  · next h1 =>
      refine ⟨rfl, Or.inr rfl, ?_⟩
      cases list.any (exact_match (remove_ws_punct name)) <;>
        simp [one_unit_ok, multi_unit_ok]

/-- C20, as stated, fails: the entry named "Speed of Light" is added to
the catalog of the two entries of the speed of light, whose names are
written without capital letters; the search for "Speed of Light" with the
unit "any" then returns two entries. -/
theorem add_then_find_two_matches :
    add_constant [light_mks, light_cgs] light_capital
        = (Except.ok (), [light_mks, light_cgs, light_capital]) ∧
      light_capital.names.head? = some "Speed of Light" ∧
      find_nothrow no_conversion [light_mks, light_cgs, light_capital]
          "Speed of Light" "any"
        = some (exact_matches_unit_match, [light_mks, light_capital]) :=
  ⟨rfl, rfl, by decide⟩

/-- C20, amended: when `add_constant` succeeds for the entry `E`, the
search for the first name of `E` with the unit "any" on the new catalog
returns a status qualified EXACT and a list whose last entry is `E`,
unmodified; `E` is the only entry of the list, with the status
`one_exact_match_unit_match`, if and only if no entry of the old catalog
has a name whose normalized form equals the normalized first name of `E`
without regard to case. -/
theorem add_then_find (cu : convert_units) (list : List const_entry)
    (E : const_entry) (h : (add_constant list E).1 = Except.ok ()) :
    ∃ n0, E.names.head? = some n0 ∧
      ∃ st found,
        find_nothrow cu (add_constant list E).2 n0 "any" = some (st, found) ∧
        st.is_exact = true ∧ found.getLast? = some E ∧
        ((st = one_exact_match_unit_match ∧ found = [E]) ↔
          ∀ e ∈ list, exact_match (remove_ws_punct n0) e = false) := by
  rcases add_constant_eq list E with ⟨h0, hno, heq⟩ | ⟨_, err, heq⟩
  swap
  · rw [heq] at h
    cases h
  obtain ⟨n0, rest, hnames⟩ := List.exists_cons_of_ne_nil h0
  refine ⟨n0, by simp [hnames], ?_⟩
  rw [heq]
  simp only
  have hexE : exact_match (remove_ws_punct n0) E = true := by
    unfold exact_match
    rw [hnames]
    simp [iequals_refl]
  have hany : (list ++ [E]).any (exact_match (remove_ws_punct n0)) = true :=
    List.any_eq_true.mpr ⟨E, by simp, hexE⟩
  have hms : name_matches (list ++ [E]) (remove_ws_punct n0) =
      list.filter (exact_match (remove_ws_punct n0)) ++ [E] := by
    unfold name_matches
    rw [if_pos hany, List.filter_append]
    simp [hexE]
  have hdiff : ∀ x ∈ list.filter (exact_match (remove_ws_punct n0)),
      x.names ≠ E.names := by
    intro x hx hn
    have hxl := (List.mem_filter.mp hx).1
    have h1 : n0 ∈ x.names := by
      rw [hn, hnames]
      exact List.mem_cons_self _ _
    have h2 : n0 ∈ E.names := by
      rw [hnames]
      exact List.mem_cons_self _ _
    exact hno x hxl n0 h1 h2
  have hfind := find_nothrow_eq cu (list ++ [E]) n0 "any"
  refine ⟨(find_result cu (list ++ [E]) n0 "any").1,
    (find_result cu (list ++ [E]) n0 "any").2, hfind, ?_⟩
  cases hF : list.filter (exact_match (remove_ws_punct n0)) with
  | nil =>
    have hnone : ∀ e ∈ list, exact_match (remove_ws_punct n0) e = false := by
      intro e he
      have := List.filter_eq_nil_iff.mp hF e he
      simpa using this
    rw [hF, List.nil_append] at hms
    have hres : find_result cu (list ++ [E]) n0 "any" =
        (one_exact_match_unit_match, [E]) := by
      unfold find_result
      simp only [hms, hany, unit_match_logic_any_text, if_true, one_unit_ok]
    rw [hres]
    exact ⟨rfl, rfl, fun _ => hnone, fun _ => ⟨rfl, rfl⟩⟩
  | cons a as =>
    have hmulti : 2 ≤ (name_matches (list ++ [E]) (remove_ws_punct n0)).length := by
      rw [hms, hF]
      simp
    have hres := find_result_multi_all_units cu (list ++ [E]) n0 "any" hmulti
      (by decide) (fun e _ => unit_match_logic_any_text e)
    rw [hany, hms, drop_repeats_append_last E _ none hdiff (by simp)] at hres
    obtain ⟨h2, h1, hlen⟩ := hres
    have hke : drop_repeats none (list.filter (exact_match (remove_ws_punct n0)))
        ≠ [] := drop_repeats_ne_nil _ (by rw [hF]; simp)
    have hsome : ∃ e ∈ list, exact_match (remove_ws_punct n0) e = true :=
      ⟨a, (List.mem_filter.mp (by rw [hF]; exact List.mem_cons_self _ _)).1,
        (List.mem_filter.mp (by rw [hF]; exact List.mem_cons_self _ _)).2⟩
    refine ⟨?_, ?_, ?_⟩
    · rcases h1 with h1 | h1 <;> rw [h1] <;> rfl
    · rw [h2]
      simp
    · constructor
      · rintro ⟨_, hfound⟩
        rw [h2] at hfound
        have := congrArg List.length hfound
        simp only [List.length_append, List.length_singleton] at this
        have hpos := List.length_pos.mpr hke
        omega
      · intro hnone
        obtain ⟨e, he, hx⟩ := hsome
        rw [hnone e he] at hx
        cases hx

/-- The entry of the Avogadro number is added to the catalog of the two
entries of the speed of light; the search for its first name then returns
it alone. -/
theorem add_then_find_witness :
    (add_constant [light_mks, light_cgs] avogadro).1 = Except.ok () ∧
      find_nothrow no_conversion (add_constant [light_mks, light_cgs] avogadro).2
          "Avogadro's number" "any"
        = some (one_exact_match_unit_match, [avogadro]) ∧
      ∃ n0, avogadro.names.head? = some n0 ∧
        ∃ st found,
          find_nothrow no_conversion (add_constant [light_mks, light_cgs] avogadro).2
            n0 "any" = some (st, found) ∧
          st.is_exact = true ∧ found.getLast? = some avogadro ∧
          ((st = one_exact_match_unit_match ∧ found = [avogadro]) ↔
            ∀ e ∈ [light_mks, light_cgs],
              exact_match (remove_ws_punct n0) e = false) :=
  ⟨rfl, by decide, add_then_find no_conversion [light_mks, light_cgs] avogadro rfl⟩


/-! ## Insertion followed by removal and a search -/

theorem del_names_eq (name : String) (i : Nat) (names : List String)
    (st : Nat × Option Nat) :
    del_names name i names st =
      if names.count name = 0 then st else (st.1 + names.count name, some i) := by
  induction names generalizing st with
  | nil => simp [del_names]
  | cons nm rest ih =>
    unfold del_names
    by_cases h : nm = name
    · subst h
      rw [if_pos rfl, ih]
      simp only [List.count_cons_self]
      by_cases hc : List.count nm rest = 0
      · simp [hc]
      · simp only [hc, if_false, Nat.add_one_ne_zero]
        congr 1
        omega
    · have h2 : (nm == name) = false := by simpa using h
      rw [if_neg h, ih]
      simp [List.count_cons, h2]

theorem del_scan_append (name : String) (a b : List const_entry) (i : Nat)
    (st : Nat × Option Nat) :
    del_scan name (a ++ b) i st = del_scan name b (i + a.length) (del_scan name a i st) := by
  induction a generalizing i st with
  | nil => simp [del_scan]
  | cons e es ih =>
    have hi : i + 1 + es.length = i + (e :: es).length := by
      simp only [List.length_cons]
      omega
    have h1 : del_scan name (e :: (es ++ b)) i st =
        del_scan name (es ++ b) (i + 1) (del_names name i e.names st) := rfl
    have h2 : del_scan name (e :: es) i st =
        del_scan name es (i + 1) (del_names name i e.names st) := rfl
    rw [List.cons_append, h1, h2, ih, hi]

theorem del_scan_no_alias (name : String) (l : List const_entry) (i : Nat)
    (st : Nat × Option Nat) (h : ∀ e ∈ l, name ∉ e.names) :
    del_scan name l i st = st := by
  induction l generalizing i st with
  | nil => simp [del_scan]
  | cons e es ih =>
    have hc : e.names.count name = 0 :=
      List.count_eq_zero.mpr (h e (List.mem_cons_self _ _))
    rw [del_scan, del_names_eq, if_pos hc]
    exact ih _ _ (fun x hx => h x (List.mem_cons_of_mem _ hx))

/-- A successful `del_constant` erases one position of the catalog. -/
theorem del_constant_ok_erase (list : List const_entry) (name : String)
    (l2 : List const_entry) (h : del_constant list name = some (Except.ok (), l2)) :
    ∃ i, i < list.length ∧ l2 = list.eraseIdx i := by
  unfold del_constant at h
  simp only at h
  split at h
  · split at h
    · cases h
    · next i_match _ =>
      split at h
      · next hlt =>
        simp only [Option.some.injEq, Prod.mk.injEq, true_and] at h
        exact ⟨i_match, hlt, h.symm⟩
      · cases h
  · split at h <;> simp at h

/-- After a successful `add_constant` of `E`, a successful `del_constant`
of a name of `E` gives the old catalog back. -/
theorem add_then_del (list : List const_entry) (E : const_entry) (n0 : String)
    (l2 : List const_entry)
    (hadd : (add_constant list E).1 = Except.ok ())
    (hn0 : n0 ∈ E.names)
    (hdel : del_constant (add_constant list E).2 n0 = some (Except.ok (), l2)) :
    l2 = list := by
  rcases add_constant_eq list E with ⟨h0, hno, heq⟩ | ⟨_, err, heq⟩
  swap
  · rw [heq] at hadd
    cases hadd
  rw [heq] at hdel
  simp only at hdel
  have hnone : ∀ e ∈ list, n0 ∉ e.names := fun e he hx => hno e he n0 hx hn0
  have hcount : E.names.count n0 ≠ 0 := by
    rw [Ne, List.count_eq_zero]
    exact fun h => h hn0
  have hscan : del_scan n0 (list ++ [E]) 0 (0, none) =
      (E.names.count n0, some list.length) := by
    rw [del_scan_append, del_scan_no_alias n0 list 0 _ hnone]
    simp [del_scan, del_names_eq, hcount]
  unfold del_constant at hdel
  rw [hscan] at hdel
  simp only at hdel
  split at hdel
  · simp only [List.length_append, List.length_singleton, Nat.lt_add_one, if_true,
      Option.some.injEq, Prod.mk.injEq, true_and] at hdel
    rw [← hdel]
    exact List.eraseIdx_append_of_length_le (Nat.le_refl _) [E] |>.trans (by simp)
  · split at hdel <;> simp at hdel

/-- C21, as stated, fails: the entry named "Speed of Light" is added to
the catalog of the two entries of the speed of light and removed again;
the search for "Speed of Light" with the unit "any" then still finds the
speed of light. -/
theorem add_del_then_find_match :
    add_constant [light_mks, light_cgs] light_capital
        = (Except.ok (), [light_mks, light_cgs, light_capital]) ∧
      light_capital.names.head? = some "Speed of Light" ∧
      del_constant [light_mks, light_cgs, light_capital] "Speed of Light"
        = some (Except.ok (), [light_mks, light_cgs]) ∧
      find_nothrow no_conversion [light_mks, light_cgs] "Speed of Light" "any"
        = some (one_exact_match_unit_match, [light_mks]) :=
  ⟨rfl, rfl, rfl, by decide⟩

/-- C21, amended: when `add_constant` of `E` and then `del_constant` of
the first name of `E` succeed, the catalog is the old catalog again, and
the search for the first name of `E` with the unit "any" returns
`no_matches` with an empty list if and only if no entry of the old catalog
matches that name, exactly or as a pattern. -/
theorem add_del_then_find (cu : convert_units) (list : List const_entry)
    (E : const_entry) (n0 : String) (l2 : List const_entry)
    (hadd : (add_constant list E).1 = Except.ok ())
    (hn0 : E.names.head? = some n0)
    (hdel : del_constant (add_constant list E).2 n0 = some (Except.ok (), l2)) :
    l2 = list ∧
      (find_nothrow cu l2 n0 "any" = some (no_matches, []) ↔
        ∀ e ∈ list, exact_match (remove_ws_punct n0) e = false ∧
          pattern_match (remove_ws_punct n0) e = false) := by
  have hmem : n0 ∈ E.names := List.mem_of_mem_head? hn0
  have hl2 := add_then_del list E n0 l2 hadd hmem hdel
  subst hl2
  refine ⟨rfl, ?_⟩
  rw [find_nothrow_eq, ← name_matches_eq_nil]
  have hnm := find_result_no_matches cu l2 n0 "any"
  constructor
  · intro h
    have h1 : (find_result cu l2 n0 "any").1 = no_matches := by
      rw [Option.some.inj h]
    exact hnm.1.mp h1
  · intro h
    have h1 := hnm.1.mpr h
    have h2 := hnm.2.mpr h
    rw [Option.some.injEq]
    exact Prod.ext h1 h2

/-- The entry of the Avogadro number is added to the catalog of the two
entries of the speed of light and removed again; the search for its first
name then finds nothing. -/
theorem add_del_then_find_witness :
    (add_constant [light_mks, light_cgs] avogadro).1 = Except.ok () ∧
      avogadro.names.head? = some "Avogadro's number" ∧
      del_constant (add_constant [light_mks, light_cgs] avogadro).2 "Avogadro's number"
        = some (Except.ok (), [light_mks, light_cgs]) ∧
      find_nothrow no_conversion [light_mks, light_cgs] "Avogadro's number" "any"
        = some (no_matches, []) ∧
      ([light_mks, light_cgs] = [light_mks, light_cgs] ∧
        (find_nothrow no_conversion [light_mks, light_cgs] "Avogadro's number" "any"
            = some (no_matches, []) ↔
          ∀ e ∈ [light_mks, light_cgs],
            exact_match (remove_ws_punct "Avogadro's number") e = false ∧
              pattern_match (remove_ws_punct "Avogadro's number") e = false)) :=
  ⟨rfl, rfl, rfl, by decide,
    add_del_then_find no_conversion [light_mks, light_cgs] avogadro
      "Avogadro's number" [light_mks, light_cgs] rfl rfl rfl⟩

/-! ## The returned list has no adjacent repeats -/

theorem drop_repeats_chain (a : const_entry) (l : List const_entry) :
    List.Chain (fun x y => x.names ≠ y.names) a (drop_repeats (some a.names) l) := by
  induction l generalizing a with
  | nil => simp [drop_repeats]
  | cons e es ih =>
    unfold drop_repeats
    split
    · exact ih a
    · next h =>
      refine List.Chain.cons ?_ (ih e)
      intro hn
      exact h (by rw [hn])

theorem drop_repeats_no_adjacent (l : List const_entry) :
    no_adjacent_repeats (drop_repeats none l) := by
  unfold no_adjacent_repeats
  cases l with
  | nil => simp [drop_repeats]
  | cons e es =>
    have h : drop_repeats none (e :: es) = e :: drop_repeats (some e.names) es := by
      simp [drop_repeats]
    rw [h]
    exact drop_repeats_chain e es

theorem convert_keep_chain (cu : convert_units) (unit : String) (a : const_entry)
    (l : List const_entry) :
    List.Chain (fun x y => x.names ≠ y.names) a
      (convert_keep cu unit (some a.names) l) := by
  induction l generalizing a with
  | nil => simp [convert_keep]
  | cons e es ih =>
    unfold convert_keep
    split
    · next h =>
      refine List.Chain.cons ?_ (ih (converted cu unit e))
      intro hn
      apply h.2
      rw [hn]
      rfl
    · exact ih a

theorem convert_keep_no_adjacent (cu : convert_units) (unit : String)
    (l : List const_entry) :
    no_adjacent_repeats (convert_keep cu unit none l) := by
  unfold no_adjacent_repeats
  induction l with
  | nil => simp [convert_keep]
  | cons e es ih =>
    unfold convert_keep
    split
    · exact convert_keep_chain cu unit (converted cu unit e) es
    · exact ih

theorem find_result_no_adjacent (cu : convert_units) (list : List const_entry)
    (name unit : String) (hne : unit ≠ "") :
    no_adjacent_repeats (find_result cu list name unit).2 := by
  unfold find_result
  simp only []
  split
  · simp [no_adjacent_repeats]
  · split_ifs <;> simp [no_adjacent_repeats]
  · next e1 e2 es _ =>
    simp only [hne, if_false]
    split_ifs
    · exact drop_repeats_no_adjacent _
    · exact convert_keep_no_adjacent cu unit _
    · exact convert_keep_no_adjacent cu unit _
    · exact drop_repeats_no_adjacent _
    · exact drop_repeats_no_adjacent _

/-- C22: for every catalog, with contiguous groups of identical names
sequences or not, and for every query, converter and non-empty unit,
`find_nothrow` returns a list in which no two consecutive entries have
identical names sequences. -/
theorem find_nothrow_no_adjacent_repeats (cu : convert_units)
    (list : List const_entry) (name unit : String) (hne : unit ≠ "") :
    ∃ st found, find_nothrow cu list name unit = some (st, found) ∧
      no_adjacent_repeats found :=
  ⟨(find_result cu list name unit).1, (find_result cu list name unit).2,
    find_nothrow_eq cu list name unit, find_result_no_adjacent cu list name unit hne⟩

/-- The query "c" with the unit "any" on the two entries of the speed of
light, which have the same names, returns one of them. -/
theorem find_nothrow_no_adjacent_repeats_witness :
    ("any" : String) ≠ "" ∧
      find_nothrow no_conversion [light_mks, light_cgs] "c" "any"
        = some (one_exact_match_unit_match, [light_mks]) ∧
      ∃ st found, find_nothrow no_conversion [light_mks, light_cgs] "c" "any"
          = some (st, found) ∧
        no_adjacent_repeats found :=
  ⟨by decide, by decide,
    find_nothrow_no_adjacent_repeats no_conversion [light_mks, light_cgs] "c" "any"
      (by decide)⟩

/-! ## The names of the built-in catalog -/

/-- C23: in the built-in catalog the rows 12 and 48 both carry the name
"e", and their names sequences differ: the name is shared by two entries
that do not have identical names sequences. -/
theorem builtin_shared_name_e (vals : Nat → double) :
    ((builtin_list vals).map const_entry.names)[12]? = some ["elementary charge", "e"] ∧
      ((builtin_list vals).map const_entry.names)[48]? =
        some ["elementarycharge", "electroncharge", "e", "chargeelectron", "qelectron"] ∧
      "e" ∈ ["elementary charge", "e"] ∧
      "e" ∈ ["elementarycharge", "electroncharge", "e", "chargeelectron", "qelectron"] ∧
      ["elementary charge", "e"] ≠
        ["elementarycharge", "electroncharge", "e", "chargeelectron", "qelectron"] :=
  ⟨rfl, rfl, by decide, by decide, by decide⟩

/-- C24: in the built-in catalog the rows 0 and 16 have the same names
sequence and row 1, between them, has another one: the entries with the
names of the Schwarzchild radius are not grouped together. -/
theorem builtin_names_not_grouped (vals : Nat → double) :
    ((builtin_list vals).map const_entry.names)[0]? =
        some ["Schwarzchild radius", "rschwarz"] ∧
      ((builtin_list vals).map const_entry.names)[16]? =
        some ["Schwarzchild radius", "rschwarz"] ∧
      ((builtin_list vals).map const_entry.names)[1]? =
        some ["vacuum permittivity", "vacuum electric permittivity",
          "permittivity of free space", "epsilon0", "ε0"] ∧
      ["vacuum permittivity", "vacuum electric permittivity",
          "permittivity of free space", "epsilon0", "ε0"] ≠
        ["Schwarzchild radius", "rschwarz"] :=
  ⟨rfl, rfl, rfl, by decide⟩

/-! ## The no-duplicate-name invariant -/

/-- C25: the no-duplicate-name invariant is preserved by every successful
`add_constant` and every successful `del_constant`, and an entry added by
`add_constant` shares no name with an entry of the old catalog. -/
theorem no_duplicate_names_preserved (list : List const_entry)
    (hinv : no_duplicate_names list) :
    (∀ E : const_entry, (add_constant list E).1 = Except.ok () →
      no_duplicate_names (add_constant list E).2 ∧
        ∀ e ∈ list, (∀ x ∈ e.names, x ∉ E.names) ∧ (∀ x ∈ E.names, x ∉ e.names)) ∧
      (∀ (name : String) (l2 : List const_entry),
        del_constant list name = some (Except.ok (), l2) →
          no_duplicate_names l2) := by
  constructor
  · intro E hadd
    rcases add_constant_eq list E with ⟨_, hno, heq⟩ | ⟨_, err, heq⟩
    swap
    · rw [heq] at hadd
      cases hadd
    rw [heq]
    refine ⟨?_, fun e he => ⟨hno e he, fun x hx hxe => hno e he x hxe hx⟩⟩
    unfold no_duplicate_names at hinv ⊢
    rw [List.pairwise_append]
    refine ⟨hinv, List.pairwise_singleton _ _, ?_⟩
    intro a ha b hb
    rw [List.mem_singleton] at hb
    subst hb
    rintro ⟨x, hxa, hxb⟩
    exact absurd hxb (hno a ha x hxa)
  · intro name l2 hdel
    obtain ⟨i, _, hl2⟩ := del_constant_ok_erase list name l2 hdel
    rw [hl2]
    exact List.Pairwise.sublist (List.eraseIdx_sublist list i) hinv

/-- The catalog of the two entries of the speed of light satisfies the
invariant, and so does the catalog after the entry of the Avogadro number
is added. -/
theorem no_duplicate_names_preserved_witness :
    no_duplicate_names [light_mks, light_cgs] ∧
      (add_constant [light_mks, light_cgs] avogadro).1 = Except.ok () ∧
      no_duplicate_names (add_constant [light_mks, light_cgs] avogadro).2 :=
  have h : no_duplicate_names [light_mks, light_cgs] := by
    unfold no_duplicate_names
    simp [light_mks, light_cgs]
  ⟨h, rfl, ((no_duplicate_names_preserved [light_mks, light_cgs] h).1 avogadro rfl).1⟩

/-! ## The normalization of names -/

/-- C26: the normalization of names is idempotent. -/
theorem remove_ws_punct_idempotent (s : String) :
    remove_ws_punct (remove_ws_punct s) = remove_ws_punct s := by
  unfold remove_ws_punct
  simp [List.filter_filter]

theorem is_stripped_eq (c : Char) :
    (c == '+' || c == '-' || !(isspace c || ispunct c)) = !is_stripped c := by
  unfold is_stripped
  by_cases h1 : c = '+'
  · subst h1
    decide
  · by_cases h2 : c = '-'
    · subst h2
      decide
    · have e1 : (c == '+') = false := beq_false_of_ne h1
      have e2 : (c == '-') = false := beq_false_of_ne h2
      simp [e1, e2, bne]

/-- C27: the normalized form of a string is the string without its
whitespace and punctuation characters other than `+` and `-`: the
characters that are kept are exactly the other ones, in their order; every
`+` and `-` survives, in order and with the same multiplicity; no
whitespace and no other punctuation character remains; and "sigma+" and
"sigma-" have different normalized forms. -/
theorem remove_ws_punct_spec :
    (∀ s : String,
      (remove_ws_punct s).data = s.data.filter (fun c => !is_stripped c) ∧
      (remove_ws_punct s).data.Sublist s.data ∧
      (remove_ws_punct s).data.filter (fun c => c == '+' || c == '-') =
        s.data.filter (fun c => c == '+' || c == '-') ∧
      (∀ c ∈ (remove_ws_punct s).data,
        isspace c = false ∧ (ispunct c = true → c = '+' ∨ c = '-'))) ∧
    remove_ws_punct "sigma+" = "sigma+" ∧ remove_ws_punct "sigma-" = "sigma-" ∧
    remove_ws_punct "sigma+" ≠ remove_ws_punct "sigma-" := by
  refine ⟨?_, by decide, by decide, by decide⟩
  intro s
  have hdata : (remove_ws_punct s).data = s.data.filter (fun c => !is_stripped c) := by
    unfold remove_ws_punct
    simp only [is_stripped_eq]
  refine ⟨hdata, ?_, ?_, ?_⟩
  · rw [hdata]
    exact List.filter_sublist _
  · rw [hdata, List.filter_filter]
    apply List.filter_congr
    intro c _
    by_cases h1 : c = '+'
    · subst h1
      decide
    · by_cases h2 : c = '-'
      · subst h2
        decide
      · simp [h1, h2]
  · intro c hc
    rw [hdata, List.mem_filter] at hc
    have hk := hc.2
    unfold is_stripped at hk
    by_cases h1 : c = '+'
    · subst h1
      exact ⟨by decide, fun _ => Or.inl rfl⟩
    · by_cases h2 : c = '-'
      · subst h2
        exact ⟨by decide, fun _ => Or.inr rfl⟩
      · simp [h1, h2] at hk
        exact ⟨hk.1, fun hp => by rw [hk.2] at hp; cases hp⟩

/-! ## The case of the letters of a query -/

set_option maxHeartbeats 1000000

/-- C28: on the built-in catalog the queries "Wien" and "wien" differ only
in the case of a letter; without a unit the first one matches, as a
pattern, the two entries of the Wien displacement laws, and the second
one matches nothing. -/
theorem find_nothrow_wien_case (cu : convert_units) (vals : Nat → double) :
    find_nothrow cu (builtin_list vals) "Wien" "" =
        some (pattern_matches_no_unit,
          [⟨["Wien frequency displacement law", "b'", "bprime", "b′"],
              "Hz/K", o2scl_mks, vals 6, "CODATA 2018", 0, 0, -1, -1, 0, 0, 0⟩,
            ⟨["Wien wavelength displacement law", "b"],
              "m/K", o2scl_mks, vals 7, "CODATA 2018", 1, 0, 0, -1, 0, 0, 0⟩]) ∧
      find_nothrow cu (builtin_list vals) "wien" "" = some (no_matches, []) :=
  ⟨rfl, rfl⟩

/-! ## The column layout -/

theorem lmax_loop_congr (f g : String → Nat) (l : List String) (n : Nat)
    (h : ∀ s ∈ l, f s = g s) : lmax_loop f l n = lmax_loop g l n := by
  induction l generalizing n with
  | nil => rfl
  | cons s rest ih =>
    have hs := h s (List.mem_cons_self _ _)
    have hr : ∀ x ∈ rest, f x = g x := fun x hx => h x (List.mem_cons_of_mem _ hx)
    simp only [lmax_loop, hs, ih _ hr]

theorem pad_loop_congr (f g : String → Nat) (lmax : Nat) (l : List String)
    (h : ∀ s ∈ l, f s = g s) : pad_loop f lmax l = pad_loop g lmax l := by
  induction l with
  | nil => rfl
  | cons s rest ih =>
    have hs := h s (List.mem_cons_self _ _)
    have hr : ∀ x ∈ rest, f x = g x := fun x hx => h x (List.mem_cons_of_mem _ hx)
    simp only [pad_loop, hs, ih hr]

theorem screenify_congr (f g : String → Nat) (nin : Nat)
    (in_cols out_cols : List String) (max_size : Nat)
    (h : ∀ s ∈ in_cols, f s = g s) :
    screenify f nin in_cols out_cols max_size =
      screenify g nin in_cols out_cols max_size := by
  have ht : ∀ s ∈ in_cols.take nin, f s = g s :=
    fun s hs => h s (List.mem_of_mem_take hs)
  unfold screenify
  simp only [lmax_loop_congr f g _ 0 ht, pad_loop_congr f g _ _ ht]

/-- C29: for the ten strings of the example in the documentation, the
width 80 and an empty `out_cols`, `screenify` produces three rows: row 0
holds the strings 0, 3, 6 and 9, row 1 the strings 1, 4 and 7, and row 2
the strings 2, 5 and 8, each string padded with spaces to the width 17. -/
theorem screenify_example_rows (str_len : String → Nat)
    (h : ∀ s ∈ screenify_example, str_len s = s.length) :
    screenify str_len 10 screenify_example [] 80 =
        some (Except.ok
          ["test1            test_of_string4  test_of_string77 test_of_string10 ",
            "test_of_string2  test5            test_of_string8  ",
            "test_of_string3  test_of_string6  test_of_string9  "]) ∧
      "test1            test_of_string4  test_of_string77 test_of_string10 " =
        pad_to 17 "test1" ++ pad_to 17 "test_of_string4" ++
          pad_to 17 "test_of_string77" ++ pad_to 17 "test_of_string10" ∧
      "test_of_string2  test5            test_of_string8  " =
        pad_to 17 "test_of_string2" ++ pad_to 17 "test5" ++
          pad_to 17 "test_of_string8" ∧
      "test_of_string3  test_of_string6  test_of_string9  " =
        pad_to 17 "test_of_string3" ++ pad_to 17 "test_of_string6" ++
          pad_to 17 "test_of_string9" := by
  refine ⟨?_, by decide, by decide, by decide⟩
  rw [screenify_congr str_len String.length 10 screenify_example [] 80 h]
  rfl

/-- The example of the documentation, with the plain length of a string
as its size. -/
theorem screenify_example_rows_witness :
    (∀ s ∈ screenify_example, String.length s = s.length) ∧
      screenify String.length 10 screenify_example [] 80 =
        some (Except.ok
          ["test1            test_of_string4  test_of_string77 test_of_string10 ",
            "test_of_string2  test5            test_of_string8  ",
            "test_of_string3  test_of_string6  test_of_string9  "]) :=
  ⟨fun _ _ => rfl, (screenify_example_rows String.length (fun _ _ => rfl)).1⟩

theorem lmax_loop_le (f : String → Nat) (l : List String) (n B : Nat)
    (hn : n ≤ B) (h : ∀ s ∈ l, f s ≤ B) : lmax_loop f l n ≤ B := by
  induction l generalizing n with
  | nil => exact hn
  | cons s rest ih =>
    have hs := h s (List.mem_cons_self _ _)
    have hr : ∀ x ∈ rest, f x ≤ B := fun x hx => h x (List.mem_cons_of_mem _ hx)
    unfold lmax_loop
    split
    · exact ih _ hs hr
    · exact ih _ hn hr

theorem lmax_loop_ge (f : String → Nat) (l : List String) (n : Nat) :
    n ≤ lmax_loop f l n ∧ ∀ s ∈ l, f s ≤ lmax_loop f l n := by
  induction l generalizing n with
  | nil => simp [lmax_loop]
  | cons s rest ih =>
    unfold lmax_loop
    split
    · next hlt =>
      have h1 := ih (f s)
      refine ⟨by omega, ?_⟩
      intro x hx
      rcases List.mem_cons.mp hx with hx | hx
      · rw [hx]
        exact h1.1
      · exact h1.2 x hx
    · next hge =>
      have h1 := ih n
      refine ⟨h1.1, ?_⟩
      intro x hx
      rcases List.mem_cons.mp hx with hx | hx
      · rw [hx]
        omega
      · exact h1.2 x hx

theorem pad_spaces_length (n : Nat) (s : String) :
    (pad_spaces n s).length = s.length + n := by
  induction n generalizing s with
  | zero => rfl
  | succ k ih =>
    rw [pad_spaces, ih, String.length_append]
    have h1 : (" " : String).length = 1 := rfl
    omega

theorem pad_loop_length (f : String → Nat) (lmax : Nat) (l : List String) :
    (pad_loop f lmax l).length = l.length := by
  induction l with
  | nil => rfl
  | cons s rest ih => simp [pad_loop, ih]

theorem pad_loop_width (f : String → Nat) (lmax : Nat) (l : List String)
    (h : ∀ s ∈ l, f s = s.length ∧ s.length ≤ lmax) :
    ∀ x ∈ pad_loop f lmax l, x.length = lmax + 1 := by
  induction l with
  | nil => simp [pad_loop]
  | cons s rest ih =>
    have hs := h s (List.mem_cons_self _ _)
    have hr : ∀ x ∈ rest, f x = x.length ∧ x.length ≤ lmax :=
      fun x hx => h x (List.mem_cons_of_mem _ hx)
    intro x hx
    simp only [pad_loop, List.mem_cons] at hx
    rcases hx with hx | hx
    · rw [hx, pad_spaces_length, hs.1]
      omega
    · exact ih hr x hx

/-- The loop over the columns appends to the last string of `out_cols`
only, at most `w` characters in a step. -/
theorem cols_loop_spec (in_spaces : List String) (nin row i w : Nat)
    (hall : ∀ x ∈ in_spaces, x.length = w) (hlen : in_spaces.length = nin)
    (n j : Nat) (done : List String) (cur : String) (hi : done.length = i) :
    ∃ cur2, cols_loop in_spaces nin row i n j (done ++ [cur]) = some (done ++ [cur2]) ∧
      cur2.length ≤ cur.length + n * w := by
  induction n generalizing j cur with
  | zero => exact ⟨cur, rfl, by omega⟩
  | succ k ih =>
    unfold cols_loop
    by_cases hc : i + j * row < nin
    · have hk : i + j * row < in_spaces.length := by omega
      have hx : in_spaces[i + j * row]? = some in_spaces[i + j * row] :=
        List.getElem?_eq_getElem hk
      have hxw : (in_spaces[i + j * row]).length = w :=
        hall _ (List.getElem_mem _)
      have hcur : (done ++ [cur])[i]? = some cur := by
        rw [List.getElem?_append_right (by omega)]
        simp [hi]
      have hset : (done ++ [cur]).set i (cur ++ in_spaces[i + j * row]) =
          done ++ [cur ++ in_spaces[i + j * row]] := by
        rw [List.set_append_right _ _ (by omega)]
        simp [hi]
      obtain ⟨cur2, h1, h2⟩ := ih (j + 1) (cur ++ in_spaces[i + j * row])
      refine ⟨cur2, ?_, ?_⟩
      · simp only [hc, if_true, hx, hcur, Option.bind_eq_bind, Option.some_bind, hset]
        exact h1
      · rw [String.length_append, hxw] at h2
        rw [Nat.succ_mul]
        omega
    · obtain ⟨cur2, h1, h2⟩ := ih (j + 1) cur
      refine ⟨cur2, ?_, ?_⟩
      · simp only [hc, if_false]
        exact h1
      · rw [Nat.succ_mul]
        omega

/-- The loop over the rows keeps the rows that are done and adds rows of
at most `col * w` characters. -/
theorem rows_loop_spec (in_spaces : List String) (nin row col w : Nat)
    (hall : ∀ x ∈ in_spaces, x.length = w) (hlen : in_spaces.length = nin)
    (n i : Nat) (done : List String) (hi : done.length = i)
    (hdone : ∀ r ∈ done, r.length ≤ col * w) :
    ∃ out, rows_loop in_spaces nin row col n i done = some out ∧
      ∀ r ∈ out, r.length ≤ col * w := by
  induction n generalizing i done with
  | zero => exact ⟨done, rfl, hdone⟩
  | succ k ih =>
    unfold rows_loop
    obtain ⟨cur2, h1, h2⟩ :=
      cols_loop_spec in_spaces nin row i w hall hlen col 0 done "" hi
    have hl : ("" : String).length = 0 := rfl
    rw [hl, Nat.zero_add] at h2
    have hnext : ∀ r ∈ done ++ [cur2], r.length ≤ col * w := by
      intro r hr
      rcases List.mem_append.mp hr with hr | hr
      · exact hdone r hr
      · rw [List.mem_singleton] at hr
        rw [hr]
        exact h2
    obtain ⟨out, h3, h4⟩ := ih (i + 1) (done ++ [cur2]) (by simp [hi]) hnext
    exact ⟨out, by simp only [h1, Option.bind_eq_bind, Option.some_bind]; exact h3, h4⟩

/-- C30: for a non-empty list of strings whose size is their plain length
(no terminal sequences), an empty `out_cols` and a width `max_size` that
is at least the length of the longest string plus one, `screenify`
returns rows of at most `max_size` characters. -/
theorem screenify_row_length (str_len : String → Nat) (in_cols : List String)
    (max_size : Nat) (hne : in_cols ≠ [])
    (hlen : ∀ s ∈ in_cols, str_len s = s.length)
    (hmax : ∀ s ∈ in_cols, s.length + 1 ≤ max_size) :
    ∃ out, screenify str_len in_cols.length in_cols [] max_size = some (Except.ok out) ∧
      ∀ r ∈ out, r.length ≤ max_size := by
  have hpos : in_cols.length ≠ 0 := fun h => hne (List.length_eq_zero.mp h)
  obtain ⟨s0, hs0⟩ := List.exists_mem_of_ne_nil in_cols hne
  have hm1 : 1 ≤ max_size := by
    have := hmax s0 hs0
    omega
  have hB : lmax_loop str_len in_cols 0 ≤ max_size - 1 := by
    apply lmax_loop_le
    · omega
    · intro s hs
      have h1 := hmax s hs
      rw [hlen s hs]
      omega
  have hge := (lmax_loop_ge str_len in_cols 0).2
  have hw := pad_loop_width str_len (lmax_loop str_len in_cols 0) in_cols
    (fun s hs => ⟨hlen s hs, by rw [← hlen s hs]; exact hge s hs⟩)
  have hpl := pad_loop_length str_len (lmax_loop str_len in_cols 0) in_cols
  have hcol0 : ¬ max_size / (lmax_loop str_len in_cols 0 + 1) = 0 := by
    intro h0
    rw [Nat.div_eq_zero_iff (by omega)] at h0
    omega
  have hcw : max_size / (lmax_loop str_len in_cols 0 + 1) *
      (lmax_loop str_len in_cols 0 + 1) ≤ max_size := Nat.div_mul_le_self _ _
  unfold screenify
  simp only [hpos, if_false, Nat.lt_irrefl, List.take_length, hcol0]
  obtain ⟨out, h1, h2⟩ := rows_loop_spec
    (pad_loop str_len (lmax_loop str_len in_cols 0) in_cols) in_cols.length
    (if in_cols.length / (max_size / (lmax_loop str_len in_cols 0 + 1)) *
        (max_size / (lmax_loop str_len in_cols 0 + 1)) = in_cols.length
      then in_cols.length / (max_size / (lmax_loop str_len in_cols 0 + 1))
      else in_cols.length / (max_size / (lmax_loop str_len in_cols 0 + 1)) + 1)
    (max_size / (lmax_loop str_len in_cols 0 + 1))
    (lmax_loop str_len in_cols 0 + 1) hw hpl
    (if in_cols.length / (max_size / (lmax_loop str_len in_cols 0 + 1)) *
        (max_size / (lmax_loop str_len in_cols 0 + 1)) = in_cols.length
      then in_cols.length / (max_size / (lmax_loop str_len in_cols 0 + 1))
      else in_cols.length / (max_size / (lmax_loop str_len in_cols 0 + 1)) + 1)
    0 [] rfl (by simp)
  refine ⟨out, ?_, fun r hr => Nat.le_trans (h2 r hr) hcw⟩
  rw [h1]

/-- Three strings of at most three characters and the width 8: the two
rows that `screenify` returns have eight and four characters. -/
theorem screenify_row_length_witness :
    (["a", "bb", "ccc"] : List String) ≠ [] ∧
      (∀ s ∈ (["a", "bb", "ccc"] : List String), s.length + 1 ≤ 8) ∧
      screenify String.length 3 ["a", "bb", "ccc"] [] 8
        = some (Except.ok ["a   ccc ", "bb  "]) ∧
      ∃ out, screenify String.length (["a", "bb", "ccc"] : List String).length
          ["a", "bb", "ccc"] [] 8 = some (Except.ok out) ∧
        ∀ r ∈ out, r.length ≤ 8 :=
  ⟨by decide, by decide, rfl,
    screenify_row_length String.length ["a", "bb", "ccc"] 8 (by decide)
      (fun _ _ => rfl) (by decide)⟩


/-! ## The number sequence -/

/-- C31: with the default radix 2, the first 29 calls of `gen` on a fresh
object, and on an object with the radix 2 after `reset`, return the
documented sequence, as exact rationals. -/
theorem gen_test_number_sequence :
    gen_calls 29 gen_test_number.create =
        [1, 0, -1, 1/2, -1/2, 3/4, -3/4, 3/2, -3/2, 2, -2, 1/4, -1/4, 7/8, -7/8,
          5/4, -5/4, 4, -4, 1/8, -1/8, 15/16, -15/16, 9/8, -9/8, 8, -8, 1/16, -1/16] ∧
      ∀ g : gen_test_number, g.radix = 2 →
        gen_calls 29 g.reset =
          [1, 0, -1, 1/2, -1/2, 3/4, -3/4, 3/2, -3/2, 2, -2, 1/4, -1/4, 7/8, -7/8,
            5/4, -5/4, 4, -4, 1/8, -1/8, 15/16, -15/16, 9/8, -9/8, 8, -8, 1/16,
            -1/16] := by
  have key : gen_calls 29 ⟨0, 2⟩ =
      [1, 0, -1, 1/2, -1/2, 3/4, -3/4, 3/2, -3/2, 2, -2, 1/4, -1/4, 7/8, -7/8,
        5/4, -5/4, 4, -4, 1/8, -1/8, 15/16, -15/16, 9/8, -9/8, 8, -8, 1/16,
        -1/16] := by
    simp only [gen_calls, gen_test_number.gen]
    norm_num [Int.tdiv, Int.tmod]
  refine ⟨key, ?_⟩
  intro g hr
  obtain ⟨n, r⟩ := g
  simp only at hr
  subst hr
  exact key

/-! ## Exact matches, single matches and indexes -/

theorem exact_match_iff (q : String) (e : const_entry) :
    exact_match q e = true ↔
      ∃ a ∈ e.names, equal_ignoring_case q (remove_ws_punct a) := by
  unfold exact_match
  rw [List.any_eq_true]
  simp only [iequals_eq, decide_eq_true_eq]

theorem any_exact_match_iff (list : List const_entry) (q : String) :
    list.any (exact_match q) = true ↔
      ∃ e ∈ list, ∃ a ∈ e.names, equal_ignoring_case q (remove_ws_punct a) := by
  rw [List.any_eq_true]
  simp only [exact_match_iff]

theorem find_result_not_exact (cu : convert_units) (list : List const_entry)
    (name unit : String)
    (h : list.any (exact_match (remove_ws_punct name)) = false) :
    (find_result cu list name unit).1.is_exact = false := by
  unfold find_result
  simp only [h]
  split
  · rfl
  · simp only [one_unit_ok, one_unit_mismatch]
    split_ifs <;> first | rfl | contradiction
  · simp only [one_unit_ok, multi_no_unit, multi_unit_ok, multi_unit_mismatch]
    split_ifs <;> first | rfl | contradiction

/-- C32: the status that `find_nothrow` returns is qualified EXACT if and
only if some entry has a name whose normalized form equals the normalized
query without regard to case; in that case every returned entry is such
an entry of the catalog, or its converted copy, so an entry that matches
only as a pattern is not returned. -/
theorem find_nothrow_exact_iff (cu : convert_units) (list : List const_entry)
    (name unit : String) :
    ∃ st found, find_nothrow cu list name unit = some (st, found) ∧
      (st.is_exact = true ↔
        ∃ e ∈ list, ∃ a ∈ e.names,
          equal_ignoring_case (remove_ws_punct name) (remove_ws_punct a)) ∧
      ((∃ e ∈ list, ∃ a ∈ e.names,
          equal_ignoring_case (remove_ws_punct name) (remove_ws_punct a)) →
        ∀ r ∈ found, ∃ e ∈ list,
          (∃ a ∈ e.names,
            equal_ignoring_case (remove_ws_punct name) (remove_ws_punct a)) ∧
          (r = e ∨ r = converted cu unit e)) := by
  refine ⟨(find_result cu list name unit).1, (find_result cu list name unit).2,
    find_nothrow_eq cu list name unit, ?_, ?_⟩
  · rw [← any_exact_match_iff]
    constructor
    · intro h
      by_contra hno
      have hf : list.any (exact_match (remove_ws_punct name)) = false := by
        simpa using hno
      rw [find_result_not_exact cu list name unit hf] at h
      cases h
    · intro h
      obtain ⟨E, hE, hex⟩ := List.any_eq_true.mp h
      exact (find_result_exact cu list name unit E hE hex).1
  · rintro ⟨E, hE, hex⟩ r hr
    have hexE := (exact_match_iff _ E).mpr hex
    obtain ⟨e, he, hm, hre⟩ :=
      (find_result_exact cu list name unit E hE hexE).2.2.1 r hr
    exact ⟨e, he, (exact_match_iff _ e).mp hm, hre⟩

theorem positions_increasing (p : const_entry → Bool) (l : List const_entry)
    (k : Nat) :
    (positions p l k).Pairwise (fun a b => a < b) ∧ ∀ i ∈ positions p l k, k ≤ i := by
  induction l generalizing k with
  | nil => simp [positions]
  | cons e es ih =>
    obtain ⟨h1, h2⟩ := ih (k + 1)
    unfold positions
    split
    · refine ⟨List.pairwise_cons.mpr ⟨fun i hi => ?_, h1⟩, ?_⟩
      · have := h2 i hi
        omega
      · intro i hi
        rcases List.mem_cons.mp hi with hi | hi
        · omega
        · have := h2 i hi
          omega
    · exact ⟨h1, fun i hi => by have := h2 i hi; omega⟩

theorem name_search_increasing (list : List const_entry) (q : String) :
    (name_search list q).1.Pairwise (fun a b => a < b) := by
  rw [name_search_eq]
  split
  · exact (positions_increasing _ list 0).1
  · exact (positions_increasing _ list 0).1

theorem at_positions_lt (list : List const_entry) (idxs : List Nat)
    (ents : List const_entry) (h : at_positions list idxs ents) :
    ∀ i ∈ idxs, i < list.length := by
  induction h with
  | nil => simp
  | @cons i e is es hd _ ih =>
    intro j hj
    rcases List.mem_cons.mp hj with hj | hj
    · rw [hj]
      by_contra hge
      rw [List.getElem?_eq_none (by omega)] at hd
      cases hd
    · exact ih j hj

theorem find_result_no_unit_length (cu : convert_units) (list : List const_entry)
    (name : String) :
    (find_result cu list name "").2.length =
      (name_matches list (remove_ws_punct name)).length := by
  unfold find_result
  simp only []
  split
  · next h => simp [h]
  · next e h =>
    rw [h]
    split_ifs <;> simp
  · next e1 e2 es h => simp [h]

/-- C34: the indexes that the two passes of `find_nothrow` collect are
strictly increasing, so an entry contributes at most one index, and there
are as many indexes as entries that match by name; for the empty unit
`find_nothrow` returns that many entries.  On the built-in catalog the
entry that lists the name "mW" twice contributes the one index 52 to the
search for "mW". -/
theorem name_search_one_index_per_entry :
    (∀ (list : List const_entry) (name : String),
      (name_search list (remove_ws_punct name)).1.Pairwise (fun a b => a < b) ∧
      (name_search list (remove_ws_punct name)).1.length =
        (name_matches list (remove_ws_punct name)).length ∧
      ∀ cu : convert_units, ∃ st found,
        find_nothrow cu list name "" = some (st, found) ∧
        found.length = (name_matches list (remove_ws_punct name)).length) ∧
    (∀ vals : Nat → double,
      (name_search (builtin_list vals) (remove_ws_punct "mW")).1 = [52]) := by
  refine ⟨?_, fun vals => rfl⟩
  intro list name
  obtain ⟨idx, mt, hst, hpos, _⟩ := name_search_spec list (remove_ws_punct name)
  refine ⟨name_search_increasing list _, ?_, ?_⟩
  · rw [hst]
    exact List.Forall₂.length_eq hpos
  · intro cu
    exact ⟨(find_result cu list name "").1, (find_result cu list name "").2,
      find_nothrow_eq cu list name "", find_result_no_unit_length cu list name⟩

theorem find_result_one_any_length (cu : convert_units) (list : List const_entry)
    (name unit : String)
    (h : (find_result cu list name unit).1 = one_exact_match_unit_match ∨
      (find_result cu list name unit).1 = one_pattern_match_unit_match ∨
      (find_result cu list name unit).1 = one_exact_match_unit_diff ∨
      (find_result cu list name unit).1 = one_pattern_match_unit_diff) :
    ∃ e, (find_result cu list name unit).2 = [e] := by
  rcases h with h | h | h | h
  · exact find_result_one_length cu list name unit (Or.inl h)
  · exact find_result_one_length cu list name unit (Or.inr h)
  all_goals
    unfold find_result at h ⊢
    revert h
    cases list.any (exact_match (remove_ws_punct name)) <;>
    · simp only []
      split
      · simp
      · simp only [one_unit_ok, one_unit_mismatch]
        split_ifs <;> simp
      · simp only [one_unit_ok, multi_no_unit, multi_unit_ok, multi_unit_mismatch]
        split_ifs <;> simp

/-- C35: whenever `find_nothrow` returns one of the four statuses for one
match, the returned list has exactly one entry; the access to the first
match in `find_unique` is therefore inside the list, and `find_unique`
gives a result for every numbering of the status codes. -/
theorem find_nothrow_one_status_single (cu : convert_units)
    (list : List const_entry) (name unit : String) :
    ∃ st found, find_nothrow cu list name unit = some (st, found) ∧
      ((st = one_exact_match_unit_match ∨ st = one_pattern_match_unit_match ∨
          st = one_exact_match_unit_diff ∨ st = one_pattern_match_unit_diff) →
        ∃ e, found = [e]) ∧
      ∀ code : status → Int, ∃ r, find_unique code cu list name unit = some r := by
  have hfind := find_nothrow_eq cu list name unit
  have hone := find_result_one_any_length cu list name unit
  refine ⟨(find_result cu list name unit).1, (find_result cu list name unit).2,
    hfind, hone, ?_⟩
  intro code
  unfold find_unique
  rw [hfind]
  simp only [Option.bind_eq_bind, Option.some_bind]
  split
  · exact ⟨_, rfl⟩
  · next hok =>
    have h1 : (find_result cu list name unit).1 = one_exact_match_unit_match ∨
        (find_result cu list name unit).1 = one_pattern_match_unit_match := by
      by_contra hno
      apply hok
      exact ⟨fun h => hno (Or.inl h), fun h => hno (Or.inr h)⟩
    obtain ⟨e, he⟩ := find_result_one_length cu list name unit h1
    rw [he]
    exact ⟨_, rfl⟩

/-- C38: for every catalog, query, unit and converter `find_nothrow` runs
to its end without an access outside of a vector, every index in
`indexes` is smaller than the size of the catalog, and so is every index
that the unit loop puts in `indexes2`. -/
theorem find_nothrow_in_bounds (cu : convert_units) (list : List const_entry)
    (name unit : String) :
    (∃ r, find_nothrow cu list name unit = some r) ∧
      (∀ i ∈ (name_search list (remove_ws_punct name)).1, i < list.length) ∧
      ∃ indexes2,
        unit_loop list unit (name_search list (remove_ws_punct name)).1 [] =
          some indexes2 ∧
        ∀ i ∈ indexes2, i < list.length := by
  obtain ⟨idx, mt, hst, hpos, _⟩ := name_search_spec list (remove_ws_punct name)
  refine ⟨⟨_, find_nothrow_eq cu list name unit⟩, ?_, ?_⟩
  · rw [hst]
    exact at_positions_lt list idx _ hpos
  · rw [hst]
    obtain ⟨idxs2, h2, hp2⟩ := unit_loop_eq list unit idx _ [] hpos
    exact ⟨idxs2, by simpa using h2, at_positions_lt list idxs2 _ hp2⟩


/-! ## The result as a subsequence of the catalog -/

theorem same_but_value_unit_refl (unit : String) (e : const_entry) :
    same_but_value_unit unit e e :=
  ⟨rfl, rfl, rfl, rfl, rfl, rfl, rfl, rfl, rfl, rfl, Or.inl rfl⟩

theorem same_but_value_unit_converted (cu : convert_units) (unit : String)
    (e : const_entry) : same_but_value_unit unit (converted cu unit e) e :=
  ⟨rfl, rfl, rfl, rfl, rfl, rfl, rfl, rfl, rfl, rfl, Or.inr rfl⟩

theorem same_but_value_unit_all (unit : String) (l : List const_entry) :
    List.Forall₂ (same_but_value_unit unit) l l :=
  List.forall₂_same.mpr fun e _ => same_but_value_unit_refl unit e

theorem name_matches_sublist (list : List const_entry) (q : String) :
    (name_matches list q).Sublist list := by
  unfold name_matches
  split
  · exact List.filter_sublist _
  · exact List.filter_sublist _

theorem drop_repeats_sublist (prev : Option (List String)) (l : List const_entry) :
    (drop_repeats prev l).Sublist l := by
  induction l generalizing prev with
  | nil => simp [drop_repeats]
  | cons e es ih =>
    unfold drop_repeats
    split
    · exact (ih prev).cons e
    · exact (ih (some e.names)).cons₂ e

theorem convert_keep_sublist (cu : convert_units) (unit : String)
    (prev : Option (List String)) (l : List const_entry) :
    ∃ sub, sub.Sublist l ∧
      List.Forall₂ (same_but_value_unit unit) (convert_keep cu unit prev l) sub := by
  induction l generalizing prev with
  | nil => exact ⟨[], List.Sublist.slnil, by simp [convert_keep]⟩
  | cons e es ih =>
    unfold convert_keep
    split
    · obtain ⟨sub, hs, hf⟩ := ih (some e.names)
      exact ⟨e :: sub, hs.cons₂ e,
        List.Forall₂.cons (same_but_value_unit_converted cu unit e) hf⟩
    · obtain ⟨sub, hs, hf⟩ := ih prev
      exact ⟨sub, hs.cons e, hf⟩

theorem find_result_sublist (cu : convert_units) (list : List const_entry)
    (name unit : String) :
    ∃ sub, sub.Sublist list ∧
      List.Forall₂ (same_but_value_unit unit) (find_result cu list name unit).2 sub := by
  have hms := name_matches_sublist list (remove_ws_punct name)
  unfold find_result
  simp only []
  split
  · exact ⟨[], List.nil_sublist _, List.Forall₂.nil⟩
  · next e h =>
    rw [h] at hms
    split_ifs
    · exact ⟨[e], hms, same_but_value_unit_all unit [e]⟩
    · exact ⟨[e], hms,
        List.Forall₂.cons (same_but_value_unit_converted cu unit e) List.Forall₂.nil⟩
    · exact ⟨[e], hms, same_but_value_unit_all unit [e]⟩
  · next e1 e2 es h =>
    rw [h] at hms
    have hck := convert_keep_sublist cu unit none (e1 :: e2 :: es)
    split_ifs
    all_goals first
      | exact ⟨_, hms, same_but_value_unit_all unit _⟩
      | exact ⟨_, (drop_repeats_sublist none _).trans hms,
          same_but_value_unit_all unit _⟩
      | exact ⟨_, ((drop_repeats_sublist none _).trans (List.filter_sublist _)).trans hms,
          same_but_value_unit_all unit _⟩
      | (obtain ⟨sub, hs, hf⟩ := hck
         exact ⟨sub, hs.trans hms, hf⟩)

theorem sublist_indexes {α β : Type} (R : β → α → Prop) (sub l : List α)
    (h : sub.Sublist l) :
    ∀ found : List β, List.Forall₂ R found sub →
      ∃ idxs : List Nat, idxs.Pairwise (fun a b => a < b) ∧
        List.Forall₂ (fun r i => ∃ e, l[i]? = some e ∧ R r e) found idxs := by
  induction h with
  | slnil =>
    intro found hf
    cases hf
    exact ⟨[], List.Pairwise.nil, List.Forall₂.nil⟩
  | @cons l1 l2 a _ ih =>
    intro found hf
    obtain ⟨idxs, hp, hi⟩ := ih found hf
    refine ⟨idxs.map Nat.succ, ?_, ?_⟩
    · exact (List.pairwise_map).mpr (hp.imp fun h => Nat.succ_lt_succ h)
    · rw [List.forall₂_map_right_iff]
      exact hi.imp fun r i ⟨e, he, hr⟩ => ⟨e, by simpa using he, hr⟩
  | @cons₂ l1 l2 a _ ih =>
    intro found hf
    cases hf with
    | cons hr hrest =>
      obtain ⟨idxs, hp, hi⟩ := ih _ hrest
      refine ⟨0 :: idxs.map Nat.succ, ?_, ?_⟩
      · refine List.pairwise_cons.mpr ⟨?_, ?_⟩
        · intro i hi2
          obtain ⟨j, _, rfl⟩ := List.mem_map.mp hi2
          exact Nat.succ_pos j
        · exact (List.pairwise_map).mpr (hp.imp fun h => Nat.succ_lt_succ h)
      · refine List.Forall₂.cons ⟨a, List.getElem?_cons_zero, hr⟩ ?_
        rw [List.forall₂_map_right_iff]
        exact hi.imp fun r i ⟨e, he, hr⟩ => ⟨e, by simpa using he, hr⟩

/-- C37: the list that `find_nothrow` returns is taken from the catalog at
strictly increasing indexes, and each returned entry has the names, the
unit-system flag, the source and the exponents of the catalog entry at its
index; its unit is the stored unit or the requested unit. -/
theorem find_nothrow_frame (cu : convert_units) (list : List const_entry)
    (name unit : String) :
    ∃ st found, ∃ idxs : List Nat, find_nothrow cu list name unit = some (st, found) ∧
      idxs.Pairwise (fun a b => a < b) ∧
      List.Forall₂
        (fun r i => ∃ e, list[i]? = some e ∧ same_but_value_unit unit r e)
        found idxs := by
  obtain ⟨sub, hs, hf⟩ := find_result_sublist cu list name unit
  obtain ⟨idxs, hp, hi⟩ := sublist_indexes _ sub list hs _ hf
  exact ⟨(find_result cu list name unit).1, (find_result cu list name unit).2, idxs,
    find_nothrow_eq cu list name unit, hp, hi⟩

/-! ## Contiguous groups and repeated constants -/

theorem contiguous_tail {α : Type} (a : α) (L : List α)
    (h : ∀ k < (a :: L).length, ∀ j < k, ∀ i < j,
      (a :: L)[i]? = (a :: L)[k]? → (a :: L)[j]? = (a :: L)[i]?) :
    ∀ k < L.length, ∀ j < k, ∀ i < j, L[i]? = L[k]? → L[j]? = L[i]? := by
  intro k hk j hj i hi heq
  have := h (k + 1) (by simpa using hk) (j + 1) (by omega) (i + 1) (by omega)
    (by simpa using heq)
  simpa using this

theorem contiguous_head {α : Type} (a : α) (L : List α)
    (h : ∀ k < (a :: L).length, ∀ j < k, ∀ i < j,
      (a :: L)[i]? = (a :: L)[k]? → (a :: L)[j]? = (a :: L)[i]?)
    (hmem : a ∈ L) : ∃ L1, L = a :: L1 := by
  obtain ⟨n, hn⟩ := List.mem_iff_getElem?.mp hmem
  have hlt : n < L.length := by
    by_contra hge
    rw [List.getElem?_eq_none (by omega)] at hn
    cases hn
  have h0 : L[0]? = some a := by
    cases n with
    | zero => exact hn
    | succ m =>
      have := h (m + 1 + 1) (by simpa using hlt) 1 (by omega) 0 (by omega)
        (by simpa using hn.symm)
      simpa using this
  cases L with
  | nil => cases hmem
  | cons b L1 =>
    simp only [List.getElem?_cons_zero, Option.some.injEq] at h0
    exact ⟨L1, by rw [h0]⟩

theorem not_mem_of_contiguous {α : Type} (a : α) (L : List α) :
    (∀ k < (a :: L).length, ∀ j < k, ∀ i < j,
      (a :: L)[i]? = (a :: L)[k]? → (a :: L)[j]? = (a :: L)[i]?) →
    ∀ S : List α, S.Sublist L → (a :: S).Chain' (fun x y => x ≠ y) → a ∉ S := by
  induction L with
  | nil =>
    intro _ S hS _
    rw [List.sublist_nil.mp hS]
    simp
  | cons b L1 ih =>
    intro h S hS hc hmem
    obtain ⟨L2, hL2⟩ := contiguous_head a (b :: L1) h (hS.subset hmem)
    have hb : b = a := (List.cons.inj hL2).1
    subst hb
    have ht := contiguous_tail b (b :: L1) h
    cases hS with
    | cons _ hS1 => exact ih ht S hS1 hc hmem
    | cons₂ _ hS1 =>
      have := (List.chain'_cons.mp hc).1
      exact this rfl

theorem nodup_of_contiguous {α : Type} (L : List α) :
    (∀ k < L.length, ∀ j < k, ∀ i < j, L[i]? = L[k]? → L[j]? = L[i]?) →
    ∀ S : List α, S.Sublist L → S.Chain' (fun x y => x ≠ y) → S.Nodup := by
  induction L with
  | nil =>
    intro _ S hS _
    rw [List.sublist_nil.mp hS]
    exact List.nodup_nil
  | cons a L1 ih =>
    intro h S hS hc
    have ht := contiguous_tail a L1 h
    cases hS with
    | cons _ hS1 => exact ih ht S hS1 hc
    | cons₂ _ hS1 =>
      exact List.nodup_cons.mpr
        ⟨not_mem_of_contiguous a L1 h _ hS1 hc, ih ht _ hS1 hc.tail⟩

theorem forall2_names_eq (unit : String) (found sub : List const_entry)
    (h : List.Forall₂ (same_but_value_unit unit) found sub) :
    found.map const_entry.names = sub.map const_entry.names := by
  induction h with
  | nil => rfl
  | cons hr _ ih => simp [hr.1, ih]

/-- C36: when the entries with identical names sequences are contiguous
in the catalog and the requested unit is not empty, no two entries of the
list that `find_nothrow` returns, consecutive or not, have identical
names sequences. -/
theorem find_nothrow_no_repeats (cu : convert_units) (list : List const_entry)
    (name unit : String) (hg : names_contiguous list) (hne : unit ≠ "") :
    ∃ st found, find_nothrow cu list name unit = some (st, found) ∧
      found.Pairwise (fun a b => a.names ≠ b.names) := by
  refine ⟨(find_result cu list name unit).1, (find_result cu list name unit).2,
    find_nothrow_eq cu list name unit, ?_⟩
  obtain ⟨sub, hs, hf⟩ := find_result_sublist cu list name unit
  have hchain := find_result_no_adjacent cu list name unit hne
  have hL : ∀ k < (list.map const_entry.names).length, ∀ j < k, ∀ i < j,
      (list.map const_entry.names)[i]? = (list.map const_entry.names)[k]? →
      (list.map const_entry.names)[j]? = (list.map const_entry.names)[i]? := by
    intro k hk j hj i hi heq
    simp only [List.getElem?_map] at heq ⊢
    exact hg k (by simpa using hk) j hj i hi heq
  have hsub : ((find_result cu list name unit).2.map const_entry.names).Sublist
      (list.map const_entry.names) := by
    rw [forall2_names_eq unit _ _ hf]
    exact hs.map _
  have hc : ((find_result cu list name unit).2.map const_entry.names).Chain'
      (fun x y => x ≠ y) := (List.chain'_map _).mpr hchain
  have hnd := nodup_of_contiguous _ hL _ hsub hc
  exact (List.pairwise_map).mp hnd

theorem find_nothrow_no_repeats_witness :
    names_contiguous [light_mks, light_cgs, bohr_radius] ∧ "km/s" ≠ "" ∧
      ∃ st found,
        find_nothrow some_conversions [light_mks, light_cgs, bohr_radius] "c" "km/s"
          = some (st, found) ∧
        found.Pairwise (fun a b => a.names ≠ b.names) :=
  ⟨by decide, by decide,
    find_nothrow_no_repeats some_conversions [light_mks, light_cgs, bohr_radius]
      "c" "km/s" (by decide) (by decide)⟩

/-! ## Adding and then removing an entry -/

/-- C40: when the names of `E` are pairwise distinct and none of them is
a name of an entry of the catalog `L`, `add_constant` of `E` succeeds and
gives `L` followed by `E`, and `del_constant` of the first name of `E` on
that catalog succeeds and gives `L` back. -/
theorem add_del_restores (L : List const_entry) (E : const_entry) (n0 : String)
    (hd : E.names.Nodup)
    (hnew : ∀ a ∈ E.names, ∀ e ∈ L, a ∉ e.names)
    (hn0 : E.names.head? = some n0) :
    add_constant L E = (Except.ok (), L ++ [E]) ∧
      del_constant (L ++ [E]) n0 = some (Except.ok (), L) := by
  have hmem : n0 ∈ E.names := List.mem_of_mem_head? hn0
  constructor
  · rcases add_constant_eq L E with ⟨_, _, heq⟩ | ⟨hbad, _⟩
    · exact heq
    · exfalso
      rcases hbad with h | ⟨e, he, a, ha, haE⟩
      · rw [h] at hmem
        cases hmem
      · exact hnew a haE e he ha
  · have hnone : ∀ e ∈ L, n0 ∉ e.names := fun e he => hnew n0 hmem e he
    have hcount : E.names.count n0 = 1 := List.count_eq_one_of_mem hd hmem
    have hscan : del_scan n0 (L ++ [E]) 0 (0, none) = (1, some L.length) := by
      rw [del_scan_append, del_scan_no_alias n0 L 0 _ hnone]
      simp [del_scan, del_names_eq, hcount]
    unfold del_constant
    rw [hscan]
    simp only [List.length_append, List.length_singleton, Nat.lt_add_one, if_true]
    rw [List.eraseIdx_append_of_length_le (Nat.le_refl _)]
    simp

theorem add_del_restores_witness :
    bohr_radius.names.Nodup ∧
      (∀ a ∈ bohr_radius.names, ∀ e ∈ [light_mks, light_cgs], a ∉ e.names) ∧
      bohr_radius.names.head? = some "Bohr radius" ∧
      add_constant [light_mks, light_cgs] bohr_radius =
        (Except.ok (), [light_mks, light_cgs] ++ [bohr_radius]) ∧
      del_constant ([light_mks, light_cgs] ++ [bohr_radius]) "Bohr radius" =
        some (Except.ok (), [light_mks, light_cgs]) :=
  ⟨by decide, by decide, by decide,
    add_del_restores [light_mks, light_cgs] bohr_radius "Bohr radius"
      (by decide) (by decide) (by decide)⟩


/-! ## The pattern of the second pass -/

theorem fnmatch_loop_star (s : List Char) :
    ∀ fuel, s.length + 2 ≤ fuel → fnmatch_loop fuel ['*'] s = true := by
  induction s with
  | nil =>
    intro fuel h
    obtain ⟨f, rfl⟩ : ∃ f, fuel = f + 1 := ⟨fuel - 1, by simp at h; omega⟩
    obtain ⟨g, rfl⟩ : ∃ g, f = g + 1 := ⟨f - 1, by simp at h; omega⟩
    simp [fnmatch_loop]
  | cons d s1 ih =>
    intro fuel h
    obtain ⟨f, rfl⟩ : ∃ f, fuel = f + 1 := ⟨fuel - 1, by simp at h; omega⟩
    have h1 := ih f (by simp at h; omega)
    simp [fnmatch_loop, h1]

theorem fnmatch_loop_star_star (s : List Char) (fuel : Nat)
    (h : s.length + 3 ≤ fuel) : fnmatch_loop fuel ['*', '*'] s = true := by
  obtain ⟨f, rfl⟩ : ∃ f, fuel = f + 1 := ⟨fuel - 1, by omega⟩
  have h1 := fnmatch_loop_star s f (by omega)
  simp [fnmatch_loop, h1]

theorem fnmatch_loop_literal_star (p : List Char)
    (hp : ∀ c ∈ p, c ≠ '*' ∧ c ≠ '?' ∧ c ≠ '[' ∧ c ≠ '\\') :
    ∀ (s : List Char) (fuel : Nat), p.length + s.length + 2 ≤ fuel →
      (fnmatch_loop fuel (p ++ ['*']) s = true ↔ p <+: s) := by
  induction p with
  | nil =>
    intro s fuel h
    simp only [List.nil_append, List.nil_prefix, iff_true]
    exact fnmatch_loop_star s fuel (by simpa using h)
  | cons c p1 ih =>
    intro s fuel h
    obtain ⟨f, rfl⟩ : ∃ f, fuel = f + 1 := ⟨fuel - 1, by omega⟩
    obtain ⟨h1, h2, h3, h4⟩ := hp c (List.mem_cons_self _ _)
    have hp1 : ∀ c ∈ p1, c ≠ '*' ∧ c ≠ '?' ∧ c ≠ '[' ∧ c ≠ '\\' :=
      fun x hx => hp x (List.mem_cons_of_mem _ hx)
    cases s with
    | nil => simp [fnmatch_loop, h1]
    | cons d s1 =>
      have hrec := ih hp1 s1 f (by simp only [List.length_cons] at h; omega)
      simp only [List.cons_append, fnmatch_loop, h1, h2, h3, h4, if_false,
        Bool.and_eq_true, beq_iff_eq, List.cons_prefix_cons]
      exact and_congr_right fun _ => hrec

theorem fnmatch_loop_star_literal_star (p : List Char)
    (hp : ∀ c ∈ p, c ≠ '*' ∧ c ≠ '?' ∧ c ≠ '[' ∧ c ≠ '\\') :
    ∀ (s : List Char) (fuel : Nat), p.length + s.length + 3 ≤ fuel →
      (fnmatch_loop fuel ('*' :: (p ++ ['*'])) s = true ↔ p <:+: s) := by
  intro s
  induction s with
  | nil =>
    intro fuel h
    obtain ⟨f, rfl⟩ : ∃ f, fuel = f + 1 := ⟨fuel - 1, by omega⟩
    have hA := fnmatch_loop_literal_star p hp [] f (by simp at h ⊢; omega)
    simp only [fnmatch_loop, if_true, Bool.or_false, hA, List.prefix_nil, List.infix_nil]
  | cons d s1 ih =>
    intro fuel h
    obtain ⟨f, rfl⟩ : ∃ f, fuel = f + 1 := ⟨fuel - 1, by omega⟩
    have hA := fnmatch_loop_literal_star p hp (d :: s1) f
      (by simp only [List.length_cons] at h ⊢; omega)
    have hB := ih f (by simp only [List.length_cons] at h; omega)
    simp only [fnmatch_loop, if_true, Bool.or_eq_true, hA, hB, List.infix_cons_iff]

theorem c_str_eq (s : String) (h : no_nul s) : c_str s = s.data := by
  unfold c_str
  rw [List.takeWhile_eq_self_iff]
  intro x hx
  simp only [bne_iff_ne, ne_eq]
  intro hx0
  exact h (hx0 ▸ hx)

theorem remove_ws_punct_literal (s : String) :
    ∀ c ∈ (remove_ws_punct s).data,
      c ≠ '*' ∧ c ≠ '?' ∧ c ≠ '[' ∧ c ≠ ']' ∧ c ≠ '\\' := by
  intro c hc
  unfold remove_ws_punct at hc
  have hk := (List.mem_filter.mp hc).2
  refine ⟨?_, ?_, ?_, ?_, ?_⟩ <;>
  · intro h
    subst h
    revert hk
    decide

theorem fnmatch_wrapped (q a : String) (hq : no_nul q) (ha : no_nul a)
    (hlit : ∀ c ∈ q.data, c ≠ '*' ∧ c ≠ '?' ∧ c ≠ '[' ∧ c ≠ '\\') :
    (fnmatch ("*" ++ q ++ "*") a == 0) = decide (is_substring q a) := by
  have hdata : ("*" ++ q ++ "*").data = '*' :: (q.data ++ ['*']) := by
    simp [String.data_append]
  have hpn : no_nul ("*" ++ q ++ "*") := by
    unfold no_nul at hq ⊢
    rw [hdata]
    simp only [List.mem_cons, List.mem_append, List.mem_singleton, not_or]
    exact ⟨by decide, hq, by decide⟩
  have hloop := fnmatch_loop_star_literal_star q.data hlit a.data
    (('*' :: (q.data ++ ['*'])).length + a.data.length + 1) (by simp; omega)
  unfold fnmatch
  rw [c_str_eq _ hpn, c_str_eq _ ha, hdata]
  unfold is_substring
  by_cases hin : q.data <:+: a.data
  · rw [hloop.mpr hin]
    simp [hin]
  · have hf : fnmatch_loop (('*' :: (q.data ++ ['*'])).length + a.data.length + 1)
        ('*' :: (q.data ++ ['*'])) a.data = false := by
      rw [← Bool.not_eq_true]
      exact fun h => hin (hloop.mp h)
    rw [hf]
    simp [hin]

theorem pattern_match_iff (q : String) (e : const_entry) (hq : no_nul q)
    (hlit : ∀ c ∈ q.data, c ≠ '*' ∧ c ≠ '?' ∧ c ≠ '[' ∧ c ≠ '\\')
    (ha : ∀ a ∈ e.names, no_nul (remove_ws_punct a)) :
    pattern_match q e = true ↔ substring_match q e := by
  unfold pattern_match substring_match
  rw [List.any_eq_true]
  constructor
  · rintro ⟨a, hmem, h⟩
    rw [fnmatch_wrapped q _ hq (ha a hmem) hlit] at h
    exact ⟨a, hmem, of_decide_eq_true h⟩
  · rintro ⟨a, hmem, h⟩
    refine ⟨a, hmem, ?_⟩
    rw [fnmatch_wrapped q _ hq (ha a hmem) hlit]
    exact decide_eq_true h

theorem mem_positions (p : const_entry → Bool) (l : List const_entry) :
    ∀ k i : Nat, i ∈ positions p l k ↔
      k ≤ i ∧ ∃ e, l[i - k]? = some e ∧ p e = true := by
  induction l with
  | nil => simp [positions]
  | cons e es ih =>
    intro k i
    have hpos : positions p (e :: es) k =
        if p e = true then k :: positions p es (k + 1) else positions p es (k + 1) := rfl
    by_cases hik : i = k
    · subst hik
      have hno : i ∉ positions p es (i + 1) := by
        rw [ih]
        omega
      rw [hpos]
      by_cases hp : p e = true
      · simp [hp]
      · simp [hp, hno]
    · have hrec := ih (k + 1) i
      have hstep : i ∈ positions p (e :: es) k ↔ i ∈ positions p es (k + 1) := by
        rw [hpos]
        split
        · simp [hik]
        · rfl
      rw [hstep, hrec]
      constructor
      · rintro ⟨hle, x, hx, hpx⟩
        refine ⟨by omega, x, ?_, hpx⟩
        have : i - k = (i - (k + 1)) + 1 := by omega
        rw [this, List.getElem?_cons_succ]
        exact hx
      · rintro ⟨hle, x, hx, hpx⟩
        refine ⟨by omega, x, ?_, hpx⟩
        have : i - k = (i - (k + 1)) + 1 := by omega
        rw [this, List.getElem?_cons_succ] at hx
        exact hx

/-- C33, as stated, fails: the normalized query keeps a NUL character and
`fnmatch` reads its pattern up to that character only.  The query `a`,
`b`, NUL, `z`, `z` gives the pattern `*ab`, so pass 2 selects the entry
named "xab", which does not contain the normalized query. -/
theorem pattern_pass_nul_query :
    remove_ws_punct nul_query = nul_query ∧
      (pattern_pass ("*" ++ remove_ws_punct nul_query ++ "*") [xab_entry] 0 ([], 0)).1
        = [0] ∧
      (name_search [xab_entry] (remove_ws_punct nul_query)).1 = [0] ∧
      ¬ substring_match (remove_ws_punct nul_query) xab_entry := by
  decide

/-- C33, amended: when neither the normalized query nor the normalized
form of a name of the catalog has a NUL character, pass 2 selects the
index of an entry if and only if the normalized form of one of the names
of the entry contains the normalized query as a contiguous substring;
pass 2 is the whole name search when pass 1 finds nothing; and no
character of a normalized query is one of the wildcard characters. -/
theorem pattern_pass_substring (list : List const_entry) (name : String)
    (hq : no_nul (remove_ws_punct name))
    (ha : ∀ e ∈ list, ∀ a ∈ e.names, no_nul (remove_ws_punct a)) :
    (∀ i, i ∈ (pattern_pass ("*" ++ remove_ws_punct name ++ "*") list 0 ([], 0)).1 ↔
        ∃ e, list[i]? = some e ∧ substring_match (remove_ws_punct name) e) ∧
      (list.any (exact_match (remove_ws_punct name)) = false →
        (name_search list (remove_ws_punct name)).1 =
          (pattern_pass ("*" ++ remove_ws_punct name ++ "*") list 0 ([], 0)).1) ∧
      ∀ s : String, ∀ c ∈ (remove_ws_punct s).data,
        c ≠ '*' ∧ c ≠ '?' ∧ c ≠ '[' ∧ c ≠ ']' ∧ c ≠ '\\' := by
  have hlit : ∀ c ∈ (remove_ws_punct name).data,
      c ≠ '*' ∧ c ≠ '?' ∧ c ≠ '[' ∧ c ≠ '\\' := fun c hc =>
    have h := remove_ws_punct_literal name c hc
    ⟨h.1, h.2.1, h.2.2.1, h.2.2.2.2⟩
  refine ⟨?_, ?_, remove_ws_punct_literal⟩
  · intro i
    rw [pattern_pass_eq]
    simp only [List.nil_append, mem_positions, Nat.zero_le, true_and, Nat.sub_zero]
    constructor
    · rintro ⟨e, he, hp⟩
      have hmem : e ∈ list := List.mem_iff_getElem?.mpr ⟨i, he⟩
      exact ⟨e, he, (pattern_match_iff _ e hq hlit (ha e hmem)).mp hp⟩
    · rintro ⟨e, he, hp⟩
      have hmem : e ∈ list := List.mem_iff_getElem?.mpr ⟨i, he⟩
      exact ⟨e, he, (pattern_match_iff _ e hq hlit (ha e hmem)).mpr hp⟩
  · intro hno
    rw [name_search_eq, pattern_pass_eq]
    simp [hno]

theorem pattern_pass_substring_witness :
    no_nul (remove_ws_punct "light") ∧
      (∀ e ∈ [light_mks, bohr_radius], ∀ a ∈ e.names, no_nul (remove_ws_punct a)) ∧
      (∀ i, i ∈ (pattern_pass ("*" ++ remove_ws_punct "light" ++ "*")
            [light_mks, bohr_radius] 0 ([], 0)).1 ↔
        ∃ e, [light_mks, bohr_radius][i]? = some e ∧
          substring_match (remove_ws_punct "light") e) ∧
      ([light_mks, bohr_radius].any (exact_match (remove_ws_punct "light")) = false →
        (name_search [light_mks, bohr_radius] (remove_ws_punct "light")).1 =
          (pattern_pass ("*" ++ remove_ws_punct "light" ++ "*")
            [light_mks, bohr_radius] 0 ([], 0)).1) ∧
      ∀ s : String, ∀ c ∈ (remove_ws_punct s).data,
        c ≠ '*' ∧ c ≠ '?' ∧ c ≠ '[' ∧ c ≠ ']' ∧ c ≠ '\\' :=
  ⟨by decide, by decide,
    pattern_pass_substring [light_mks, bohr_radius] "light" (by decide) (by decide)⟩

/-! ## The empty query -/

theorem exact_match_empty (e : const_entry)
    (h : ∀ a ∈ e.names, remove_ws_punct a ≠ "") : exact_match "" e = false := by
  unfold exact_match
  rw [List.any_eq_false]
  intro a hmem
  rw [iequals_eq]
  simp only [decide_eq_true_eq]
  intro heq
  apply h a hmem
  unfold equal_ignoring_case at heq
  have hd : (remove_ws_punct a).data = [] := by
    have : (remove_ws_punct a).data.map Char.toUpper = [] := by
      rw [← heq]
      rfl
    exact List.map_eq_nil_iff.mp this
  exact String.ext hd

theorem pattern_match_empty (e : const_entry) (h : e.names ≠ []) :
    pattern_match "" e = true := by
  unfold pattern_match
  rw [List.any_eq_true]
  obtain ⟨a, hmem⟩ := List.exists_mem_of_ne_nil _ h
  refine ⟨a, hmem, ?_⟩
  have hp : c_str ("*" ++ "" ++ "*") = ['*', '*'] := by decide
  unfold fnmatch
  rw [hp, fnmatch_loop_star_star _ _ (by simp; omega)]
  rfl

/-- C39: when the normalized query is empty, the unit is empty, and the
catalog has two or more entries, each with at least one name and none
with a name whose normalized form is empty, `find_nothrow` returns the
whole catalog with the status `pattern_matches_no_unit`. -/
theorem find_nothrow_empty_query (cu : convert_units) (list : List const_entry)
    (name : String) (hq : remove_ws_punct name = "")
    (hall : ∀ e ∈ list, e.names ≠ [] ∧ ∀ a ∈ e.names, remove_ws_punct a ≠ "")
    (h2 : 2 ≤ list.length) :
    find_nothrow cu list name "" = some (pattern_matches_no_unit, list) := by
  have hex : list.any (exact_match "") = false := by
    rw [List.any_eq_false]
    intro e he
    rw [exact_match_empty e (hall e he).2]
    simp
  have hnm : name_matches list "" = list := by
    unfold name_matches
    rw [hex]
    simp only [Bool.false_eq_true, if_false]
    rw [List.filter_eq_self]
    exact fun e he => pattern_match_empty e (hall e he).1
  rw [find_nothrow_eq]
  unfold find_result
  simp only [hq, hnm, hex]
  obtain ⟨e1, e2, es, rfl⟩ : ∃ e1 e2 es, list = e1 :: e2 :: es := by
    match list, h2 with
    | e1 :: e2 :: es, _ => exact ⟨e1, e2, es, rfl⟩
  rfl

theorem find_nothrow_empty_query_witness :
    remove_ws_punct " ., " = "" ∧
      (∀ e ∈ [light_mks, bohr_radius],
        e.names ≠ [] ∧ ∀ a ∈ e.names, remove_ws_punct a ≠ "") ∧
      2 ≤ [light_mks, bohr_radius].length ∧
      find_nothrow no_conversion [light_mks, bohr_radius] " ., " ""
        = some (pattern_matches_no_unit, [light_mks, bohr_radius]) :=
  ⟨by decide, by decide, by decide,
    find_nothrow_empty_query no_conversion [light_mks, bohr_radius] " ., "
      (by decide) (by decide) (by decide)⟩


/-! ## One name match and the empty unit -/

theorem unit_match_logic_empty (f : const_entry) :
    unit_match_logic "" f = true ↔ (f.unit_flag = fc_none ∨ f.unit = "") := by
  unfold unit_match_logic
  simp only [iequals_eq]
  have e1 : ¬ equal_ignoring_case "" "any" := by decide
  have e2 : ¬ equal_ignoring_case "" "mks" := by decide
  have e3 : ¬ equal_ignoring_case "" "cgs" := by decide
  have e4 : equal_ignoring_case "" f.unit ↔ f.unit = "" := by
    unfold equal_ignoring_case
    constructor
    · intro h
      have hd : f.unit.data = [] := by
        have : f.unit.data.map Char.toUpper = [] := by
          rw [← h]
          rfl
        exact List.map_eq_nil_iff.mp this
      exact String.ext hd
    · intro h
      rw [h]
  simp [e1, e2, e3, e4]

/-- C2, amended: when exactly one entry matches the query by name and the
requested unit is empty, `find_nothrow` returns that entry unmodified,
whatever the converter; the status is `one_exact_match_unit_match` or
`one_pattern_match_unit_match` if the flag of the entry is NONE or its
stored unit is empty, and `one_exact_match_unit_diff` or
`one_pattern_match_unit_diff` otherwise. -/
theorem find_nothrow_single_empty_unit (cu : convert_units)
    (list : List const_entry) (name : String) (e : const_entry)
    (hone : name_matches list (remove_ws_punct name) = [e]) :
    find_nothrow cu list name "" =
      some (if e.unit_flag = fc_none ∨ e.unit = "" then
          (if list.any (exact_match (remove_ws_punct name)) = true
            then one_exact_match_unit_match else one_pattern_match_unit_match)
        else
          (if list.any (exact_match (remove_ws_punct name)) = true
            then one_exact_match_unit_diff else one_pattern_match_unit_diff),
        [e]) := by
  rw [find_nothrow_eq]
  unfold find_result
  have hlen : ¬ (("" : String).length > 0) := by decide
  by_cases hu : unit_match_logic "" e = true
  · have hflag := (unit_match_logic_empty e).mp hu
    simp only [hone, hu, if_true, one_unit_ok, hflag]
  · have hflag : ¬ (e.unit_flag = fc_none ∨ e.unit = "") :=
      fun h => hu ((unit_match_logic_empty e).mpr h)
    have hu2 : unit_match_logic "" e = false := by simpa using hu
    simp only [hone, hu2, Bool.false_eq_true, hlen, false_and, if_false,
      one_unit_mismatch, hflag]

/-- The query "avogadro" with the empty unit on the catalog of the Bohr
radius and the Avogadro number: the one match has the flag NONE and the
empty unit is accepted. -/
theorem find_nothrow_single_empty_unit_witness :
    name_matches [bohr_radius, avogadro] (remove_ws_punct "avogadro") = [avogadro] ∧
      find_nothrow no_conversion [bohr_radius, avogadro] "avogadro" ""
        = some (one_exact_match_unit_match, [avogadro]) :=
  ⟨by decide,
    find_nothrow_single_empty_unit no_conversion [bohr_radius, avogadro]
      "avogadro" avogadro (by decide)⟩

end o2scl
